import Mathlib

/-!
# go-png-cgbi: chunk transcoder between PNG and Apple's CgBI variant

A shallow embedding of `util.go`, `cgbi.go`, `reader.go` and `writer.go`, and the
properties of the channel fixer, the chunk writer, the decoder and the encoder proved
about it.

Conventions of the embedding:

* a byte is a natural number (readers and buffers hold values below 256), a byte
  slice is a `List Nat`;
* Go's `int` is an `Int`, and its division is `Int.tdiv`. `rawImageFix` and the
  functions it is made of (`passWidth`, `passHeight`, `pSize`, `fixPasses`) compute in
  exact integer arithmetic; `rawImageFix64` and `passWidth64`, `passHeight64`,
  `pSize64`, `fixPasses64` are the same functions with the result of every operation
  wrapped into the range of a 64-bit `int` (`wrapInt64`). The two agree as soon as
  `w + 7`, `h + 7` and the exact sum of the seven pass lengths are at most
  `math.MaxInt64` (`rawImageFix64_adam7_eq`), which is so when `h * (4*w + 7)` is
  (`passesTotal_le`); the decoder and the encoder are written with the exact one. Loop
  counters and slice indices, which never go below zero, are `Nat`;
* a function that mutates a slice or the decoder in place returns the new value;
* a run-time panic (index or slice bound out of range) is `none`;
* a Go `error` result is an `Option GoError`, `none` being `nil`;
* the reader of the decoder is the list of the bytes not yet read; the two
  `bytes.Buffer`s are the lists of the bytes written to them;
* `compress/zlib` is a parameter (`Zlib`); `hash/crc32` and `encoding/binary` are
  modelled by the functions they compute;
* the destination of the encoder is the list of the bytes written to it, and every
  write is accepted; `png.Encode` is a parameter, a function from the image to the
  bytes it leaves in the staging buffer and its error;
* an `*image.NRGBA` is its rectangle and a function from points to pixels, read and
  written through `At` and `SetNRGBA` as the package `image` defines them; an image of
  another type is its rectangle and the values of `At(x, y).RGBA()`.

The file has two parts: the definitions, then the theorems.
-/

namespace Cgbi

/-! ## Errors (`reader.go`) -/

/-- Errors of the standard library that reach the package: `io.EOF`,
`io.ErrUnexpectedEOF`, `zlib.ErrChecksum`, `zlib.ErrHeader`, `zlib.ErrDictionary`, and
any other error of the inflate collaborator. -/
inductive LibError where
  | EOF
  | ErrUnexpectedEOF
  | ErrChecksum
  | ErrHeader
  | ErrDictionary
  | other (msg : String)
  deriving DecidableEq, Repr

/-- Error values that the package returns: its three string error types of
`reader.go`, or an error passed on from the standard library. -/
inductive GoError where
  | FormatError (msg : String)
  | UnsupportedError (msg : String)
  | UnexpectedError (msg : String)
  | lib (e : LibError)
  deriving DecidableEq, Repr

/-- The value `chunkOrderError = FormatError("chunk out of order")`. -/
def chunkOrderError : GoError := GoError.FormatError "chunk out of order"

/-! ## Constants of `util.go` -/

def ctGrayscale : Nat := 0
def ctTrueColor : Nat := 2
def ctPaletted : Nat := 3
def ctGrayscaleAlpha : Nat := 4
def ctTrueColorAlpha : Nat := 6

def cbInvalid : Nat := 0
def cbTCA8 : Nat := 11

def itNone : Int := 0
def itAdam7 : Int := 1

/-- Placement and size of one Adam7 pass. -/
structure interlaceScan where
  xFactor : Int
  yFactor : Int
  xOffset : Int
  yOffset : Int
  deriving DecidableEq, Repr

/-- The table `interlacing`: the seven Adam7 passes. -/
def interlacing : List interlaceScan :=
  [ ⟨8, 8, 0, 0⟩,
    ⟨8, 8, 4, 0⟩,
    ⟨4, 8, 0, 4⟩,
    ⟨4, 4, 2, 0⟩,
    ⟨2, 4, 0, 2⟩,
    ⟨2, 2, 1, 0⟩,
    ⟨1, 2, 0, 1⟩ ]

/-! ## The channel fixer (`util.go`) -/

/-- The statement `raw[i+2], raw[i+0] = raw[i+0], raw[i+2]`: both elements are read,
then `raw[i+2]` and `raw[i]` are assigned. An index outside the slice panics. -/
def swapRB (raw : List Nat) (i : Nat) : Option (List Nat) :=
  if i + 2 < raw.length then
    some ((raw.set (i + 2) (raw.getD i 0)).set i (raw.getD (i + 2) 0))
  else none

/-- The inner loop of `unsafeImageFix`, `for x := 0; x < w; x++`, with `n` iterations
left and the cursor at `i`; returns the slice and the cursor. -/
def fixRow : Nat → Nat → List Nat → Option (List Nat × Nat)
  | 0, i, raw => some (raw, i)
  | n + 1, i, raw =>
    match swapRB raw i with
    | none => none
    | some raw1 => fixRow n (i + 4) raw1

/-- The outer loop of `unsafeImageFix`, `for y := 0; y < h; y++`, with `m` iterations
left: the cursor steps over the filter byte, then the row of `w` pixels is fixed. -/
def fixRows (w : Nat) : Nat → Nat → List Nat → Option (List Nat × Nat)
  | 0, i, raw => some (raw, i)
  | m + 1, i, raw =>
    match fixRow w (i + 1) raw with
    | none => none
    | some (raw1, i1) => fixRows w m i1 raw1

/-- Go's `unsafeImageFix(w, h, raw)`: swaps the red and blue bytes of each pixel.
A loop bounded by a negative `w` or `h` does not run. -/
def unsafeImageFix (w h : Int) (raw : List Nat) : Option (List Nat) :=
  (fixRows w.toNat h.toNat 0 raw).map Prod.fst

/-- Width of a pass: `(w - p.xOffset + p.xFactor - 1) / p.xFactor`, in exact integer
arithmetic (`passWidth64` is the same on a 64-bit `int`). -/
def passWidth (p : interlaceScan) (w : Int) : Int :=
  Int.tdiv (w - p.xOffset + p.xFactor - 1) p.xFactor

/-- Height of a pass: `(h - p.yOffset + p.yFactor - 1) / p.yFactor`, in exact integer
arithmetic (`passHeight64` is the same on a 64-bit `int`). -/
def passHeight (p : interlaceScan) (h : Int) : Int :=
  Int.tdiv (h - p.yOffset + p.yFactor - 1) p.yFactor

/-- The byte length of a pass as `rawImageFix` computes it: `pSize := wp*hp*4 + hp`, in
exact integer arithmetic (`pSize64` is the same on a 64-bit `int`). -/
def pSize (p : interlaceScan) (w h : Int) : Int :=
  passWidth p w * passHeight p h * 4 + passHeight p h

/-- The loop `for pass := 0; pass < 7; pass++` of `rawImageFix` over the passes that are
left, with the running `total`. `unsafeImageFix` works on the slice `raw[total:]`, which
shares its memory with `raw`; slicing panics when `total` is outside `0..len(raw)`. The
arithmetic is exact (`fixPasses64` is the same on a 64-bit `int`). -/
def fixPasses (w h : Int) : List interlaceScan → Int → List Nat → Option (List Nat × Option GoError)
  | [], _, raw => some (raw, none)
  | p :: ps, total, raw =>
    if total + pSize p w h > raw.length then
      some (raw, some (GoError.UnexpectedError "amount of image data"))
    else if total < 0 ∨ total > raw.length then none
    else
      match unsafeImageFix (passWidth p w) (passHeight p h) (raw.drop total.toNat) with
      | none => none
      | some tail => fixPasses w h ps (total + pSize p w h) (raw.take total.toNat ++ tail)

/-- Go's `rawImageFix(w, h, interlace, raw)`: the slice after the call and the error
returned, or `none` when the call panics. The arithmetic is exact (`rawImageFix64` is
the same on a 64-bit `int`). -/
def rawImageFix (w h interlace : Int) (raw : List Nat) : Option (List Nat × Option GoError) :=
  if interlace = itNone then
    match unsafeImageFix w h raw with
    | none => none
    | some raw1 => some (raw1, none)
  else fixPasses w h interlacing 0 raw

/-! ## The Adam7 loop with Go's 64-bit `int` -/

/-- Go's `int` on a 64-bit platform: the value that an exact integer result takes in
an `int`, after wrap-around into the range from `-2^63` to `2^63 - 1`. -/
def wrapInt64 (x : Int) : Int :=
  (x + 9223372036854775808) % 18446744073709551616 - 9223372036854775808

/-- Width of a pass, `(w - p.xOffset + p.xFactor - 1) / p.xFactor`, each operation on a
64-bit `int`. -/
def passWidth64 (p : interlaceScan) (w : Int) : Int :=
  wrapInt64 (Int.tdiv (wrapInt64 (wrapInt64 (wrapInt64 (w - p.xOffset) + p.xFactor) - 1))
    p.xFactor)

/-- Height of a pass, `(h - p.yOffset + p.yFactor - 1) / p.yFactor`, each operation on
a 64-bit `int`. -/
def passHeight64 (p : interlaceScan) (h : Int) : Int :=
  wrapInt64 (Int.tdiv (wrapInt64 (wrapInt64 (wrapInt64 (h - p.yOffset) + p.yFactor) - 1))
    p.yFactor)

/-- The byte length of a pass, `pSize := wp*hp*4 + hp`, each operation on a 64-bit
`int`. -/
def pSize64 (p : interlaceScan) (w h : Int) : Int :=
  wrapInt64 (wrapInt64 (wrapInt64 (passWidth64 p w * passHeight64 p h) * 4)
    + passHeight64 p h)

/-- The loop `for pass := 0; pass < 7; pass++` of `rawImageFix` as `fixPasses`, with
`wp`, `hp`, `pSize`, the sum `total+pSize` of the guard and the new `total` computed on
a 64-bit `int`. Slicing `raw[total:]` panics when `total` is outside `0..len(raw)`. -/
def fixPasses64 (w h : Int) :
    List interlaceScan → Int → List Nat → Option (List Nat × Option GoError)
  | [], _, raw => some (raw, none)
  | p :: ps, total, raw =>
    if wrapInt64 (total + pSize64 p w h) > raw.length then
      some (raw, some (GoError.UnexpectedError "amount of image data"))
    else if total < 0 ∨ total > raw.length then none
    else
      match unsafeImageFix (passWidth64 p w) (passHeight64 p h) (raw.drop total.toNat) with
      | none => none
      | some tail =>
        fixPasses64 w h ps (wrapInt64 (total + pSize64 p w h)) (raw.take total.toNat ++ tail)

/-- Go's `rawImageFix(w, h, interlace, raw)` on a platform whose `int` has 64 bits: as
`rawImageFix`, the Adam7 loop being `fixPasses64`. The cursor `i` of `unsafeImageFix`
needs no wrap-around: it is at most the number of rows while no pixel is swapped, and
a swap at `i` panics unless `i + 2 < len(raw)`. -/
def rawImageFix64 (w h interlace : Int) (raw : List Nat) :
    Option (List Nat × Option GoError) :=
  if interlace = itNone then
    match unsafeImageFix w h raw with
    | none => none
    | some raw1 => some (raw1, none)
  else fixPasses64 w h interlacing 0 raw

/-- The largest value of a 64-bit `int`, `math.MaxInt64`. -/
def maxInt64 : Int := 9223372036854775807

/-! ## Collaborators from the standard library -/

/-- The function `binary.BigEndian.PutUint32`, also `binary.Write` of a `uint32`. -/
def putUint32 (v : Nat) : List Nat :=
  [v / 16777216 % 256, v / 65536 % 256, v / 256 % 256, v % 256]

/-- The function `binary.BigEndian.Uint32` on the first four bytes of `b`. -/
def beUint32 (b : List Nat) : Nat :=
  b.getD 0 0 * 16777216 + b.getD 1 0 * 65536 + b.getD 2 0 * 256 + b.getD 3 0

/-- One bit of the CRC-32 table construction, polynomial `0xedb88320` (IEEE). -/
def crcBit (c : Nat) : Nat :=
  if c % 2 = 1 then (c / 2) ^^^ 0xedb88320 else c / 2

/-- Entry `i` of the IEEE table of `hash/crc32`. -/
def crcTable (i : Nat) : Nat :=
  crcBit (crcBit (crcBit (crcBit (crcBit (crcBit (crcBit (crcBit i)))))))

/-- One byte of the table-driven update: `tab[byte(crc)^v] ^ (crc >> 8)`. -/
def crcByte (c v : Nat) : Nat :=
  crcTable ((c % 256) ^^^ (v % 256)) ^^^ (c / 256)

/-- The update of `hash/crc32`: the digest value after writing `p` to a digest whose
value was `crc`. A fresh or reset digest has value 0 and `Sum32` returns the value. -/
def crc32Update (crc : Nat) (p : List Nat) : Nat :=
  (p.foldl crcByte (crc ^^^ 0xffffffff)) ^^^ 0xffffffff

/-- CRC-32 (IEEE) of a byte string. -/
def crc32 (p : List Nat) : Nat := crc32Update 0 p

/-- The zlib collaborator (`compress/zlib`), seen through the calls the package makes.
`newReader s` is the error of `zlib.NewReader` on a stream holding `s`; `readAll s` is
the result of `ioutil.ReadAll` on that reader; `compress data` is what
`zlib.NewWriter(buf)`, `Write(data)`, `Close()` leave in an empty buffer. -/
structure Zlib where
  newReader : List Nat → Option LibError
  readAll : List Nat → List Nat × Option LibError
  compress : List Nat → List Nat

/-- The call `io.ReadFull(r, buf[:n])` on a reader holding the bytes `r`: the bytes
read, the bytes left in the reader and the error. -/
def readFull (r : List Nat) (n : Nat) : List Nat × List Nat × Option GoError :=
  if n ≤ r.length then (r.take n, r.drop n, none)
  else if r.length = 0 then ([], [], some (GoError.lib LibError.EOF))
  else (r, [], some (GoError.lib LibError.ErrUnexpectedEOF))

/-- A write of `p` into a `bytes.Buffer` holding `b`; it never fails. -/
def bufferWrite (b p : List Nat) : List Nat × Option GoError := (b ++ p, none)

/-! ## The chunk writer (`util.go`) -/

/-- Go's `makeChunk(w, typ, data)` on a writer that is a `bytes.Buffer` holding `w`
(as in `parseIEND`): the buffer after the call and the error returned. -/
def makeChunk (w typ data : List Nat) : List Nat × Option GoError :=
  let chunkLength := data.length % 4294967296
  match bufferWrite w (putUint32 chunkLength) with
  | (w1, some err) => (w1, some err)
  | (w1, none) =>
    match bufferWrite w1 typ with
    | (w2, some err) => (w2, some err)
    | (w2, none) =>
      match bufferWrite w2 data with
      | (w3, some err) => (w3, some err)
      | (w3, none) =>
        let crc := crc32Update (crc32Update 0 typ) data
        bufferWrite w3 (putUint32 crc)

/-! ## The decoder (`reader.go`, `cgbi.go`) -/

def dsStart : Nat := 0
def dsSeenCgBI : Nat := 1
def dsSeenIHDR : Nat := 2
def dsSeenIDAT : Nat := 3
def dsSeenIEND : Nat := 4

/-- The signature `"\x89PNG\r\n\x1a\n"`. -/
def pngHeader : List Nat := [0x89, 0x50, 0x4e, 0x47, 0x0d, 0x0a, 0x1a, 0x0a]

def chunkDataCgBIValue : Nat := 1342185478

/-- The bytes `chunkDataCgBI`, filled by `init` with the big-endian marker value. -/
def chunkDataCgBI : List Nat := putUint32 chunkDataCgBIValue

/-- The type tag `"CgBI"`. -/
def tagCgBI : List Nat := [67, 103, 66, 73]
/-- The type tag `"IHDR"`. -/
def tagIHDR : List Nat := [73, 72, 68, 82]
/-- The type tag `"IDAT"`. -/
def tagIDAT : List Nat := [73, 68, 65, 84]
/-- The type tag `"IEND"`. -/
def tagIEND : List Nat := [73, 69, 78, 68]

/-- The struct `decoder`. `r` holds the bytes not yet read, `buff` and `zbuff` the
contents of the two buffers, `crc` the value of the running CRC-32 digest. -/
structure decoder where
  r : List Nat
  buff : List Nat
  zbuff : List Nat
  crc : Nat
  width : Int
  height : Int
  interlace : Int
  stage : Nat
  cb : Nat
  tmp : List Nat
  deriving DecidableEq, Repr

/-- The call `io.ReadFull(d.r, d.tmp[:n])`: the bytes read overwrite the start of
`d.tmp`. -/
def decoder.readTmp (d : decoder) (n : Nat) : decoder × Option GoError :=
  match readFull d.r n with
  | (bytes, rest, err) => ({ d with r := rest, tmp := bytes ++ d.tmp.drop bytes.length }, err)

/-- Go's `(d *decoder) checkHeader()`. -/
def checkHeader (d : decoder) : decoder × Option GoError :=
  match d.readTmp pngHeader.length with
  | (d1, some err) => (d1, some err)
  | (d1, none) =>
    if d1.tmp.take pngHeader.length ≠ pngHeader then
      (d1, some (GoError.FormatError "not a PNG file"))
    else ({ d1 with buff := d1.buff ++ d1.tmp.take pngHeader.length }, none)

/-- Go's `(d *decoder) verifyChecksum(bWriteCRC)`. -/
def verifyChecksum (d : decoder) (bWriteCRC : Bool) : decoder × Option GoError :=
  match d.readTmp 4 with
  | (d1, some err) => (d1, some err)
  | (d1, none) =>
    if beUint32 (d1.tmp.take 4) ≠ d1.crc then
      (d1, some (GoError.FormatError "invalid checksum"))
    else if !bWriteCRC then (d1, none)
    else ({ d1 with buff := d1.buff ++ d1.tmp.take 4 }, none)

/-- Go's `(d *decoder) parseCgBI(length)`. -/
def parseCgBI (d : decoder) (length : Nat) : decoder × Option GoError :=
  if length ≠ 4 then (d, some (GoError.FormatError "bad CgBI length"))
  else
    match d.readTmp 4 with
    | (d1, some err) => (d1, some err)
    | (d1, none) =>
      let d2 := { d1 with crc := crc32Update d1.crc (d1.tmp.take 4) }
      if chunkDataCgBIValue ≠ beUint32 (d2.tmp.take 4) then
        (d2, some (GoError.FormatError "bad CgBI data"))
      else verifyChecksum d2 false

/-- Go's `(d *decoder) parseIHDR(length)`. -/
def parseIHDR (d : decoder) (length : Nat) : decoder × Option GoError :=
  if length ≠ 13 then (d, some (GoError.FormatError "bad IHDR length"))
  else
    let d0 := { d with buff := d.buff ++ d.tmp.take 8 }
    match d0.readTmp 13 with
    | (d1, some err) => (d1, some err)
    | (d1, none) =>
      if ((d1.tmp.getD 12 0 : Nat) : Int) ≠ itNone ∧ ((d1.tmp.getD 12 0 : Nat) : Int) ≠ itAdam7 then
        (d1, some (GoError.FormatError "invalid interlace method"))
      else
        let d2 := if d1.tmp.getD 8 0 = 8 ∧ d1.tmp.getD 9 0 = ctTrueColorAlpha
          then { d1 with cb := cbTCA8 } else d1
        let d3 := { d2 with
          interlace := ((d2.tmp.getD 12 0 : Nat) : Int)
          width := ((beUint32 (d2.tmp.take 4) : Nat) : Int)
          height := ((beUint32 ((d2.tmp.drop 4).take 4) : Nat) : Int) }
        let d4 := { d3 with crc := crc32Update d3.crc (d3.tmp.take 13) }
        let d5 := { d4 with buff := d4.buff ++ d4.tmp.take 13 }
        verifyChecksum d5 true

/-- The loop `for length > 0` of `parseIDAT`, which reads the payload in pieces of at
most 4096 bytes into the CRC digest and `zbuff`. Each round reads at least one byte, so
`fuel = length` rounds are enough. -/
def idatLoop : Nat → decoder → Nat → decoder × Option GoError
  | 0, d, _ => (d, none)
  | fuel + 1, d, length =>
    if length > 0 then
      match readFull d.r (min 4096 length) with
      | (_, rest, some err) => ({ d with r := rest }, some err)
      | (ignored, rest, none) =>
        idatLoop fuel
          { d with r := rest, crc := crc32Update d.crc ignored, zbuff := d.zbuff ++ ignored }
          (length - ignored.length)
    else (d, none)

/-- Go's `(d *decoder) parseIDAT(length)`. -/
def parseIDAT (d : decoder) (length : Nat) : decoder × Option GoError :=
  if length > 0x7fffffff then
    (d, some (GoError.FormatError ("Bad chunk length: " ++ toString length)))
  else
    match idatLoop length d length with
    | (d1, some err) => (d1, some err)
    | (d1, none) => verifyChecksum d1 false

/-- Go's `(d *decoder) parseIEND(length)`; `none` when `rawImageFix` panics. -/
def parseIEND (z : Zlib) (d : decoder) (length : Nat) : Option (decoder × Option GoError) :=
  if length ≠ 0 then some (d, some (GoError.FormatError "bad IEND length"))
  else
    let d1 := { d with zbuff := d.zbuff ++ [0, 0, 0, 0] }
    match z.newReader d1.zbuff with
    | some err => some (d1, some (GoError.lib err))
    | none =>
      match z.readAll d1.zbuff with
      | (data, err) =>
        if err ≠ some LibError.ErrChecksum then some (d1, err.map GoError.lib)
        else
          match rawImageFix d1.width d1.height d1.interlace data with
          | none => none
          | some (_, some err1) => some (d1, some err1)
          | some (data1, none) =>
            let d2 := { d1 with zbuff := z.compress data1 }
            match makeChunk d2.buff tagIDAT d2.zbuff with
            | (b, some err2) => some ({ d2 with buff := b }, some err2)
            | (b, none) =>
              let d3 := { d2 with buff := b }
              let d4 := { d3 with buff := d3.buff ++ d3.tmp.take 8 }
              some (verifyChecksum d4 true)

/-- The loop `for length > 0` at the end of `parseChunk`, which copies the payload of
a chunk of any other type in pieces of at most 4096 bytes into the CRC digest and
`buff`. Each round reads at least one byte, so `fuel = length` rounds are enough. -/
def ignoreLoop : Nat → decoder → Nat → decoder × Option GoError
  | 0, d, _ => (d, none)
  | fuel + 1, d, length =>
    if length > 0 then
      match readFull d.r (min 4096 length) with
      | (_, rest, some err) => ({ d with r := rest }, some err)
      | (ignored, rest, none) =>
        ignoreLoop fuel
          { d with r := rest, crc := crc32Update d.crc ignored, buff := d.buff ++ ignored }
          (length - ignored.length)
    else (d, none)

/-- Go's `(d *decoder) parseChunk()`; `none` when it panics. -/
def parseChunk (z : Zlib) (d : decoder) : Option (decoder × Option GoError) :=
  match d.readTmp 8 with
  | (d1, some err) => some (d1, some err)
  | (d1, none) =>
    let length := beUint32 (d1.tmp.take 4)
    let d2 := { d1 with crc := crc32Update 0 ((d1.tmp.drop 4).take 4) }
    let typ := (d2.tmp.drop 4).take 4
    if typ = tagCgBI then
      if d2.stage ≠ dsStart then some (d2, some chunkOrderError)
      else some (parseCgBI { d2 with stage := dsSeenCgBI } length)
    else if typ = tagIHDR then
      if d2.stage ≠ dsSeenCgBI then some (d2, some chunkOrderError)
      else
        match parseIHDR { d2 with stage := dsSeenIHDR } length with
        | (d3, some err) => some (d3, some err)
        | (d3, none) =>
          if d3.cb ≠ cbTCA8 then some (d3, some (GoError.FormatError "cb must cbTCA8 "))
          else some (d3, none)
    else if typ = tagIDAT then
      if d2.stage < dsSeenIHDR ∨ d2.stage > dsSeenIDAT then some (d2, some chunkOrderError)
      else some (parseIDAT { d2 with stage := dsSeenIDAT } length)
    else if typ = tagIEND then
      if d2.stage ≠ dsSeenIDAT then some (d2, some chunkOrderError)
      else parseIEND z { d2 with stage := dsSeenIEND } length
    else if length > 0x7fffffff then
      some (d2, some (GoError.FormatError ("Bad chunk length: " ++ toString length)))
    else
      let d3 := { d2 with buff := d2.buff ++ d2.tmp.take 8 }
      match ignoreLoop length d3 length with
      | (d4, some err) => some (d4, some err)
      | (d4, none) => some (verifyChecksum d4 true)

/-- What `decode` returns: a decoder and a nil error, or no decoder and an error; or
the call panics. -/
inductive DecodeResult where
  | ok (d : decoder)
  | err (e : GoError)
  | panic
  deriving DecidableEq, Repr

/-- The rewriting `if err == io.EOF { err = io.ErrUnexpectedEOF }`. -/
def eofToUnexpected (e : GoError) : GoError :=
  if e = GoError.lib LibError.EOF then GoError.lib LibError.ErrUnexpectedEOF else e

/-- The loop `for d.stage != dsSeenIEND` of `decode`, run for at most `fuel` chunks;
`none` when the fuel is used up before the loop ends. -/
def decodeLoop (z : Zlib) : Nat → decoder → Option DecodeResult
  | 0, _ => none
  | fuel + 1, d =>
    if d.stage ≠ dsSeenIEND then
      match parseChunk z d with
      | none => some DecodeResult.panic
      | some (_, some err) => some (DecodeResult.err (eofToUnexpected err))
      | some (d1, none) => decodeLoop z fuel d1
    else some (DecodeResult.ok d)

/-- The decoder that `decode` builds around the reader `r`. -/
def newDecoder (r : List Nat) : decoder :=
  { r := r, buff := [], zbuff := [0x78, 0x1], crc := 0, width := 0, height := 0,
    interlace := 0, stage := 0, cb := 0, tmp := List.replicate (3 * 256) 0 }

/-- Go's `decode(r)` on a reader holding `input`. A successful `parseChunk` reads at
least eight bytes, so `len(input) + 1` rounds of the loop are enough. -/
def decode (z : Zlib) (input : List Nat) : Option DecodeResult :=
  match checkHeader (newDecoder input) with
  | (_, some err) => some (DecodeResult.err (eofToUnexpected err))
  | (d, none) => decodeLoop z (input.length + 1) d

/-! ## Chunks and chunk streams -/

/-- A chunk as it stands in a stream, fully present: type tag, payload and the stored
CRC value; its declared length is the length of the payload. -/
structure Chunk where
  typ : List Nat
  data : List Nat
  crc : Nat
  deriving DecidableEq, Repr

/-- The bytes of a chunk: length, type, payload, CRC. -/
def Chunk.bytes (c : Chunk) : List Nat :=
  putUint32 c.data.length ++ c.typ ++ c.data ++ putUint32 c.crc

/-- A chunk that a byte stream can hold: a four-byte tag, a length and a CRC that fit
32 bits. -/
def Chunk.WF (c : Chunk) : Prop :=
  c.typ.length = 4 ∧ c.data.length < 4294967296 ∧ c.crc < 4294967296

/-- The chunk with payload `data` and the right CRC. -/
def Chunk.mk0 (typ data : List Nat) : Chunk := ⟨typ, data, crc32 (typ ++ data)⟩

/-- The bytes of a sequence of chunks. -/
def streamOf (cs : List Chunk) : List Nat := cs.flatMap Chunk.bytes

/-- The decoder as `decode` leaves it after `checkHeader`, the reader holding `input`
after the signature. -/
def startDecoder (input : List Nat) : decoder :=
  { r := input, buff := pngHeader, zbuff := [0x78, 0x1], crc := 0, width := 0, height := 0,
    interlace := 0, stage := dsStart, cb := cbInvalid,
    tmp := pngHeader ++ List.replicate (3 * 256 - 8) 0 }

/-- Successive calls of `parseChunk`, `k` of them, stopping at the first error: the
decoder after the last call made and its error; `none` when a call panics. -/
def parseChunks (z : Zlib) : Nat → decoder → Option (decoder × Option GoError)
  | 0, d => some (d, none)
  | k + 1, d =>
    match parseChunk z d with
    | none => none
    | some (d1, some err) => some (d1, some err)
    | some (d1, none) => parseChunks z k d1

/-! ## A collaborator for concrete inputs -/

/-- Adler-32 of a byte string. -/
def adler32 (p : List Nat) : Nat :=
  let ab := p.foldl (fun (ab : Nat × Nat) v =>
    (((ab.1 + v) % 65521), ((ab.2 + (ab.1 + v) % 65521) % 65521))) (1, 0)
  ab.2 * 65536 + ab.1

/-- Inflate of a deflate stream made of stored blocks only: the data and the bytes
after the final block; `none` for a malformed or a compressed block. -/
def inflateStored : Nat → List Nat → Option (List Nat × List Nat)
  | 0, _ => none
  | fuel + 1, s =>
    match s with
    | hdr :: l0 :: l1 :: n0 :: n1 :: rest =>
      if (hdr / 2) % 4 = 0 ∧ (l0 + 256 * l1) + (n0 + 256 * n1) = 65535
          ∧ l0 + 256 * l1 ≤ rest.length then
        if hdr % 2 = 1 then some (rest.take (l0 + 256 * l1), rest.drop (l0 + 256 * l1))
        else
          match inflateStored fuel (rest.drop (l0 + 256 * l1)) with
          | none => none
          | some (data, rest1) => some (rest.take (l0 + 256 * l1) ++ data, rest1)
      else none
    | _ => none

/-- Deflate with stored blocks only, `fuel` blocks of at most 65535 bytes. -/
def deflateStored : Nat → List Nat → List Nat
  | 0, _ => []
  | fuel + 1, data =>
    if data.length ≤ 65535 then
      [1, data.length % 256, data.length / 256,
        (65535 - data.length) % 256, (65535 - data.length) / 256] ++ data
    else
      [0, 255, 255, 0, 0] ++ data.take 65535 ++ deflateStored fuel (data.drop 65535)

/-- A zlib collaborator that handles streams of stored (uncompressed) deflate blocks,
on which it does what zlib does: header check, inflate, comparison of the Adler-32
trailer. It is used for concrete inputs only. -/
def storedZlib : Zlib where
  newReader := fun s =>
    if s.length < 2 then some LibError.ErrUnexpectedEOF
    else if s.getD 0 0 % 16 ≠ 8 ∨ s.getD 0 0 / 16 > 7
        ∨ (s.getD 0 0 * 256 + s.getD 1 0) % 31 ≠ 0 then some LibError.ErrHeader
    else if (s.getD 1 0 / 32) % 2 = 1 then some LibError.ErrDictionary
    else none
  readAll := fun s =>
    match inflateStored s.length (s.drop 2) with
    | none => ([], some (LibError.other "flate: corrupt input"))
    | some (data, rest) =>
      if rest.length < 4 then (data, some LibError.ErrUnexpectedEOF)
      else if beUint32 (rest.take 4) ≠ adler32 data then (data, some LibError.ErrChecksum)
      else (data, none)
  compress := fun data =>
    [0x78, 0x01] ++ deflateStored (data.length + 1) data ++ putUint32 (adler32 data)

/-! ## Index maps describing the channel fixer -/

/-- The list whose `j`-th element is element `σ j` of `raw`. -/
def applyIdx (σ : Nat → Nat) (raw : List Nat) : List Nat :=
  (List.range raw.length).map (fun j => raw.getD (σ j) 0)

/-- Index map of one swap at cursor `i`. -/
def swapIdx (i j : Nat) : Nat :=
  if j = i then i + 2 else if j = i + 2 then i else j

/-- Index map of a row of `n` pixels starting at cursor `i`. -/
def rowIdx (n i j : Nat) : Nat :=
  if i ≤ j ∧ j < i + 4 * n then
    (if (j - i) % 4 = 0 then j + 2 else if (j - i) % 4 = 2 then j - 2 else j)
  else j

/-- Index map of `m` rows of `w` pixels, the first filter byte at cursor `i`. -/
def rowsIdx (w : Nat) : Nat → Nat → Nat → Nat
  | 0, _, j => j
  | m + 1, i, j => rowIdx w (i + 1) (rowsIdx w m (i + 1 + 4 * w) j)

/-- An index map acting on the part of the slice that starts at `t`. -/
def regionIdx (t : Nat) (f : Nat → Nat) (k : Nat) : Nat :=
  if k < t then k else t + f (k - t)

/-- Index map of the Adam7 passes `ps` of a `w × h` image, from offset `total`. -/
def passesIdx (w h : Int) : List interlaceScan → Nat → Nat → Nat
  | [], _, j => j
  | p :: ps, total, j =>
    regionIdx total (rowsIdx (passWidth p w).toNat (passHeight p h).toNat 0)
      (passesIdx w h ps (total + (pSize p w h).toNat) j)

/-- Sum of the pass byte lengths `pSize` over the passes `ps`. -/
def passesTotal (w h : Int) (ps : List interlaceScan) : Int :=
  (ps.map (fun p => pSize p w h)).sum

/-- The index map fixes everything outside `[a, b)`, maps `[a, b)` to itself and is its
own inverse. -/
def LocalInv (σ : Nat → Nat) (a b : Nat) : Prop :=
  (∀ j, j < a → σ j = j) ∧ (∀ j, b ≤ j → σ j = j) ∧
  (∀ j, a ≤ j → j < b → a ≤ σ j ∧ σ j < b) ∧ (∀ j, σ (σ j) = j)

/-- Byte length of the raw Adam7 pixel data of a `w × h` 8-bit RGBA image as the PNG
format lays it out, in the words of the specification: the sum, over the passes having
`wp > 0` and `hp > 0`, of `hp * (1 + 4 * wp)`; a pass with no pixels has no bytes. -/
def adam7RawLength (w h : Int) : Int :=
  (interlacing.map (fun p =>
    if passWidth p w > 0 ∧ passHeight p h > 0 then
      passHeight p h * (1 + 4 * passWidth p w)
    else 0)).sum

/-! ## Auxiliary definitions for the decoder -/

/-- The decoder inside `parseChunk` once the eight header bytes of the chunk `c` have
been read from a reader holding `c.bytes ++ rest`, and the digest restarted on the tag. -/
def hdrState (d : decoder) (c : Chunk) (rest : List Nat) : decoder :=
  { d with
    r := c.data ++ (putUint32 c.crc ++ rest)
    tmp := (putUint32 c.data.length ++ c.typ) ++ d.tmp.drop 8
    crc := crc32Update 0 c.typ }

/-- The four chunk types that `parseChunk` treats by name. -/
def isCritical (typ : List Nat) : Prop :=
  typ = tagCgBI ∨ typ = tagIHDR ∨ typ = tagIDAT ∨ typ = tagIEND

instance (typ : List Nat) : Decidable (isCritical typ) := by
  unfold isCritical
  infer_instance

/-- The guards of the `switch` of `parseChunk`: the stage in which the handler of a
chunk of type `typ` runs when the chunk arrives in `stage`, or `none` when `parseChunk`
answers with the chunk-order error. A chunk of any other type leaves the stage alone. -/
def nextStage (stage : Nat) (typ : List Nat) : Option Nat :=
  if typ = tagCgBI then (if stage ≠ dsStart then none else some dsSeenCgBI)
  else if typ = tagIHDR then (if stage ≠ dsSeenCgBI then none else some dsSeenIHDR)
  else if typ = tagIDAT then
    (if stage < dsSeenIHDR ∨ stage > dsSeenIDAT then none else some dsSeenIDAT)
  else if typ = tagIEND then (if stage ≠ dsSeenIDAT then none else some dsSeenIEND)
  else some stage

/-- The stages that a sequence of chunk types is taken through. -/
def runStages : Nat → List (List Nat) → Option Nat
  | s, [] => some s
  | s, t :: ts =>
    match nextStage s t with
    | none => none
    | some s1 => runStages s1 ts

/-- The subsequence of the types `CgBI`, `IHDR`, `IDAT`, `IEND` of a chunk sequence. -/
def criticalTypes (cs : List Chunk) : List (List Nat) :=
  (cs.map Chunk.typ).filter (fun t => decide (isCritical t))

/-- The legal order: one `CgBI`, one `IHDR`, `n` times `IDAT`, one `IEND`. -/
def legalOrder (n : Nat) : List (List Nat) :=
  [tagCgBI, tagIHDR] ++ List.replicate n tagIDAT ++ [tagIEND]

/-- The list of types is the start of a legal order with at least one `IDAT`. -/
def LegalStart (l : List (List Nat)) : Prop :=
  ∃ n k, 1 ≤ n ∧ l = (legalOrder n).take k

/-- What the critical types seen so far are in each stage. -/
def StageInv (s : Nat) (l : List (List Nat)) : Prop :=
  (s = dsStart ∧ l = []) ∨ (s = dsSeenCgBI ∧ l = [tagCgBI]) ∨
  (s = dsSeenIHDR ∧ l = [tagCgBI, tagIHDR]) ∨
  (s = dsSeenIDAT ∧ ∃ n, 1 ≤ n ∧ l = [tagCgBI, tagIHDR] ++ List.replicate n tagIDAT) ∨
  (s = dsSeenIEND ∧ ∃ n, 1 ≤ n ∧ l = legalOrder n)

/-- The chunks `cs` are fed one after the other to `parseChunk`, each fully present at
the reader when its call is made, and no call answers with the chunk-order error; the
calls take the decoder from the first state to the last. Between two calls the reader
may be positioned anew. -/
inductive Fed (z : Zlib) : decoder → List Chunk → decoder → Prop where
  | nil (d : decoder) : Fed z d [] d
  | cons (d d1 d3 : decoder) (c : Chunk) (cs : List Chunk) (rest r2 : List Nat)
      (e : Option GoError) :
      c.WF → d.r = c.bytes ++ rest → parseChunk z d = some (d1, e) →
      e ≠ some chunkOrderError → Fed z { d1 with r := r2 } cs d3 → Fed z d (c :: cs) d3

/-- The chunk passes the checks that `parseChunk` makes before it compares the CRC:
chunk order, length and, for `CgBI` and `IHDR`, payload content. `IEND` is left out. -/
def passesChecks (d : decoder) (c : Chunk) : Prop :=
  (c.typ = tagCgBI ∧ d.stage = dsStart ∧ c.data.length = 4 ∧
    beUint32 c.data = chunkDataCgBIValue) ∨
  (c.typ = tagIHDR ∧ d.stage = dsSeenCgBI ∧ c.data.length = 13 ∧
    (c.data.getD 12 0 = 0 ∨ c.data.getD 12 0 = 1)) ∨
  (c.typ = tagIDAT ∧ dsSeenIHDR ≤ d.stage ∧ d.stage ≤ dsSeenIDAT ∧
    c.data.length ≤ 0x7fffffff) ∨
  (¬ isCritical c.typ ∧ c.data.length ≤ 0x7fffffff)

/-- The conditions under which an `IHDR` chunk is accepted: length 13, interlace byte 0
or 1, stored CRC equal to the CRC-32 of type and payload, bit depth 8, colour type 6. -/
def ihdrAccepted (c : Chunk) : Prop :=
  c.data.length = 13 ∧ (c.data.getD 12 0 = 0 ∨ c.data.getD 12 0 = 1) ∧
  c.crc = crc32 (c.typ ++ c.data) ∧ c.data.getD 8 0 = 8 ∧ c.data.getD 9 0 = 6

/-- A `CgBI` chunk with the marker value. -/
def exCgBI : Chunk := Chunk.mk0 tagCgBI chunkDataCgBI
/-- An `IHDR` chunk: 1×1, bit depth 8, colour type 6, not interlaced. -/
def exIHDR : Chunk := Chunk.mk0 tagIHDR [0, 0, 0, 1, 0, 0, 0, 1, 8, 6, 0, 0, 0]
/-- An `IHDR` chunk as `exIHDR` but with bit depth 16. -/
def exIHDR16 : Chunk := Chunk.mk0 tagIHDR [0, 0, 0, 1, 0, 0, 0, 1, 16, 6, 0, 0, 0]
/-- An `IDAT` chunk: one stored deflate block holding the row `[0, 30, 20, 10, 255]`. -/
def exIDAT : Chunk := Chunk.mk0 tagIDAT [1, 5, 0, 250, 255, 0, 30, 20, 10, 255]
/-- The `IEND` chunk. -/
def exIEND : Chunk := Chunk.mk0 tagIEND []
/-- A `tEXt` chunk. -/
def exTEXt : Chunk := Chunk.mk0 [116, 69, 88, 116] [65, 0, 66]
/-- The chunk `exTEXt` with a wrong stored CRC. -/
def exTEXtBad : Chunk := ⟨[116, 69, 88, 116], [65, 0, 66], 7⟩

/-- The decoder after `parseIHDR` has read the payload `data` and the stored CRC of an
`IHDR` chunk and found the CRC right; `d` is the decoder when `parseIHDR` is called. -/
def ihdrDone (d : decoder) (data rest : List Nat) (crc : Nat) : decoder :=
  { d with
    r := rest
    buff := d.buff ++ d.tmp.take 8 ++ data ++ putUint32 crc
    tmp := putUint32 crc ++ (data ++ d.tmp.drop 13).drop 4
    cb := if data.getD 8 0 = 8 ∧ data.getD 9 0 = 6 then cbTCA8 else d.cb
    interlace := ((data.getD 12 0 : Nat) : Int)
    width := ((beUint32 (data.take 4) : Nat) : Int)
    height := ((beUint32 ((data.drop 4).take 4) : Nat) : Int)
    crc := crc32Update d.crc data }

instance (c : Chunk) : Decidable c.WF := by
  unfold Chunk.WF
  infer_instance

/-- A legal stream: `CgBI`, `IHDR`, one `IDAT`, `IEND`. -/
def exChunks : List Chunk := [exCgBI, exIHDR, exIDAT, exIEND]

/-- The decoder after `parseChunk` has read the first `k` chunks of the stream of `cs`
with the collaborator `storedZlib`. -/
def exAfter (cs : List Chunk) (k : Nat) : decoder :=
  ((parseChunks storedZlib k (startDecoder (streamOf cs))).getD (startDecoder [], none)).1

instance (c : Chunk) : Decidable (ihdrAccepted c) := by
  unfold ihdrAccepted
  infer_instance

instance (d : decoder) (c : Chunk) : Decidable (passesChecks d c) := by
  unfold passesChecks
  infer_instance

/-! ## Auxiliary definitions for whole streams -/

/-- The chunks that the decoder copies: all but `CgBI` and `IDAT`. -/
def keptChunks (cs : List Chunk) : List Chunk :=
  cs.filter (fun c => decide (c.typ ≠ tagCgBI ∧ c.typ ≠ tagIDAT))

/-- The payloads of the `IDAT` chunks, one after the other. -/
def idatPayload (cs : List Chunk) : List Nat :=
  (cs.filter (fun c => decide (c.typ = tagIDAT))).flatMap Chunk.data

/-- The width that the payload of an `IHDR` chunk declares. -/
def ihdrWidth (c : Chunk) : Int := ((beUint32 (c.data.take 4) : Nat) : Int)

/-- The height that the payload of an `IHDR` chunk declares. -/
def ihdrHeight (c : Chunk) : Int := ((beUint32 ((c.data.drop 4).take 4) : Nat) : Int)

/-- The interlace method that the payload of an `IHDR` chunk declares. -/
def ihdrInterlace (c : Chunk) : Int := ((c.data.getD 12 0 : Nat) : Int)

/-- The decoder's width, height and interlace fields are those of the `IHDR` chunk `c`. -/
def GeomOf (d : decoder) (c : Chunk) : Prop :=
  d.width = ihdrWidth c ∧ d.height = ihdrHeight c ∧ d.interlace = ihdrInterlace c

/-- Raw pixel data of a 65×1 image, one row, whose Adler-32 is zero. -/
def exZeroAdlerData : List Nat :=
  [0, 248] ++ List.replicate 22 255 ++ [254] ++ List.replicate 232 255 ++ [240, 0, 0, 8]

/-- An `IHDR` chunk: 65×1, bit depth 8, colour type 6, not interlaced. -/
def exIHDR65 : Chunk := Chunk.mk0 tagIHDR [0, 0, 0, 65, 0, 0, 0, 1, 8, 6, 0, 0, 0]

/-- An `IDAT` chunk: one stored deflate block holding `exZeroAdlerData`. -/
def exIDATZero : Chunk := Chunk.mk0 tagIDAT ([1, 5, 1, 250, 254] ++ exZeroAdlerData)

/-- The raw Adam7 data of a 3×1 image with the pixels `(11, 12, 13, 14)`,
`(21, 22, 23, 24)` and `(31, 32, 33, 34)`: the first pass holds the pixel of column 0,
the fourth pass that of column 2 and the sixth pass that of column 1, each after a
filter byte; the other passes are empty. -/
def exAdam7Row3 : List Nat :=
  [0, 11, 12, 13, 14, 0, 31, 32, 33, 34, 0, 21, 22, 23, 24]

/-- An `IHDR` chunk: 3×1, bit depth 8, colour type 6, Adam7. -/
def exIHDR3 : Chunk := Chunk.mk0 tagIHDR [0, 0, 0, 3, 0, 0, 0, 1, 8, 6, 0, 0, 1]

/-- An `IDAT` chunk: one stored deflate block holding the 15 bytes `exAdam7Row3`. -/
def exIDAT3 : Chunk := Chunk.mk0 tagIDAT ([1, 15, 0, 240, 255] ++ exAdam7Row3)

/-- An `IDAT` chunk: one stored deflate block holding `exAdam7Row3` and one more byte. -/
def exIDAT3Long : Chunk := Chunk.mk0 tagIDAT ([1, 16, 0, 239, 255] ++ exAdam7Row3 ++ [99])

/-! ## Truncated input -/

/-- The error is `io.EOF` or `io.ErrUnexpectedEOF`. -/
def IsEof (e : Option GoError) : Prop :=
  e = some (GoError.lib LibError.EOF) ∨ e = some (GoError.lib LibError.ErrUnexpectedEOF)

/-- The decoder `a` is the decoder `b` with the last bytes `t` of the reader cut off. -/
def Trunc (t : List Nat) (a b : decoder) : Prop :=
  ∃ r1, b.r = r1 ++ t ∧ a = { b with r := r1 }

/-- Results of the same call on a truncated and on the full reader: the call on the
truncated reader has run out of input, or both calls have ended alike. -/
def SimRes (t : List Nat) (x y : decoder × Option GoError) : Prop :=
  IsEof x.2 ∨ (x.2 = y.2 ∧ Trunc t x.1 y.1)

/-- The sequencing `if err != nil { return err }` of two steps. -/
def bindRes (x : decoder × Option GoError) (k : decoder → decoder × Option GoError) :
    decoder × Option GoError :=
  match x with
  | (d1, some err) => (d1, some err)
  | (d1, none) => k d1

/-- As `SimRes`, for a call that may panic. -/
def SimResO (t : List Nat) (x y : Option (decoder × Option GoError)) : Prop :=
  (∃ a, x = some a ∧ IsEof a.2) ∨ (x = none ∧ y = none) ∨
  (∃ a b, x = some a ∧ y = some b ∧ a.2 = b.2 ∧ Trunc t a.1 b.1)

/-! ## The swaps that the channel fixer performs -/

/-- The swaps `swapRB` at the cursors `cs`, performed one after the other; `none` as
soon as one of them indexes outside the slice. -/
def swapAll : List Nat → List Nat → Option (List Nat)
  | [], raw => some raw
  | c :: cs, raw =>
    match swapRB raw c with
    | none => none
    | some raw1 => swapAll cs raw1

/-- The cursors at which the inner loop of `unsafeImageFix` swaps: `n` pixels from
cursor `i`. -/
def rowCursors : Nat → Nat → List Nat
  | 0, _ => []
  | n + 1, i => i :: rowCursors n (i + 4)

/-- The cursors at which `unsafeImageFix` swaps in `m` rows of `w` pixels, the first
filter byte at cursor `i`. -/
def rowsCursors (w : Nat) : Nat → Nat → List Nat
  | 0, _ => []
  | m + 1, i => rowCursors w (i + 1) ++ rowsCursors w m (i + 1 + 4 * w)

/-- The cursors in `raw` at which the Adam7 loop of `rawImageFix` swaps in the passes
`ps`, the first of them starting at offset `total`. -/
def passesCursors (w h : Int) : List interlaceScan → Nat → List Nat
  | [], _ => []
  | p :: ps, total =>
    (rowsCursors (passWidth p w).toNat (passHeight p h).toNat 0).map (fun c => total + c)
      ++ passesCursors w h ps (total + (pSize p w h).toNat)

/-- The cursors in `raw` at which the loop `fixPasses64` swaps in the passes `ps`, the
first of them starting at offset `total`. -/
def passesCursors64 (w h : Int) : List interlaceScan → Int → List Nat
  | [], _ => []
  | p :: ps, total =>
    (rowsCursors (passWidth64 p w).toNat (passHeight64 p h).toNat 0).map
        (fun c => total.toNat + c)
      ++ passesCursors64 w h ps (wrapInt64 (total + pSize64 p w h))

/-! ## The encoder (`writer.go`) -/

/-- The struct `encoder`. `w` holds the bytes written to the destination so far (the
destination accepts every write), `buff` the bytes of the staging buffer not yet read,
`zbuff` the contents of the second buffer. The field `crc` is never used by the code. -/
structure encoder where
  w : List Nat
  buff : List Nat
  zbuff : List Nat
  crc : Nat
  tmp : List Nat
  cb : Nat
  width : Int
  height : Int
  interlace : Int
  stage : Nat
  deriving DecidableEq, Repr

/-- The call `io.ReadFull(e.buff, e.tmp[:n])`. -/
def encoder.readTmp (e : encoder) (n : Nat) : encoder × Option GoError :=
  match readFull e.buff n with
  | (bytes, rest, err) =>
    ({ e with buff := rest, tmp := bytes ++ e.tmp.drop bytes.length }, err)

/-- Go's `(e *encoder) makeHeader()`: the signature is written, then the signature of
the staged stream is read and dropped. -/
def encoder.makeHeader (e : encoder) : encoder × Option GoError :=
  let e1 := { e with w := e.w ++ pngHeader }
  match e1.readTmp pngHeader.length with
  | (e2, some err) => (e2, some err)
  | (e2, none) => (e2, none)

/-- Go's `(e *encoder) makeCgBI()`. -/
def encoder.makeCgBI (e : encoder) : encoder × Option GoError :=
  match makeChunk e.w tagCgBI chunkDataCgBI with
  | (w1, err) => ({ e with w := w1 }, err)

/-- Go's `(e *encoder) writeChecksum()`: the stored CRC is copied, not computed. -/
def encoder.writeChecksum (e : encoder) : encoder × Option GoError :=
  match e.readTmp 4 with
  | (e1, some err) => (e1, some err)
  | (e1, none) => ({ e1 with w := e1.w ++ e1.tmp.take 4 }, none)

/-- Go's `(e *encoder) makeIHDR(length)`. -/
def encoder.makeIHDR (e : encoder) (length : Nat) : encoder × Option GoError :=
  if length ≠ 13 then (e, some (GoError.FormatError "bad IHDR length"))
  else
    let e0 := { e with w := e.w ++ e.tmp.take 8 }
    match e0.readTmp 13 with
    | (e1, some err) => (e1, some err)
    | (e1, none) =>
      if ((e1.tmp.getD 12 0 : Nat) : Int) ≠ itNone ∧ ((e1.tmp.getD 12 0 : Nat) : Int) ≠ itAdam7 then
        (e1, some (GoError.FormatError "invalid interlace method"))
      else
        let e2 := { e1 with
          interlace := ((e1.tmp.getD 12 0 : Nat) : Int)
          width := ((beUint32 (e1.tmp.take 4) : Nat) : Int)
          height := ((beUint32 ((e1.tmp.drop 4).take 4) : Nat) : Int) }
        let e3 := if e2.tmp.getD 8 0 = 8 ∧ e2.tmp.getD 9 0 = ctTrueColorAlpha
          then { e2 with cb := cbTCA8 } else e2
        let e4 := { e3 with w := e3.w ++ e3.tmp.take 13 }
        e4.writeChecksum

/-- The loop `for length > 0` of `makeIDAT`, which moves the payload in pieces of at
most 4096 bytes into `zbuff`. -/
def encoder.idatLoop : Nat → encoder → Nat → encoder × Option GoError
  | 0, e, _ => (e, none)
  | fuel + 1, e, length =>
    if length > 0 then
      match readFull e.buff (min 4096 length) with
      | (_, rest, some err) => ({ e with buff := rest }, some err)
      | (ignored, rest, none) =>
        encoder.idatLoop fuel { e with buff := rest, zbuff := e.zbuff ++ ignored }
          (length - ignored.length)
    else (e, none)

/-- Go's `(e *encoder) makeIDAT(length)`: the payload goes to `zbuff`, the stored CRC
is read and dropped. -/
def encoder.makeIDAT (e : encoder) (length : Nat) : encoder × Option GoError :=
  if length > 0x7fffffff then
    (e, some (GoError.FormatError ("Bad chunk length: " ++ toString length)))
  else
    match encoder.idatLoop length e length with
    | (e1, some err) => (e1, some err)
    | (e1, none) =>
      match e1.readTmp 4 with
      | (e2, some err) => (e2, some err)
      | (e2, none) => (e2, none)

/-- Go's `(e *encoder) makeIEND(length)`; `none` when the call panics, in `rawImageFix`
or in one of the slicings `data[2:]`, `data[:len(data)-4]`. -/
def encoder.makeIEND (z : Zlib) (e : encoder) (length : Nat) : Option (encoder × Option GoError) :=
  if length ≠ 0 then some (e, some (GoError.FormatError "bad IEND length"))
  else
    match z.newReader e.zbuff with
    | some err => some (e, some (GoError.lib err))
    | none =>
      match z.readAll e.zbuff with
      | (data, err) =>
        if err ≠ none then some (e, err.map GoError.lib)
        else
          match rawImageFix e.width e.height e.interlace data with
          | none => none
          | some (_, some err1) => some (e, some err1)
          | some (data1, none) =>
            let e1 := { e with zbuff := z.compress data1 }
            if e1.zbuff.length < 2 then none
            else
              let data2 := e1.zbuff.drop 2
              if data2.length < 4 then none
              else
                let data3 := data2.take (data2.length - 4)
                match makeChunk e1.w tagIDAT data3 with
                | (w1, some err2) => some ({ e1 with w := w1 }, some err2)
                | (w1, none) =>
                  let e2 := { e1 with w := w1 ++ e1.tmp.take 8 }
                  some e2.writeChecksum

/-- The loop `for length > 0` at the end of the encoder's `parseChunk`, which copies
the payload in pieces of at most 4096 bytes to the destination. -/
def encoder.copyLoop : Nat → encoder → Nat → encoder × Option GoError
  | 0, e, _ => (e, none)
  | fuel + 1, e, length =>
    if length > 0 then
      match readFull e.buff (min 4096 length) with
      | (_, rest, some err) => ({ e with buff := rest }, some err)
      | (ignored, rest, none) =>
        encoder.copyLoop fuel { e with buff := rest, w := e.w ++ ignored }
          (length - ignored.length)
    else (e, none)

/-- Go's `(e *encoder) parseChunk()`; `none` when it panics. -/
def encoder.parseChunk (z : Zlib) (e : encoder) : Option (encoder × Option GoError) :=
  match e.readTmp 8 with
  | (e1, some err) => some (e1, some err)
  | (e1, none) =>
    let length := beUint32 (e1.tmp.take 4)
    let typ := (e1.tmp.drop 4).take 4
    if typ = tagIHDR then
      if e1.stage ≠ dsStart then some (e1, some chunkOrderError)
      else
        match encoder.makeIHDR { e1 with stage := dsSeenIHDR } length with
        | (e3, some err) => some (e3, some err)
        | (e3, none) =>
          if e3.cb ≠ cbTCA8 then some (e3, some (GoError.FormatError "cb must cbTCA8 "))
          else some (e3, none)
    else if typ = tagIDAT then
      if e1.stage < dsSeenIHDR ∨ e1.stage > dsSeenIDAT then some (e1, some chunkOrderError)
      else some (encoder.makeIDAT { e1 with stage := dsSeenIDAT } length)
    else if typ = tagIEND then
      if e1.stage ≠ dsSeenIDAT then some (e1, some chunkOrderError)
      else encoder.makeIEND z { e1 with stage := dsSeenIEND } length
    else if length > 0x7fffffff then
      some (e1, some (GoError.FormatError ("Bad 1 chunk length: " ++ toString length)))
    else
      let e2 := { e1 with w := e1.w ++ e1.tmp.take 8 }
      match encoder.copyLoop length e2 length with
      | (e3, some err) => some (e3, some err)
      | (e3, none) => some e3.writeChecksum

/-- What a call of `Encode` has done when it ends: the bytes written to the
destination, and the error returned or the fact that the call panicked. -/
inductive EncodeResult where
  | done (written : List Nat) (err : Option GoError)
  | panic (written : List Nat)
  deriving DecidableEq, Repr

/-- The bytes written to the destination. -/
def EncodeResult.written : EncodeResult → List Nat
  | EncodeResult.done w _ => w
  | EncodeResult.panic w => w

/-- The loop `for e.stage != dsSeenIEND` of `Encode`, run for at most `fuel` chunks;
`none` when the fuel is used up before the loop ends. A panic of `parseChunk` comes
before anything is written by that call. -/
def encodeLoop (z : Zlib) : Nat → encoder → Option EncodeResult
  | 0, _ => none
  | fuel + 1, e =>
    if e.stage ≠ dsSeenIEND then
      match e.parseChunk z with
      | none => some (EncodeResult.panic e.w)
      | some (e1, some err) => some (EncodeResult.done e1.w (some (eofToUnexpected err)))
      | some (e1, none) => encodeLoop z fuel e1
    else some (EncodeResult.done e.w none)

/-- The encoder that `Encode` builds, once `png.Encode` has filled the staging buffer
with `staged`; nothing has been written to the destination yet. -/
def newEncoder (staged : List Nat) : encoder :=
  { w := [], buff := staged, zbuff := [], crc := 0, tmp := List.replicate (4 * 256) 0,
    cb := 0, width := 0, height := 0, interlace := 0, stage := 0 }

/-- Go's `Encode(w, m)` from the point where `png.Encode` has returned without error
and the staging buffer holds `staged`. A successful `parseChunk` reads at least eight
bytes, so `len(staged) + 1` rounds of the loop are enough. -/
def encodeStaged (z : Zlib) (staged : List Nat) : Option EncodeResult :=
  match (newEncoder staged).makeHeader with
  | (e1, some err) => some (EncodeResult.done e1.w (some err))
  | (e1, none) =>
    match e1.makeCgBI with
    | (e2, some err) => some (EncodeResult.done e2.w (some err))
    | (e2, none) => encodeLoop z (staged.length + 1) e2

/-- From `e` to `e1` the encoder has only appended to the destination and only read
from the staging buffer. -/
def EncFrame (e e1 : encoder) : Prop :=
  e.w <+: e1.w ∧ e1.buff.length ≤ e.buff.length

/-- The sequencing `if err != nil { return err }` of two steps of the encoder. -/
def encBind (x : encoder × Option GoError) (k : encoder → encoder × Option GoError) :
    encoder × Option GoError :=
  match x with
  | (e1, some err) => (e1, some err)
  | (e1, none) => k e1

/-! ## Images (`image`, `image/color`) and the alpha normalisation of `writer.go` -/

/-- Go's `image.Rectangle`: the points with `Min.X ≤ x < Max.X`, `Min.Y ≤ y < Max.Y`. -/
structure Rectangle where
  minX : Int
  minY : Int
  maxX : Int
  maxY : Int
  deriving DecidableEq, Repr

/-- Go's `Rectangle.Dx()`. -/
def Rectangle.Dx (r : Rectangle) : Int := r.maxX - r.minX

/-- Go's `Rectangle.Dy()`. -/
def Rectangle.Dy (r : Rectangle) : Int := r.maxY - r.minY

/-- Go's `Point{x, y}.In(r)`. -/
def Rectangle.contains (r : Rectangle) (x y : Int) : Prop :=
  r.minX ≤ x ∧ x < r.maxX ∧ r.minY ≤ y ∧ y < r.maxY

instance (r : Rectangle) (x y : Int) : Decidable (r.contains x y) := by
  unfold Rectangle.contains
  infer_instance

/-- Go's `color.NRGBA`: four 8-bit channels, alpha not premultiplied. -/
structure NRGBAColor where
  R : Nat
  G : Nat
  B : Nat
  A : Nat
  deriving DecidableEq, Repr

/-- Go's `(c color.NRGBA) RGBA()`: the alpha-premultiplied 16-bit channels. -/
def NRGBAColor.RGBA (c : NRGBAColor) : Nat × Nat × Nat × Nat :=
  (c.R * 0x101 * c.A / 0xff, c.G * 0x101 * c.A / 0xff, c.B * 0x101 * c.A / 0xff, c.A * 0x101)

/-- The conversion `uint8(v)` of a `uint32`. -/
def uint8 (v : Nat) : Nat := v % 256

/-- Go's `*image.NRGBA`, seen through `Bounds`, `At` and `SetNRGBA`: `pix x y` is the
pixel stored for the point `(x, y)` of `rect`. -/
structure NRGBA where
  rect : Rectangle
  pix : Int → Int → NRGBAColor

/-- Go's `(p *NRGBA) At(x, y)`: the zero colour outside the bounds. -/
def NRGBA.At (m : NRGBA) (x y : Int) : NRGBAColor :=
  if m.rect.contains x y then m.pix x y else ⟨0, 0, 0, 0⟩

/-- Go's `(p *NRGBA) SetNRGBA(x, y, c)`: no effect outside the bounds. -/
def NRGBA.SetNRGBA (m : NRGBA) (x y : Int) (c : NRGBAColor) : NRGBA :=
  if m.rect.contains x y then
    { m with pix := fun a b => if a = x ∧ b = y then c else m.pix a b }
  else m

/-- Go's `image.NewNRGBA(r)` for a well-formed rectangle: all pixels zero. -/
def NewNRGBA (r : Rectangle) : NRGBA := { rect := r, pix := fun _ _ => ⟨0, 0, 0, 0⟩ }

/-- An `image.Image` as `fixAlphaChannel` sees it: an `*image.NRGBA`, or an image of
another type, given by `Bounds()` and by the values of `At(x, y).RGBA()`. -/
inductive Image where
  | nrgba (m : NRGBA)
  | other (bounds : Rectangle) (rgbaAt : Int → Int → Nat × Nat × Nat × Nat)

/-- Go's `m.Bounds()`. -/
def Image.Bounds : Image → Rectangle
  | Image.nrgba m => m.rect
  | Image.other bounds _ => bounds

/-- The inner loop `for j, dy := 0, bounds.Dy(); j < dy; j++` of `fixAlphaChannel` with
`n` iterations left, in column `i` at row `j`. `src cur i j` is `m.At(i, j).RGBA()`;
when `m` is the `*image.NRGBA` that is being written, it reads the current image. -/
def fixAlphaCol (src : NRGBA → Int → Int → Nat × Nat × Nat × Nat) :
    Nat → Int → Int → NRGBA → NRGBA
  | 0, _, _, inst => inst
  | n + 1, i, j, inst =>
    match src inst i j with
    | (r, g, b, _) =>
      fixAlphaCol src n i (j + 1) (inst.SetNRGBA i j ⟨uint8 r, uint8 g, uint8 b, 0⟩)

/-- The outer loop `for i, dx := 0, bounds.Dx(); i < dx; i++` of `fixAlphaChannel` with
`n` iterations left, at column `i`; `dy` is `bounds.Dy()`. -/
def fixAlphaRows (src : NRGBA → Int → Int → Nat × Nat × Nat × Nat) (dy : Nat) :
    Nat → Int → NRGBA → NRGBA
  | 0, _, inst => inst
  | n + 1, i, inst => fixAlphaRows src dy n (i + 1) (fixAlphaCol src dy i 0 inst)

/-- Go's `fixAlphaChannel(m)`: the image handed to `png.Encode`. -/
def fixAlphaChannel (m : Image) : NRGBA :=
  match m with
  | Image.nrgba inst =>
    fixAlphaRows (fun cur i j => (cur.At i j).RGBA) inst.rect.Dy.toNat inst.rect.Dx.toNat 0 inst
  | Image.other bounds rgbaAt =>
    fixAlphaRows (fun _ i j => rgbaAt i j) bounds.Dy.toNat bounds.Dx.toNat 0 (NewNRGBA bounds)

/-- Go's `Encode(w, m)` on a destination that accepts every write; `pngEncode` is the
collaborator `png.Encode` as a function from the image to the bytes it leaves in the
staging buffer and its error. -/
def Encode (z : Zlib) (pngEncode : NRGBA → List Nat × Option GoError) (m : Image) :
    Option EncodeResult :=
  match pngEncode (fixAlphaChannel m) with
  | (_, some err) => some (EncodeResult.done [] (some err))
  | (staged, none) => encodeStaged z staged

/-- The sixteen bytes of the `CgBI` chunk: length 4, tag, `50 00 20 06`, CRC. -/
def cgbiChunkBytes : List Nat :=
  [0, 0, 0, 4] ++ tagCgBI ++ [0x50, 0x00, 0x20, 0x06] ++
    putUint32 (crc32 (tagCgBI ++ [0x50, 0x00, 0x20, 0x06]))

/-- The bytes that `parseIEND` gives to the inflater: `zbuff` after the write of four
zero bytes. -/
def inflaterInput (d : decoder) : List Nat := d.zbuff ++ [0, 0, 0, 0]

/-- An `*image.NRGBA` of one opaque pixel `(10, 20, 30, 255)` whose bounds are
`(1,0)-(2,1)`. -/
def exShifted : NRGBA :=
  { rect := ⟨1, 0, 2, 1⟩, pix := fun _ _ => ⟨10, 20, 30, 255⟩ }

/-- An image of another type with the same bounds and the same opaque pixel. -/
def exShiftedOther : Image :=
  Image.other ⟨1, 0, 2, 1⟩ (fun _ _ => (10 * 0x101, 20 * 0x101, 30 * 0x101, 0xffff))

/-- An `*image.NRGBA` of one opaque pixel `(10, 20, 30, 255)` whose bounds are
`(0,0)-(1,1)`. -/
def exOrigin : NRGBA :=
  { rect := ⟨0, 0, 1, 1⟩, pix := fun _ _ => ⟨10, 20, 30, 255⟩ }

/-- An `IDAT` chunk as a PNG encoder writes it: a zlib stream, here of stored blocks,
of the row `[0, 10, 20, 30, 0]` with the right Adler-32. -/
def exPngIDAT : Chunk := Chunk.mk0 tagIDAT (storedZlib.compress [0, 10, 20, 30, 0])

/-- A staged PNG of a 1×1 image: signature, `IHDR`, `IDAT`, `IEND`. -/
def exStaged : List Nat := pngHeader ++ streamOf [exIHDR, exPngIDAT, exIEND]

/-- The encoder of the staged 1×1 image when `makeIEND` is called: `zbuff` holds the
staged zlib stream, the staging buffer the CRC of `IEND`. -/
def exEncAtIEND : encoder :=
  { w := [], buff := putUint32 exIEND.crc, zbuff := storedZlib.compress [0, 10, 20, 30, 0],
    crc := 0, tmp := putUint32 0 ++ tagIEND ++ List.replicate (4 * 256 - 8) 0, cb := cbTCA8,
    width := 1, height := 1, interlace := 0, stage := dsSeenIEND }

/-- A stream whose `IDAT` payload `01 05 00 FA FF 00 1E 14 0A 00` is split in two
chunks, before `IEND`. -/
def exSplit : List Chunk :=
  [exCgBI, exIHDR, Chunk.mk0 tagIDAT [1, 5, 0], Chunk.mk0 tagIDAT [250, 255, 0, 30, 20, 10, 0]]

/-! ## Auxiliary definitions for the alpha normalisation -/

/-- The pixel that `fixAlphaChannel` writes for the value `c` of `At(x, y).RGBA()`. -/
def alphaFixed (c : Nat × Nat × Nat × Nat) : NRGBAColor :=
  ⟨uint8 c.1, uint8 c.2.1, uint8 c.2.2.1, 0⟩

/-- The state of the image `cur` in the loops of `fixAlphaChannel` when the points of
`P` have been visited: inside the bounds `r` a visited pixel holds the fixed value of the
source `s`, a pixel not visited what `pix0` held. -/
def AlphaState (r : Rectangle) (s : Int → Int → Nat × Nat × Nat × Nat)
    (pix0 : Int → Int → NRGBAColor) (cur : NRGBA) (P : Int → Int → Prop) : Prop :=
  cur.rect = r ∧
  (∀ x y, P x y → r.contains x y → cur.pix x y = alphaFixed (s x y)) ∧
  (∀ x y, ¬ P x y → r.contains x y → cur.pix x y = pix0 x y)

/-- What `At(x, y).RGBA()` returns on the image `m` before the call. -/
def Image.rgbaAt : Image → Int → Int → Nat × Nat × Nat × Nat
  | Image.nrgba m => fun x y => (m.At x y).RGBA
  | Image.other _ f => f

/-! # Theorems -/

/-! ## Index maps: basic facts -/

theorem applyIdx_length (σ : Nat → Nat) (raw : List Nat) :
    (applyIdx σ raw).length = raw.length := by
  simp [applyIdx]

theorem applyIdx_getElem? (σ : Nat → Nat) (raw : List Nat) (j : Nat)
    (hσ : ∀ k, k < raw.length → σ k < raw.length) :
    (applyIdx σ raw)[j]? = if j < raw.length then raw[σ j]? else none := by
  unfold applyIdx
  by_cases hj : j < raw.length
  · have h1 := hσ j hj
    simp [hj, List.getElem?_eq_getElem, h1, List.getD_eq_getElem?_getD]
  · simp only [hj, if_false]
    apply List.getElem?_eq_none
    simp only [List.length_map, List.length_range]
    omega

theorem applyIdx_congr (σ τ : Nat → Nat) (raw : List Nat)
    (h : ∀ k, k < raw.length → σ k = τ k) : applyIdx σ raw = applyIdx τ raw := by
  unfold applyIdx
  apply List.map_congr_left
  intro k hk
  rw [h k (by simpa using hk)]

theorem applyIdx_comp (σ τ : Nat → Nat) (raw : List Nat)
    (hτ : ∀ k, k < raw.length → τ k < raw.length) :
    applyIdx τ (applyIdx σ raw) = applyIdx (fun j => σ (τ j)) raw := by
  unfold applyIdx
  simp only [List.length_map, List.length_range]
  apply List.map_congr_left
  intro k hk
  have hk2 : k < raw.length := by simpa using hk
  have h1 := hτ k hk2
  simp [List.getD_eq_getElem?_getD, h1]

theorem applyIdx_id (σ : Nat → Nat) (raw : List Nat)
    (h : ∀ k, k < raw.length → σ k = k) : applyIdx σ raw = raw := by
  apply List.ext_getElem?
  intro j
  rw [applyIdx_getElem? σ raw j (fun k hk => by rw [h k hk]; exact hk)]
  by_cases hj : j < raw.length
  · simp [hj, h j hj]
  · simp only [hj, if_false]
    exact (List.getElem?_eq_none (Nat.le_of_not_lt hj)).symm

/-! ## The swap and the loops in closed form -/

theorem swapRB_eq (raw : List Nat) (i : Nat) (h : i + 2 < raw.length) :
    swapRB raw i = some (applyIdx (swapIdx i) raw) := by
  unfold swapRB
  rw [if_pos h]
  congr 1
  apply List.ext_getElem?
  intro j
  have hin : ∀ k, k < raw.length → swapIdx i k < raw.length := by
    intro k hk
    unfold swapIdx
    split_ifs <;> omega
  rw [applyIdx_getElem? _ _ _ hin]
  have hi : i < raw.length := by omega
  by_cases hj : j < raw.length
  · rw [if_pos hj]
    unfold swapIdx
    by_cases h1 : j = i
    · subst h1
      rw [if_pos rfl, List.getElem?_set_self (by simpa using hj)]
      simp [List.getD_eq_getElem?_getD, List.getElem?_eq_getElem h]
    · rw [if_neg h1, List.getElem?_set_ne (Ne.symm h1)]
      by_cases h2 : j = i + 2
      · subst h2
        rw [if_pos rfl, List.getElem?_set_self h]
        simp [List.getD_eq_getElem?_getD, List.getElem?_eq_getElem hi]
      · rw [if_neg h2, List.getElem?_set_ne (Ne.symm h2)]
  · rw [if_neg hj]
    apply List.getElem?_eq_none
    simp only [List.length_set]
    omega

theorem swapRB_none (raw : List Nat) (i : Nat) (h : ¬ i + 2 < raw.length) :
    swapRB raw i = none := by
  unfold swapRB
  rw [if_neg h]

theorem rowIdx_lt (n i len : Nat) (hok : n = 0 ∨ i + 4 * n ≤ len + 1) :
    ∀ k, k < len → rowIdx n i k < len := by
  intro k hk
  unfold rowIdx
  split_ifs <;> omega

theorem rowIdx_step (n i j : Nat) :
    swapIdx i (rowIdx n (i + 4) j) = rowIdx (n + 1) i j := by
  unfold swapIdx rowIdx
  split_ifs <;> omega

theorem fixRow_eq (n : Nat) : ∀ (i : Nat) (raw : List Nat),
    (n = 0 ∨ i + 4 * n ≤ raw.length + 1) →
    fixRow n i raw = some (applyIdx (rowIdx n i) raw, i + 4 * n) := by
  induction n with
  | zero =>
    intro i raw _
    simp only [fixRow]
    rw [applyIdx_id]
    · rfl
    · intro k _
      simp [rowIdx]
  | succ n ih =>
    intro i raw hok
    have h2 : i + 2 < raw.length := by omega
    simp only [fixRow]
    rw [swapRB_eq raw i h2]
    simp only
    rw [ih (i + 4) _ (by rw [applyIdx_length]; omega)]
    rw [applyIdx_comp _ _ _ (rowIdx_lt n (i + 4) raw.length (by omega))]
    congr 2
    · apply applyIdx_congr
      intro k _
      exact rowIdx_step n i k
    · omega

theorem fixRow_none (n : Nat) : ∀ (i : Nat) (raw : List Nat),
    ¬ (n = 0 ∨ i + 4 * n ≤ raw.length + 1) → fixRow n i raw = none := by
  induction n with
  | zero => intro i raw h; exact absurd (Or.inl rfl) h
  | succ n ih =>
    intro i raw hok
    simp only [fixRow]
    by_cases h2 : i + 2 < raw.length
    · rw [swapRB_eq raw i h2]
      simp only
      apply ih
      rw [applyIdx_length]
      omega
    · rw [swapRB_none raw i h2]

/-! ## Local involutions -/

theorem LocalInv.comp {σ τ : Nat → Nat} {a b c : Nat} (hσ : LocalInv σ a b)
    (hτ : LocalInv τ b c) (hab : a ≤ b) (hbc : b ≤ c) :
    LocalInv (fun j => σ (τ j)) a c := by
  obtain ⟨s1, s2, s3, s4⟩ := hσ
  obtain ⟨t1, t2, t3, t4⟩ := hτ
  refine ⟨?_, ?_, ?_, ?_⟩
  · intro j hj
    show σ (τ j) = j
    rw [t1 j (by omega), s1 j hj]
  · intro j hj
    show σ (τ j) = j
    rw [t2 j hj, s2 j (by omega)]
  · intro j hj1 hj2
    show a ≤ σ (τ j) ∧ σ (τ j) < c
    by_cases hjb : j < b
    · rw [t1 j hjb]
      have := s3 j hj1 hjb
      omega
    · have h1 := t3 j (by omega) hj2
      rw [s2 _ h1.1]
      omega
  · intro j
    show σ (τ (σ (τ j))) = j
    by_cases hjb : j < b
    · rw [t1 j hjb]
      by_cases hja : j < a
      · rw [s1 j hja, t1 j hjb, s1 j hja]
      · have h1 := s3 j (by omega) hjb
        rw [t1 _ h1.2, s4]
    · by_cases hjc : j < c
      · have h1 := t3 j (by omega) hjc
        rw [s2 _ h1.1, t4, s2 _ (by omega)]
      · rw [t2 j (by omega), s2 j (by omega), t2 j (by omega), s2 j (by omega)]

theorem LocalInv.id_of_eq (a b : Nat) : LocalInv (fun j => j) a b :=
  ⟨fun _ _ => rfl, fun _ _ => rfl, fun _ h1 h2 => ⟨h1, h2⟩, fun _ => rfl⟩

theorem rowIdx_local (n i : Nat) : LocalInv (rowIdx n i) i (i + 4 * n) := by
  refine ⟨?_, ?_, ?_, ?_⟩
  · intro j hj
    unfold rowIdx
    split_ifs <;> omega
  · intro j hj
    unfold rowIdx
    split_ifs <;> omega
  · intro j h1 h2
    unfold rowIdx
    split_ifs <;> omega
  · intro j
    unfold rowIdx
    split_ifs <;> omega

theorem rowIdx_local_row (w i : Nat) : LocalInv (rowIdx w (i + 1)) i (i + 1 + 4 * w) := by
  refine ⟨?_, ?_, ?_, ?_⟩
  · intro j hj
    unfold rowIdx
    split_ifs <;> omega
  · intro j hj
    unfold rowIdx
    split_ifs <;> omega
  · intro j h1 h2
    unfold rowIdx
    split_ifs <;> omega
  · intro j
    unfold rowIdx
    split_ifs <;> omega

theorem rowsIdx_local (w m : Nat) : ∀ i, LocalInv (rowsIdx w m i) i (i + m * (4 * w + 1)) := by
  induction m with
  | zero =>
    intro i
    exact LocalInv.id_of_eq _ _
  | succ m ih =>
    intro i
    have e : i + (m + 1) * (4 * w + 1) = (i + 1 + 4 * w) + m * (4 * w + 1) := by ring
    rw [e]
    have h := LocalInv.comp (rowIdx_local_row w i) (ih (i + 1 + 4 * w)) (by omega) (by omega)
    exact h

theorem rowsIdx_lt (w m : Nat) : ∀ (i len : Nat),
    (m = 0 ∨ w = 0 ∨ i + m * (4 * w + 1) ≤ len + 1) →
    ∀ k, k < len → rowsIdx w m i k < len := by
  induction m with
  | zero => intro i len _ k hk; exact hk
  | succ m ih =>
    intro i len hok k hk
    have e : (m + 1) * (4 * w + 1) = m * (4 * w + 1) + (4 * w + 1) := by ring
    rw [e] at hok
    show rowIdx w (i + 1) (rowsIdx w m (i + 1 + 4 * w) k) < len
    apply rowIdx_lt w (i + 1) len (by omega)
    apply ih (i + 1 + 4 * w) len _ k hk
    rcases Nat.eq_zero_or_pos m with hm | hm
    · exact Or.inl hm
    · right
      omega

theorem fixRows_eq (w m : Nat) : ∀ (i : Nat) (raw : List Nat),
    (m = 0 ∨ w = 0 ∨ i + m * (4 * w + 1) ≤ raw.length + 1) →
    fixRows w m i raw = some (applyIdx (rowsIdx w m i) raw, i + m * (4 * w + 1)) := by
  induction m with
  | zero =>
    intro i raw _
    simp only [fixRows]
    rw [applyIdx_id]
    · simp
    · intro k _
      rfl
  | succ m ih =>
    intro i raw hok
    have e : (m + 1) * (4 * w + 1) = m * (4 * w + 1) + (4 * w + 1) := by ring
    rw [e] at hok ⊢
    have hrest : m = 0 ∨ w = 0 ∨ i + 1 + 4 * w + m * (4 * w + 1) ≤ raw.length + 1 := by
      rcases Nat.eq_zero_or_pos m with hm | hm
      · exact Or.inl hm
      · right
        omega
    simp only [fixRows]
    rw [fixRow_eq w (i + 1) raw (by omega)]
    simp only
    rw [ih (i + 1 + 4 * w) _ (by rw [applyIdx_length]; exact hrest)]
    rw [applyIdx_comp _ _ _ (rowsIdx_lt w m (i + 1 + 4 * w) raw.length hrest)]
    congr 2
    · omega

theorem fixRows_none (w m : Nat) : ∀ (i : Nat) (raw : List Nat),
    ¬ (m = 0 ∨ w = 0 ∨ i + m * (4 * w + 1) ≤ raw.length + 1) →
    fixRows w m i raw = none := by
  induction m with
  | zero => intro i raw h; exact absurd (Or.inl rfl) h
  | succ m ih =>
    intro i raw hok
    have e : (m + 1) * (4 * w + 1) = m * (4 * w + 1) + (4 * w + 1) := by ring
    rw [e] at hok
    simp only [fixRows]
    by_cases hrow : w = 0 ∨ i + 1 + 4 * w ≤ raw.length + 1
    · rw [fixRow_eq w (i + 1) raw hrow]
      simp only
      apply ih
      rw [applyIdx_length]
      have : 0 ≤ m * (4 * w + 1) := Nat.zero_le _
      rcases Nat.eq_zero_or_pos m with hm | hm
      · subst hm
        omega
      · have : 1 * (4 * w + 1) ≤ m * (4 * w + 1) := Nat.mul_le_mul_right _ hm
        omega
    · rw [fixRow_none w (i + 1) raw hrow]

theorem rowsIdx_pixel (w m : Nat) : ∀ (i y x : Nat), y < m → x < w →
    rowsIdx w m i (i + y * (4 * w + 1) + 1 + 4 * x) = i + y * (4 * w + 1) + 1 + 4 * x + 2 ∧
    rowsIdx w m i (i + y * (4 * w + 1) + 1 + 4 * x + 2) = i + y * (4 * w + 1) + 1 + 4 * x ∧
    rowsIdx w m i (i + y * (4 * w + 1) + 1 + 4 * x + 1) = i + y * (4 * w + 1) + 1 + 4 * x + 1 ∧
    rowsIdx w m i (i + y * (4 * w + 1) + 1 + 4 * x + 3) = i + y * (4 * w + 1) + 1 + 4 * x + 3 := by
  induction m with
  | zero => intro i y x hy; omega
  | succ m ih =>
    intro i y x hy hx
    cases y with
    | zero =>
      have hl := (rowsIdx_local w m (i + 1 + 4 * w)).1
      simp only [rowsIdx, Nat.zero_mul, Nat.add_zero]
      rw [hl _ (by omega), hl _ (by omega), hl _ (by omega), hl _ (by omega)]
      unfold rowIdx
      refine ⟨?_, ?_, ?_, ?_⟩ <;> split_ifs <;> omega
    | succ y =>
      have e : i + (y + 1) * (4 * w + 1) = (i + 1 + 4 * w) + y * (4 * w + 1) := by ring
      rw [e]
      obtain ⟨h1, h2, h3, h4⟩ := ih (i + 1 + 4 * w) y x (by omega) hx
      have hr := (rowIdx_local_row w i).2.1
      simp only [rowsIdx]
      rw [h1, h2, h3, h4]
      exact ⟨hr _ (by omega), hr _ (by omega), hr _ (by omega), hr _ (by omega)⟩

theorem rowsIdx_filter (w m : Nat) : ∀ (i y : Nat), y < m →
    rowsIdx w m i (i + y * (4 * w + 1)) = i + y * (4 * w + 1) := by
  induction m with
  | zero => intro i y hy; omega
  | succ m ih =>
    intro i y hy
    cases y with
    | zero =>
      simp only [rowsIdx, Nat.zero_mul, Nat.add_zero]
      rw [(rowsIdx_local w m (i + 1 + 4 * w)).1 _ (by omega)]
      exact (rowIdx_local w (i + 1)).1 _ (by omega)
    | succ y =>
      have e : i + (y + 1) * (4 * w + 1) = (i + 1 + 4 * w) + y * (4 * w + 1) := by ring
      rw [e]
      simp only [rowsIdx]
      rw [ih (i + 1 + 4 * w) y (by omega)]
      exact (rowIdx_local_row w i).2.1 _ (by omega)

theorem unsafeImageFix_eq (w h : Nat) (raw : List Nat)
    (hok : h = 0 ∨ w = 0 ∨ h * (4 * w + 1) ≤ raw.length + 1) :
    unsafeImageFix w h raw = some (applyIdx (rowsIdx w h 0) raw) := by
  unfold unsafeImageFix
  simp only [Int.toNat_ofNat]
  rw [fixRows_eq w h 0 raw (by simpa using hok)]
  rfl

theorem unsafeImageFix_none (w h : Nat) (raw : List Nat)
    (hok : ¬ (h = 0 ∨ w = 0 ∨ h * (4 * w + 1) ≤ raw.length + 1)) :
    unsafeImageFix w h raw = none := by
  unfold unsafeImageFix
  simp only [Int.toNat_ofNat]
  rw [fixRows_none w h 0 raw (by simpa using hok)]
  rfl

theorem rowsIdx_invol (w h : Nat) (raw : List Nat)
    (hok : h = 0 ∨ w = 0 ∨ h * (4 * w + 1) ≤ raw.length + 1) :
    applyIdx (rowsIdx w h 0) (applyIdx (rowsIdx w h 0) raw) = raw := by
  rw [applyIdx_comp _ _ _ (rowsIdx_lt w h 0 raw.length (by simpa using hok))]
  apply applyIdx_id
  intro k _
  exact (rowsIdx_local w h 0).2.2.2 k

/-! ## Adam7 geometry -/

theorem passWidth_nonneg (p : interlaceScan) (hp : p ∈ interlacing) (w : Nat) :
    0 ≤ passWidth p w := by
  simp only [interlacing, List.mem_cons, List.mem_singleton, List.not_mem_nil, or_false] at hp
  rcases hp with h | h | h | h | h | h | h <;> subst h <;> simp only [passWidth] <;>
    (rw [Int.tdiv_eq_ediv (by omega) (by omega)]; omega)

theorem passHeight_nonneg (p : interlaceScan) (hp : p ∈ interlacing) (h : Nat) :
    0 ≤ passHeight p h := by
  simp only [interlacing, List.mem_cons, List.mem_singleton, List.not_mem_nil, or_false] at hp
  rcases hp with e | e | e | e | e | e | e <;> subst e <;> simp only [passHeight] <;>
    (rw [Int.tdiv_eq_ediv (by omega) (by omega)]; omega)

theorem pSize_eq (p : interlaceScan) (w h : Int) (hw : 0 ≤ passWidth p w)
    (hh : 0 ≤ passHeight p h) :
    pSize p w h = (((passHeight p h).toNat * (4 * (passWidth p w).toNat + 1) : Nat) : Int) := by
  unfold pSize
  obtain ⟨a, ha⟩ := Int.eq_ofNat_of_zero_le hw
  obtain ⟨b, hb⟩ := Int.eq_ofNat_of_zero_le hh
  rw [ha, hb]
  simp only [Int.toNat_ofNat]
  push_cast
  ring

theorem passesTotal_cons (w h : Int) (p : interlaceScan) (ps : List interlaceScan) :
    passesTotal w h (p :: ps) = pSize p w h + passesTotal w h ps := by
  simp [passesTotal]

theorem passesTotal_nonneg (w h : Int) (ps : List interlaceScan)
    (hg : ∀ p ∈ ps, 0 ≤ passWidth p w ∧ 0 ≤ passHeight p h) : 0 ≤ passesTotal w h ps := by
  induction ps with
  | nil => simp [passesTotal]
  | cons p ps ih =>
    rw [passesTotal_cons]
    have h1 := hg p (List.mem_cons_self _ _)
    have h2 := ih (fun q hq => hg q (List.mem_cons_of_mem _ hq))
    rw [pSize_eq p w h h1.1 h1.2]
    omega

theorem regionIdx_lt (t len : Nat) (f : Nat → Nat) (ht : t ≤ len)
    (hf : ∀ k, k < len - t → f k < len - t) : ∀ k, k < len → regionIdx t f k < len := by
  intro k hk
  unfold regionIdx
  split_ifs with h
  · exact hk
  · have := hf (k - t) (by omega)
    omega

theorem regionIdx_local (t sz : Nat) (f : Nat → Nat) (hf : LocalInv f 0 sz) :
    LocalInv (regionIdx t f) t (t + sz) := by
  obtain ⟨_, f2, f3, f4⟩ := hf
  refine ⟨?_, ?_, ?_, ?_⟩
  · intro j hj
    simp [regionIdx, hj]
  · intro j hj
    have h1 : ¬ j < t := by omega
    simp only [regionIdx, h1, if_false]
    rw [f2 (j - t) (by omega)]
    omega
  · intro j hj1 hj2
    have h1 : ¬ j < t := by omega
    simp only [regionIdx, h1, if_false]
    have := f3 (j - t) (Nat.zero_le _) (by omega)
    omega
  · intro j
    by_cases h1 : j < t
    · simp [regionIdx, h1]
    · have h2 : ¬ t + f (j - t) < t := by omega
      simp only [regionIdx, h1, if_false, h2]
      rw [Nat.add_sub_cancel_left, f4]
      omega

theorem applyIdx_region (t : Nat) (f : Nat → Nat) (raw : List Nat) (ht : t ≤ raw.length)
    (hf : ∀ k, k < raw.length - t → f k < raw.length - t) :
    raw.take t ++ applyIdx f (raw.drop t) = applyIdx (regionIdx t f) raw := by
  apply List.ext_getElem?
  intro j
  rw [applyIdx_getElem? _ _ _ (regionIdx_lt t raw.length f ht hf)]
  have hlt : (raw.take t).length = t := by simp [ht]
  by_cases hj : j < t
  · rw [List.getElem?_append_left (by omega), List.getElem?_take_of_lt hj]
    have : j < raw.length := by omega
    simp [regionIdx, hj, this]
  · rw [List.getElem?_append_right (by omega), hlt]
    rw [applyIdx_getElem? _ _ _ (by simpa using hf)]
    simp only [List.length_drop, regionIdx, hj, if_false, List.getElem?_drop]
    by_cases hj2 : j < raw.length
    · have : j - t < raw.length - t := by omega
      simp [hj2, this]
    · have : ¬ j - t < raw.length - t := by omega
      simp [hj2, this]

/-! ## The Adam7 loop in closed form -/

theorem passesIdx_local (w h : Int) (ps : List interlaceScan)
    (hg : ∀ p ∈ ps, 0 ≤ passWidth p w ∧ 0 ≤ passHeight p h) :
    ∀ total : Nat, LocalInv (passesIdx w h ps total) total
      (total + (passesTotal w h ps).toNat) := by
  induction ps with
  | nil =>
    intro total
    exact LocalInv.id_of_eq _ _
  | cons p ps ih =>
    intro total
    have h1 := hg p (List.mem_cons_self _ _)
    have hrest := fun q hq => hg q (List.mem_cons_of_mem p hq)
    have h2 := passesTotal_nonneg w h ps hrest
    have hsz := pSize_eq p w h h1.1 h1.2
    have e : total + (passesTotal w h (p :: ps)).toNat =
        (total + (pSize p w h).toNat) + (passesTotal w h ps).toNat := by
      rw [passesTotal_cons]
      omega
    rw [e]
    have hl := regionIdx_local total (pSize p w h).toNat
      (rowsIdx (passWidth p w).toNat (passHeight p h).toNat 0) (by
        have := rowsIdx_local (passWidth p w).toNat (passHeight p h).toNat 0
        rw [hsz, Int.toNat_ofNat]
        simpa using this)
    have hc := LocalInv.comp hl (ih hrest (total + (pSize p w h).toNat)) (by omega) (by omega)
    exact hc

theorem passesIdx_lt (w h : Int) (ps : List interlaceScan)
    (hg : ∀ p ∈ ps, 0 ≤ passWidth p w ∧ 0 ≤ passHeight p h) (total len : Nat)
    (hfit : (total : Int) + passesTotal w h ps ≤ len) :
    ∀ k, k < len → passesIdx w h ps total k < len := by
  intro k hk
  have hl := passesIdx_local w h ps hg total
  have h2 := passesTotal_nonneg w h ps hg
  by_cases h1 : k < total
  · rw [hl.1 k h1]; exact hk
  · by_cases h3 : k < total + (passesTotal w h ps).toNat
    · have := (hl.2.2.1 k (by omega) h3).2
      omega
    · rw [hl.2.1 k (by omega)]; exact hk

theorem fixPasses_ok (w h : Int) (ps : List interlaceScan)
    (hg : ∀ p ∈ ps, 0 ≤ passWidth p w ∧ 0 ≤ passHeight p h) :
    ∀ (total : Nat) (raw : List Nat), (total : Int) + passesTotal w h ps ≤ raw.length →
    fixPasses w h ps total raw = some (applyIdx (passesIdx w h ps total) raw, none) := by
  induction ps with
  | nil =>
    intro total raw _
    simp only [fixPasses]
    rw [applyIdx_id]
    intro k _
    rfl
  | cons p ps ih =>
    intro total raw hfit
    have h1 := hg p (List.mem_cons_self _ _)
    have hrest := fun q hq => hg q (List.mem_cons_of_mem p hq)
    have h2 := passesTotal_nonneg w h ps hrest
    have hsz := pSize_eq p w h h1.1 h1.2
    rw [passesTotal_cons] at hfit
    obtain ⟨a, ha⟩ := Int.eq_ofNat_of_zero_le h1.1
    obtain ⟨b, hb⟩ := Int.eq_ofNat_of_zero_le h1.2
    have hsz2 : (pSize p w h).toNat = b * (4 * a + 1) := by
      rw [hsz, Int.toNat_ofNat, ha, hb, Int.toNat_ofNat, Int.toNat_ofNat]
    have hszi : pSize p w h = ((b * (4 * a + 1) : Nat) : Int) := by
      rw [hsz, ha, hb, Int.toNat_ofNat, Int.toNat_ofNat]
    have hc1 : ¬ ((total : Int) + pSize p w h > raw.length) := by omega
    have hc2 : ¬ ((total : Int) < 0 ∨ (total : Int) > raw.length) := by omega
    have hlen : b * (4 * a + 1) ≤ raw.length - total := by omega
    simp only [fixPasses, hc1, hc2, if_false, Int.toNat_ofNat]
    rw [ha, hb, unsafeImageFix_eq a b (raw.drop total) (by
      right; right; simp only [List.length_drop]; omega)]
    simp only
    have hin : ∀ k, k < raw.length - total → rowsIdx a b 0 k < raw.length - total :=
      rowsIdx_lt a b 0 (raw.length - total) (by right; right; omega)
    rw [applyIdx_region total _ raw (by omega) hin]
    have hcast : (total : Int) + pSize p w h = ((total + b * (4 * a + 1) : Nat) : Int) := by
      rw [hszi]; push_cast; ring
    rw [hcast, ih hrest _ _ (by rw [applyIdx_length]; omega)]
    rw [applyIdx_comp _ _ _
      (passesIdx_lt w h ps hrest (total + b * (4 * a + 1)) raw.length (by omega))]
    congr 2
    apply applyIdx_congr
    intro k _
    simp only [passesIdx, hsz2, ha, hb, Int.toNat_ofNat]

theorem fixPasses_err (w h : Int) (ps : List interlaceScan)
    (hg : ∀ p ∈ ps, 0 ≤ passWidth p w ∧ 0 ≤ passHeight p h) :
    ∀ (total : Nat) (raw : List Nat), total ≤ raw.length →
    (total : Int) + passesTotal w h ps > raw.length →
    ∃ out, fixPasses w h ps total raw =
      some (out, some (GoError.UnexpectedError "amount of image data")) ∧
      out.length = raw.length := by
  induction ps with
  | nil =>
    intro total raw hle hgt
    simp [passesTotal] at hgt
    omega
  | cons p ps ih =>
    intro total raw hle hgt
    have h1 := hg p (List.mem_cons_self _ _)
    have hrest := fun q hq => hg q (List.mem_cons_of_mem p hq)
    have hsz := pSize_eq p w h h1.1 h1.2
    rw [passesTotal_cons] at hgt
    by_cases hc1 : (total : Int) + pSize p w h > raw.length
    · exact ⟨raw, by simp only [fixPasses, hc1, if_true], rfl⟩
    · obtain ⟨a, ha⟩ := Int.eq_ofNat_of_zero_le h1.1
      obtain ⟨b, hb⟩ := Int.eq_ofNat_of_zero_le h1.2
      have hszi : pSize p w h = ((b * (4 * a + 1) : Nat) : Int) := by
        rw [hsz, ha, hb, Int.toNat_ofNat, Int.toNat_ofNat]
      have hc2 : ¬ ((total : Int) < 0 ∨ (total : Int) > raw.length) := by omega
      have hlen : b * (4 * a + 1) ≤ raw.length - total := by omega
      simp only [fixPasses, hc1, hc2, if_false, Int.toNat_ofNat]
      rw [ha, hb, unsafeImageFix_eq a b (raw.drop total) (by
        right; right; simp only [List.length_drop]; omega)]
      simp only
      have hin : ∀ k, k < raw.length - total → rowsIdx a b 0 k < raw.length - total :=
        rowsIdx_lt a b 0 (raw.length - total) (by right; right; omega)
      rw [applyIdx_region total _ raw (by omega) hin]
      have hcast : (total : Int) + pSize p w h = ((total + b * (4 * a + 1) : Nat) : Int) := by
        rw [hszi]; push_cast; ring
      rw [hcast]
      obtain ⟨out, ho, hl⟩ := ih hrest (total + b * (4 * a + 1))
        (applyIdx (regionIdx total (rowsIdx a b 0)) raw)
        (by rw [applyIdx_length]; omega) (by rw [applyIdx_length]; omega)
      exact ⟨out, ho, by rw [hl, applyIdx_length]⟩

theorem interlacing_geometry (w h : Nat) :
    ∀ p ∈ interlacing, 0 ≤ passWidth p (w : Int) ∧ 0 ≤ passHeight p (h : Int) :=
  fun p hp => ⟨passWidth_nonneg p hp w, passHeight_nonneg p hp h⟩

/-! ## Claims about the channel fixer -/

/-- C1. The channel fix is its own inverse: whenever `rawImageFix w h interlace raw`
returns without error and without indexing outside the buffer (for interlace 0 this is
the case as soon as `len(raw) ≥ h*(4w+1)`), a second call with the same `w`, `h` and
`interlace` on the result also succeeds and gives back `raw` byte for byte. -/
theorem rawImageFix_involutive (w h : Nat) (interlace : Int)
    (hi : interlace = itNone ∨ interlace = itAdam7) (raw out : List Nat)
    (hrun : rawImageFix w h interlace raw = some (out, none)) :
    rawImageFix w h interlace out = some (raw, none) := by
  rcases hi with hi | hi
  · subst hi
    simp only [rawImageFix, if_true] at hrun ⊢
    by_cases hok : h = 0 ∨ w = 0 ∨ h * (4 * w + 1) ≤ raw.length + 1
    · rw [unsafeImageFix_eq w h raw hok] at hrun
      simp only [Option.some.injEq, Prod.mk.injEq, and_true] at hrun
      subst hrun
      rw [unsafeImageFix_eq w h _ (by rw [applyIdx_length]; exact hok)]
      simp only
      rw [rowsIdx_invol w h raw hok]
    · rw [unsafeImageFix_none w h raw hok] at hrun
      simp at hrun
  · subst hi
    have hne : ¬ (itAdam7 = itNone) := by decide
    simp only [rawImageFix, hne, if_false] at hrun ⊢
    have hg := interlacing_geometry w h
    by_cases hfit : ((0 : Nat) : Int) + passesTotal w h interlacing ≤ raw.length
    · have h1 := fixPasses_ok w h interlacing hg 0 raw hfit
      simp only [Nat.cast_zero] at h1
      rw [h1] at hrun
      simp only [Option.some.injEq, Prod.mk.injEq, and_true] at hrun
      subst hrun
      have h2 := fixPasses_ok w h interlacing hg 0
        (applyIdx (passesIdx w h interlacing 0) raw) (by rw [applyIdx_length]; exact hfit)
      simp only [Nat.cast_zero] at h2
      rw [h2, applyIdx_comp _ _ _ (passesIdx_lt w h interlacing hg 0 raw.length hfit)]
      congr 2
      apply applyIdx_id
      intro k _
      exact (passesIdx_local w h interlacing hg 0).2.2.2 k
    · obtain ⟨o, ho, _⟩ := fixPasses_err w h interlacing hg 0 raw (Nat.zero_le _)
        (by omega)
      simp only [Nat.cast_zero] at ho
      rw [ho] at hrun
      simp at hrun

/-- Witness for C1: a 2×1 image, non-interlaced, goes back to itself. -/
theorem rawImageFix_involutive_witness :
    rawImageFix 2 1 itNone [0, 11, 12, 13, 14, 21, 22, 23, 24]
      = some ([0, 13, 12, 11, 14, 23, 22, 21, 24], none) ∧
    rawImageFix 2 1 itNone [0, 13, 12, 11, 14, 23, 22, 21, 24]
      = some ([0, 11, 12, 13, 14, 21, 22, 23, 24], none) :=
  ⟨by decide,
   rawImageFix_involutive 2 1 itNone (Or.inl rfl) [0, 11, 12, 13, 14, 21, 22, 23, 24]
     [0, 13, 12, 11, 14, 23, 22, 21, 24] (by decide)⟩

/-- C2. Exact effect of the non-interlaced channel fix: with `len(raw) ≥ h*(4w+1)` the
call returns no error and keeps the length; in every pixel group, at
`base = y*(4w+1) + 1 + 4x`, bytes 0 and 2 are exchanged and bytes 1 and 3 are kept; every
filter byte and every byte from `h*(4w+1)` on is unchanged. -/
theorem rawImageFix_none_exact (w h : Nat) (raw : List Nat)
    (hlen : h * (4 * w + 1) ≤ raw.length) :
    ∃ out, rawImageFix w h itNone raw = some (out, none) ∧ out.length = raw.length ∧
      (∀ y x, y < h → x < w →
        out[y * (4 * w + 1) + 1 + 4 * x]? = raw[y * (4 * w + 1) + 1 + 4 * x + 2]? ∧
        out[y * (4 * w + 1) + 1 + 4 * x + 2]? = raw[y * (4 * w + 1) + 1 + 4 * x]? ∧
        out[y * (4 * w + 1) + 1 + 4 * x + 1]? = raw[y * (4 * w + 1) + 1 + 4 * x + 1]? ∧
        out[y * (4 * w + 1) + 1 + 4 * x + 3]? = raw[y * (4 * w + 1) + 1 + 4 * x + 3]?) ∧
      (∀ y, y < h → out[y * (4 * w + 1)]? = raw[y * (4 * w + 1)]?) ∧
      (∀ j, h * (4 * w + 1) ≤ j → out[j]? = raw[j]?) := by
  have hok : h = 0 ∨ w = 0 ∨ h * (4 * w + 1) ≤ raw.length + 1 := by omega
  have hin := rowsIdx_lt w h 0 raw.length (by simpa using hok)
  have hloc := rowsIdx_local w h 0
  refine ⟨applyIdx (rowsIdx w h 0) raw, ?_, applyIdx_length _ _, ?_, ?_, ?_⟩
  · simp only [rawImageFix, if_true]
    rw [unsafeImageFix_eq w h raw hok]
  · intro y x hy hx
    have hrow : (y + 1) * (4 * w + 1) ≤ h * (4 * w + 1) := Nat.mul_le_mul_right _ hy
    have e : (y + 1) * (4 * w + 1) = y * (4 * w + 1) + (4 * w + 1) := by ring
    obtain ⟨p0, p2, p1, p3⟩ := rowsIdx_pixel w h 0 y x hy hx
    simp only [Nat.zero_add] at p0 p2 p1 p3
    rw [applyIdx_getElem? _ _ _ hin, applyIdx_getElem? _ _ _ hin,
      applyIdx_getElem? _ _ _ hin, applyIdx_getElem? _ _ _ hin, p0, p2, p1, p3]
    rw [if_pos (by omega), if_pos (by omega), if_pos (by omega), if_pos (by omega)]
    exact ⟨rfl, rfl, rfl, rfl⟩
  · intro y hy
    have hrow : (y + 1) * (4 * w + 1) ≤ h * (4 * w + 1) := Nat.mul_le_mul_right _ hy
    have e : (y + 1) * (4 * w + 1) = y * (4 * w + 1) + (4 * w + 1) := by ring
    have hf := rowsIdx_filter w h 0 y hy
    simp only [Nat.zero_add] at hf
    rw [applyIdx_getElem? _ _ _ hin, hf, if_pos (by omega)]
  · intro j hj
    have hf := hloc.2.1 j (by omega)
    rw [applyIdx_getElem? _ _ _ hin, hf]
    split_ifs with hj2
    · rfl
    · exact (List.getElem?_eq_none (by omega)).symm

/-- Witness for C2: `w = h = 1`, `[f, B, G, R, A]` becomes `[f, R, G, B, A]`. -/
theorem rawImageFix_none_exact_witness :
    rawImageFix 1 1 itNone [7, 30, 20, 10, 255] = some ([7, 10, 20, 30, 255], none) ∧
    ∃ out, rawImageFix 1 1 itNone [7, 30, 20, 10, 255] = some (out, none) ∧
      out.length = 5 ∧ out[1]? = some 10 ∧ out[3]? = some 30 ∧ out[2]? = some 20 ∧
      out[4]? = some 255 ∧ out[0]? = some 7 := by
  refine ⟨by decide, ?_⟩
  obtain ⟨out, h1, h2, h3, h4, _⟩ :=
    rawImageFix_none_exact 1 1 [7, 30, 20, 10, 255] (by decide)
  obtain ⟨p0, p2, p1, p3⟩ := h3 0 0 (by decide) (by decide)
  exact ⟨out, h1, h2, p0, p2, p1, p3, h4 0 (by decide)⟩

/-- C3 (fails on the code). For a 1×1 image the seven pass lengths `wp*hp*4 + hp` that
`rawImageFix` computes are `5, 1, 0, 1, 0, 1, 0`, in sum 8, while the raw Adam7 data of
a 1×1 RGBA image is 5 bytes long; on such a 5-byte buffer `rawImageFix` swaps the one
pixel and then returns the data-size error at the second pass. -/
theorem adam7_size_1x1 :
    interlacing.map (fun p => pSize p 1 1) = [5, 1, 0, 1, 0, 1, 0] ∧
    passesTotal 1 1 interlacing = 8 ∧ adam7RawLength 1 1 = 5 ∧
    rawImageFix 1 1 itAdam7 [0, 30, 20, 10, 255] =
      some ([0, 10, 20, 30, 255], some (GoError.UnexpectedError "amount of image data")) := by
  refine ⟨by decide, by decide, by decide, by decide⟩

/-- C4 (fails on the code). On a 1×1 image the second Adam7 pass (index 1) has width 0
and height 1, and `rawImageFix` advances its running offset by `pSize = 1`, not 0: an
empty pass still counts one filter byte for each of its rows. -/
theorem empty_pass_pSize_1x1 :
    interlacing[1]? = some ⟨8, 8, 4, 0⟩ ∧
    passWidth ⟨8, 8, 4, 0⟩ 1 = 0 ∧ passHeight ⟨8, 8, 4, 0⟩ 1 = 1 ∧
    pSize ⟨8, 8, 4, 0⟩ 1 1 = 1 ∧
    fixPasses 1 1 [⟨8, 8, 4, 0⟩] 5 [0, 10, 20, 30, 255, 9] = some ([0, 10, 20, 30, 255, 9], none) ∧
    fixPasses 1 1 [⟨8, 8, 4, 0⟩] 5 [0, 10, 20, 30, 255] =
      some ([0, 10, 20, 30, 255], some (GoError.UnexpectedError "amount of image data")) := by
  refine ⟨by decide, by decide, by decide, by decide, by decide, by decide⟩

theorem take_append_len {α : Type} (a b : List α) (n : Nat) (h : a.length = n) :
    (a ++ b).take n = a := by
  subst h
  exact List.take_left' rfl

theorem drop_append_len {α : Type} (a b : List α) (n : Nat) (h : a.length = n) :
    (a ++ b).drop n = b := by
  subst h
  exact List.drop_left' rfl

theorem putUint32_length (v : Nat) : (putUint32 v).length = 4 := rfl

theorem beUint32_putUint32 (v : Nat) (hv : v < 4294967296) : beUint32 (putUint32 v) = v := by
  simp only [beUint32, putUint32, List.getD_cons_zero, List.getD_cons_succ]
  omega

theorem beUint32_putUint32_append (v : Nat) (hv : v < 4294967296) (l : List Nat) :
    beUint32 (putUint32 v ++ l) = v := by
  simp only [beUint32, putUint32, List.cons_append, List.getD_cons_zero, List.getD_cons_succ]
  omega

theorem xor_mask_cancel (x m : Nat) : (x ^^^ m) ^^^ m = x := by
  rw [Nat.xor_assoc, Nat.xor_self, Nat.xor_zero]

theorem crc32Update_append (s : Nat) (a b : List Nat) :
    crc32Update (crc32Update s a) b = crc32Update s (a ++ b) := by
  simp only [crc32Update, xor_mask_cancel, List.foldl_append]

theorem crc32_append (a b : List Nat) : crc32Update (crc32Update 0 a) b = crc32 (a ++ b) :=
  crc32Update_append 0 a b

theorem crcBit_lt (c : Nat) (h : c < 2 ^ 32) : crcBit c < 2 ^ 32 := by
  unfold crcBit
  split_ifs
  · exact Nat.xor_lt_two_pow (by omega) (by norm_num)
  · omega

theorem crcTable_lt (i : Nat) (h : i < 2 ^ 32) : crcTable i < 2 ^ 32 := by
  unfold crcTable
  exact crcBit_lt _ (crcBit_lt _ (crcBit_lt _ (crcBit_lt _ (crcBit_lt _ (crcBit_lt _
    (crcBit_lt _ (crcBit_lt _ h)))))))

theorem crcByte_lt (c v : Nat) (h : c < 2 ^ 32) : crcByte c v < 2 ^ 32 := by
  unfold crcByte
  apply Nat.xor_lt_two_pow
  · apply crcTable_lt
    have h1 : c % 256 < 2 ^ 32 := by omega
    have h2 : v % 256 < 2 ^ 32 := by omega
    exact Nat.xor_lt_two_pow h1 h2
  · omega

theorem foldl_crcByte_lt (p : List Nat) : ∀ c, c < 2 ^ 32 → p.foldl crcByte c < 2 ^ 32 := by
  induction p with
  | nil => intro c h; exact h
  | cons v p ih => intro c h; exact ih _ (crcByte_lt c v h)

theorem crc32Update_lt (s : Nat) (p : List Nat) (h : s < 2 ^ 32) :
    crc32Update s p < 4294967296 := by
  unfold crc32Update
  have h1 : s ^^^ 0xffffffff < 2 ^ 32 := Nat.xor_lt_two_pow h (by norm_num)
  have h2 := foldl_crcByte_lt p _ h1
  have h3 : p.foldl crcByte (s ^^^ 0xffffffff) ^^^ 0xffffffff < 2 ^ 32 :=
    Nat.xor_lt_two_pow h2 (by norm_num)
  simpa using h3

theorem crc32_lt (p : List Nat) : crc32 p < 4294967296 :=
  crc32Update_lt 0 p (by norm_num)

/-! ## Claims about the chunk writer -/

/-- C6. Wire format and CRC invariant of the chunk writer: for a four-byte tag `typ`
and a payload of fewer than `2^32` bytes, `makeChunk` returns no error and appends
exactly `12 + len(data)` bytes to the buffer: the big-endian length, `typ`, `data` and
the big-endian CRC-32 of `typ ‖ data`. The CRC-32 recomputed over bytes
`[4, 8 + len(data))` of what was emitted equals the last four bytes read as a
big-endian word, and the first four bytes read the same way give `len(data)`. -/
theorem makeChunk_wire (w typ data : List Nat) (htyp : typ.length = 4)
    (hlen : data.length < 4294967296) :
    ∃ emitted, makeChunk w typ data = (w ++ emitted, none) ∧
      emitted = putUint32 data.length ++ typ ++ data ++ putUint32 (crc32 (typ ++ data)) ∧
      emitted.length = 12 + data.length ∧
      beUint32 (emitted.take 4) = data.length ∧
      (emitted.drop 4).take 4 = typ ∧
      (emitted.drop 8).take data.length = data ∧
      crc32 ((emitted.drop 4).take (4 + data.length)) =
        beUint32 (emitted.drop (8 + data.length)) := by
  refine ⟨putUint32 data.length ++ typ ++ data ++ putUint32 (crc32 (typ ++ data)),
    ?_, rfl, ?_, ?_, ?_, ?_, ?_⟩
  · simp only [makeChunk, bufferWrite, Nat.mod_eq_of_lt hlen, crc32_append,
      List.append_assoc]
  · simp only [List.length_append, putUint32_length, htyp]
    omega
  · rw [List.append_assoc, List.append_assoc, take_append_len _ _ 4 (putUint32_length _)]
    exact beUint32_putUint32 _ hlen
  · rw [List.append_assoc, List.append_assoc, drop_append_len _ _ 4 (putUint32_length _),
      take_append_len _ _ 4 htyp]
  · rw [List.append_assoc, List.append_assoc, ← List.append_assoc,
      drop_append_len _ _ 8 (by simp [putUint32_length, htyp]),
      take_append_len _ _ _ rfl]
  · have e1 : (List.drop 4 (putUint32 data.length ++ typ ++ data ++
        putUint32 (crc32 (typ ++ data)))).take (4 + data.length) = typ ++ data := by
      rw [List.append_assoc, List.append_assoc, drop_append_len _ _ 4 (putUint32_length _),
        ← List.append_assoc, take_append_len _ _ _ (by simp [htyp])]
    have e2 : List.drop (8 + data.length) (putUint32 data.length ++ typ ++ data ++
        putUint32 (crc32 (typ ++ data))) = putUint32 (crc32 (typ ++ data)) := by
      rw [drop_append_len _ _ _ (by simp [putUint32_length, htyp]; omega)]
    rw [e1, e2, beUint32_putUint32 _ (crc32_lt _)]

/-- Witness for C6: the `IEND` chunk, whose CRC-32 is `ae 42 60 82`. -/
theorem makeChunk_wire_witness :
    makeChunk [] tagIEND [] = ([0, 0, 0, 0, 73, 69, 78, 68, 0xae, 0x42, 0x60, 0x82], none) ∧
    ∃ emitted, makeChunk [] tagIEND [] = ([] ++ emitted, none) ∧ emitted.length = 12 + 0 := by
  refine ⟨by decide, ?_⟩
  obtain ⟨emitted, h1, _, h3, _⟩ := makeChunk_wire [] tagIEND [] (by decide) (by decide)
  exact ⟨emitted, h1, h3⟩

/-! ## The decoder: reading -/

theorem readFull_ok (a b : List Nat) (n : Nat) (h : a.length = n) :
    readFull (a ++ b) n = (a, b, none) := by
  unfold readFull
  rw [if_pos (by simp [h])]
  rw [take_append_len a b n h, drop_append_len a b n h]

theorem readTmp_ok (d : decoder) (a b : List Nat) (n : Nat) (hr : d.r = a ++ b)
    (h : a.length = n) :
    d.readTmp n = ({ d with r := b, tmp := a ++ d.tmp.drop n }, none) := by
  unfold decoder.readTmp
  rw [hr, readFull_ok a b n h]
  simp only [h]

theorem readFull_err_lib (r : List Nat) (n : Nat) (x y : List Nat) (e : GoError)
    (h : readFull r n = (x, y, some e)) : ∃ l, e = GoError.lib l := by
  unfold readFull at h
  split_ifs at h
  · simp at h
  · simp only [Prod.mk.injEq, Option.some.injEq] at h
    exact ⟨_, h.2.2.symm⟩
  · simp only [Prod.mk.injEq, Option.some.injEq] at h
    exact ⟨_, h.2.2.symm⟩

theorem readTmp_frame (d : decoder) (n : Nat) :
    (d.readTmp n).1.stage = d.stage ∧ (d.readTmp n).1.cb = d.cb ∧
    (d.readTmp n).1.zbuff = d.zbuff ∧ (d.readTmp n).1.buff = d.buff ∧
    (d.readTmp n).1.crc = d.crc ∧ (d.readTmp n).1.width = d.width ∧
    (d.readTmp n).1.height = d.height ∧ (d.readTmp n).1.interlace = d.interlace := by
  unfold decoder.readTmp
  exact ⟨rfl, rfl, rfl, rfl, rfl, rfl, rfl, rfl⟩

theorem readTmp_err_lib (d d1 : decoder) (n : Nat) (e : GoError)
    (h : d.readTmp n = (d1, some e)) : ∃ l, e = GoError.lib l := by
  unfold decoder.readTmp at h
  simp only [Prod.mk.injEq] at h
  exact readFull_err_lib d.r n (readFull d.r n).1 (readFull d.r n).2.1 e (by
    rw [← h.2])

/-- An error that is not the chunk-order error. -/
theorem lib_ne_order (l : LibError) : GoError.lib l ≠ chunkOrderError := by
  intro h
  cases h

theorem verifyChecksum_frame (d : decoder) (b : Bool) :
    (verifyChecksum d b).1.stage = d.stage ∧ (verifyChecksum d b).1.cb = d.cb ∧
    (verifyChecksum d b).1.zbuff = d.zbuff ∧ (verifyChecksum d b).1.width = d.width ∧
    (verifyChecksum d b).1.height = d.height ∧
    (verifyChecksum d b).1.interlace = d.interlace := by
  have hf := readTmp_frame d 4
  unfold verifyChecksum
  split
  · next d1 e he => rw [he] at hf; exact ⟨hf.1, hf.2.1, hf.2.2.1, hf.2.2.2.2.2.1, hf.2.2.2.2.2.2.1, hf.2.2.2.2.2.2.2⟩
  · next d1 he =>
    rw [he] at hf
    split_ifs <;> exact ⟨hf.1, hf.2.1, hf.2.2.1, hf.2.2.2.2.2.1, hf.2.2.2.2.2.2.1, hf.2.2.2.2.2.2.2⟩

theorem verifyChecksum_err (d d1 : decoder) (b : Bool) (e : GoError)
    (h : verifyChecksum d b = (d1, some e)) :
    (∃ l, e = GoError.lib l) ∨ e = GoError.FormatError "invalid checksum" := by
  unfold verifyChecksum at h
  split at h
  · next d2 e2 he =>
    simp only [Prod.mk.injEq, Option.some.injEq] at h
    rw [← h.2]
    exact Or.inl (readTmp_err_lib d d2 4 e2 he)
  · next d2 he =>
    split_ifs at h
    · simp only [Prod.mk.injEq, Option.some.injEq] at h
      exact Or.inr h.2.symm
    · simp at h
    · simp at h

theorem verifyChecksum_ok (d : decoder) (b : Bool) (v : Nat) (rest : List Nat)
    (hr : d.r = putUint32 v ++ rest) (hv : v < 4294967296) :
    verifyChecksum d b =
      if v ≠ d.crc then
        ({ d with r := rest, tmp := putUint32 v ++ d.tmp.drop 4 },
          some (GoError.FormatError "invalid checksum"))
      else if !b then ({ d with r := rest, tmp := putUint32 v ++ d.tmp.drop 4 }, none)
      else ({ d with r := rest, tmp := putUint32 v ++ d.tmp.drop 4,
                      buff := d.buff ++ putUint32 v }, none) := by
  unfold verifyChecksum
  rw [readTmp_ok d (putUint32 v) rest 4 hr (putUint32_length v)]
  simp only [take_append_len _ _ 4 (putUint32_length v), beUint32_putUint32 v hv]

/-! ## The decoder: the copy loops -/

theorem crc32Update_nil (s : Nat) : crc32Update s [] = s := by
  simp only [crc32Update, List.foldl_nil, xor_mask_cancel]

theorem ignoreLoop_ok : ∀ (fuel : Nat) (d : decoder) (n : Nat) (data rest : List Nat),
    d.r = data ++ rest → data.length = n → n ≤ fuel →
    ignoreLoop fuel d n =
      ({ d with r := rest, crc := crc32Update d.crc data, buff := d.buff ++ data }, none) := by
  intro fuel
  induction fuel with
  | zero =>
    intro d n data rest hr hn hf
    have h0 : data = [] := List.eq_nil_of_length_eq_zero (by omega)
    subst h0
    simp only [ignoreLoop, crc32Update_nil, List.append_nil]
    simp only [List.nil_append] at hr
    rw [← hr]
  | succ fuel ih =>
    intro d n data rest hr hn hf
    by_cases h0 : n > 0
    · have hk : (data.take (min 4096 n)).length = min 4096 n := by
        rw [List.length_take]; omega
      have hsplit : d.r = data.take (min 4096 n) ++ (data.drop (min 4096 n) ++ rest) := by
        rw [← List.append_assoc, List.take_append_drop, hr]
      simp only [ignoreLoop, h0, if_true]
      rw [hsplit, readFull_ok _ _ _ hk]
      simp only
      rw [ih _ (n - (data.take (min 4096 n)).length) (data.drop (min 4096 n)) rest rfl
        (by rw [List.length_drop, hk]; omega) (by rw [hk]; omega)]
      simp only [crc32Update_append, List.append_assoc, List.take_append_drop]
    · have h1 : data = [] := List.eq_nil_of_length_eq_zero (by omega)
      subst h1
      simp only [ignoreLoop, h0, if_false, crc32Update_nil, List.append_nil]
      simp only [List.nil_append] at hr
      rw [← hr]

theorem idatLoop_ok : ∀ (fuel : Nat) (d : decoder) (n : Nat) (data rest : List Nat),
    d.r = data ++ rest → data.length = n → n ≤ fuel →
    idatLoop fuel d n =
      ({ d with r := rest, crc := crc32Update d.crc data, zbuff := d.zbuff ++ data }, none) := by
  intro fuel
  induction fuel with
  | zero =>
    intro d n data rest hr hn hf
    have h0 : data = [] := List.eq_nil_of_length_eq_zero (by omega)
    subst h0
    simp only [idatLoop, crc32Update_nil, List.append_nil]
    simp only [List.nil_append] at hr
    rw [← hr]
  | succ fuel ih =>
    intro d n data rest hr hn hf
    by_cases h0 : n > 0
    · have hk : (data.take (min 4096 n)).length = min 4096 n := by
        rw [List.length_take]; omega
      have hsplit : d.r = data.take (min 4096 n) ++ (data.drop (min 4096 n) ++ rest) := by
        rw [← List.append_assoc, List.take_append_drop, hr]
      simp only [idatLoop, h0, if_true]
      rw [hsplit, readFull_ok _ _ _ hk]
      simp only
      rw [ih _ (n - (data.take (min 4096 n)).length) (data.drop (min 4096 n)) rest rfl
        (by rw [List.length_drop, hk]; omega) (by rw [hk]; omega)]
      simp only [crc32Update_append, List.append_assoc, List.take_append_drop]
    · have h1 : data = [] := List.eq_nil_of_length_eq_zero (by omega)
      subst h1
      simp only [idatLoop, h0, if_false, crc32Update_nil, List.append_nil]
      simp only [List.nil_append] at hr
      rw [← hr]

theorem ignoreLoop_frame : ∀ (fuel : Nat) (d : decoder) (n : Nat),
    (ignoreLoop fuel d n).1.stage = d.stage ∧ (ignoreLoop fuel d n).1.cb = d.cb ∧
    (ignoreLoop fuel d n).1.zbuff = d.zbuff ∧ (ignoreLoop fuel d n).1.width = d.width ∧
    (ignoreLoop fuel d n).1.height = d.height ∧
    (ignoreLoop fuel d n).1.interlace = d.interlace := by
  intro fuel
  induction fuel with
  | zero => intro d n; exact ⟨rfl, rfl, rfl, rfl, rfl, rfl⟩
  | succ fuel ih =>
    intro d n
    simp only [ignoreLoop]
    split_ifs
    · split
      · exact ⟨rfl, rfl, rfl, rfl, rfl, rfl⟩
      · exact ih _ _
    · exact ⟨rfl, rfl, rfl, rfl, rfl, rfl⟩

theorem idatLoop_frame : ∀ (fuel : Nat) (d : decoder) (n : Nat),
    (idatLoop fuel d n).1.stage = d.stage ∧ (idatLoop fuel d n).1.cb = d.cb ∧
    (idatLoop fuel d n).1.buff = d.buff ∧ (idatLoop fuel d n).1.width = d.width ∧
    (idatLoop fuel d n).1.height = d.height ∧
    (idatLoop fuel d n).1.interlace = d.interlace := by
  intro fuel
  induction fuel with
  | zero => intro d n; exact ⟨rfl, rfl, rfl, rfl, rfl, rfl⟩
  | succ fuel ih =>
    intro d n
    simp only [idatLoop]
    split_ifs
    · split
      · exact ⟨rfl, rfl, rfl, rfl, rfl, rfl⟩
      · exact ih _ _
    · exact ⟨rfl, rfl, rfl, rfl, rfl, rfl⟩

theorem ignoreLoop_err : ∀ (fuel : Nat) (d d1 : decoder) (n : Nat) (e : GoError),
    ignoreLoop fuel d n = (d1, some e) → ∃ l, e = GoError.lib l := by
  intro fuel
  induction fuel with
  | zero => intro d d1 n e h; simp [ignoreLoop] at h
  | succ fuel ih =>
    intro d d1 n e h
    simp only [ignoreLoop] at h
    split_ifs at h
    · split at h
      · next x rest err hrf =>
        simp only [Prod.mk.injEq, Option.some.injEq] at h
        rw [← h.2]
        exact readFull_err_lib _ _ _ _ _ hrf
      · exact ih _ _ _ _ h
    · simp at h

theorem idatLoop_err : ∀ (fuel : Nat) (d d1 : decoder) (n : Nat) (e : GoError),
    idatLoop fuel d n = (d1, some e) → ∃ l, e = GoError.lib l := by
  intro fuel
  induction fuel with
  | zero => intro d d1 n e h; simp [idatLoop] at h
  | succ fuel ih =>
    intro d d1 n e h
    simp only [idatLoop] at h
    split_ifs at h
    · split at h
      · next x rest err hrf =>
        simp only [Prod.mk.injEq, Option.some.injEq] at h
        rw [← h.2]
        exact readFull_err_lib _ _ _ _ _ hrf
      · exact ih _ _ _ _ h
    · simp at h

/-! ## The decoder: `parseChunk` on a chunk that is fully present -/

theorem chunk_bytes_split (c : Chunk) (rest : List Nat) :
    c.bytes ++ rest =
      (putUint32 c.data.length ++ c.typ) ++ (c.data ++ (putUint32 c.crc ++ rest)) := by
  simp only [Chunk.bytes, List.append_assoc]

theorem parseChunk_eq (z : Zlib) (d : decoder) (c : Chunk) (rest : List Nat)
    (hwf : c.WF) (hr : d.r = c.bytes ++ rest) :
    parseChunk z d =
      if c.typ = tagCgBI then
        if d.stage ≠ dsStart then some (hdrState d c rest, some chunkOrderError)
        else some (parseCgBI { hdrState d c rest with stage := dsSeenCgBI } c.data.length)
      else if c.typ = tagIHDR then
        if d.stage ≠ dsSeenCgBI then some (hdrState d c rest, some chunkOrderError)
        else
          match parseIHDR { hdrState d c rest with stage := dsSeenIHDR } c.data.length with
          | (d3, some err) => some (d3, some err)
          | (d3, none) =>
            if d3.cb ≠ cbTCA8 then some (d3, some (GoError.FormatError "cb must cbTCA8 "))
            else some (d3, none)
      else if c.typ = tagIDAT then
        if d.stage < dsSeenIHDR ∨ d.stage > dsSeenIDAT then
          some (hdrState d c rest, some chunkOrderError)
        else some (parseIDAT { hdrState d c rest with stage := dsSeenIDAT } c.data.length)
      else if c.typ = tagIEND then
        if d.stage ≠ dsSeenIDAT then some (hdrState d c rest, some chunkOrderError)
        else parseIEND z { hdrState d c rest with stage := dsSeenIEND } c.data.length
      else if c.data.length > 0x7fffffff then
        some (hdrState d c rest,
          some (GoError.FormatError ("Bad chunk length: " ++ toString c.data.length)))
      else
        match ignoreLoop c.data.length
          { hdrState d c rest with
            buff := d.buff ++ (putUint32 c.data.length ++ c.typ) } c.data.length with
        | (d4, some err) => some (d4, some err)
        | (d4, none) => some (verifyChecksum d4 true) := by
  obtain ⟨ht, hl, _⟩ := hwf
  have h8 : (putUint32 c.data.length ++ c.typ).length = 8 := by
    simp [putUint32_length, ht]
  have hread := readTmp_ok d _ _ 8 (hr.trans (chunk_bytes_split c rest)) h8
  have e1 : beUint32 (List.take 4 (putUint32 c.data.length ++ c.typ ++ List.drop 8 d.tmp))
      = c.data.length := by
    rw [List.append_assoc, take_append_len _ _ 4 (putUint32_length _)]
    exact beUint32_putUint32 _ hl
  have e2 : List.take 4 (List.drop 4 (putUint32 c.data.length ++ c.typ ++ List.drop 8 d.tmp))
      = c.typ := by
    rw [List.append_assoc, drop_append_len _ _ 4 (putUint32_length _),
      take_append_len _ _ 4 ht]
  have e3 : List.take 8 (putUint32 c.data.length ++ c.typ ++ List.drop 8 d.tmp)
      = putUint32 c.data.length ++ c.typ := take_append_len _ _ 8 h8
  unfold parseChunk
  rw [hread]
  simp only [e1, e2, e3, hdrState]

/-! ## The decoder: what each step leaves unchanged -/

theorem readFull_rest_length (r : List Nat) (n : Nat) :
    (readFull r n).2.1.length ≤ r.length ∧
    ((readFull r n).2.2 = none → (readFull r n).2.1.length + n = r.length) := by
  unfold readFull
  split_ifs with h1 h2
  · simp only [List.length_drop]
    omega
  · simp
  · simp

theorem readTmp_r (d : decoder) (n : Nat) :
    (d.readTmp n).1.r.length ≤ d.r.length ∧
    ((d.readTmp n).2 = none → (d.readTmp n).1.r.length + n = d.r.length) := by
  unfold decoder.readTmp
  exact readFull_rest_length d.r n

theorem verifyChecksum_r (d : decoder) (b : Bool) :
    (verifyChecksum d b).1.r.length ≤ d.r.length := by
  have hf := (readTmp_r d 4).1
  unfold verifyChecksum
  split
  · next d1 e he => rw [he] at hf; exact hf
  · next d1 he =>
    rw [he] at hf
    split_ifs <;> exact hf

theorem ignoreLoop_r : ∀ (fuel : Nat) (d : decoder) (n : Nat),
    (ignoreLoop fuel d n).1.r.length ≤ d.r.length := by
  intro fuel
  induction fuel with
  | zero => intro d n; exact Nat.le_refl _
  | succ fuel ih =>
    intro d n
    simp only [ignoreLoop]
    split_ifs
    · have hl := (readFull_rest_length d.r (min 4096 n)).1
      split
      · next x rest err hrf => rw [hrf] at hl; exact hl
      · next x rest hrf =>
        rw [hrf] at hl
        exact Nat.le_trans (ih _ _) hl
    · exact Nat.le_refl _

theorem idatLoop_r : ∀ (fuel : Nat) (d : decoder) (n : Nat),
    (idatLoop fuel d n).1.r.length ≤ d.r.length := by
  intro fuel
  induction fuel with
  | zero => intro d n; exact Nat.le_refl _
  | succ fuel ih =>
    intro d n
    simp only [idatLoop]
    split_ifs
    · have hl := (readFull_rest_length d.r (min 4096 n)).1
      split
      · next x rest err hrf => rw [hrf] at hl; exact hl
      · next x rest hrf =>
        rw [hrf] at hl
        exact Nat.le_trans (ih _ _) hl
    · exact Nat.le_refl _

theorem parseCgBI_frame (d : decoder) (n : Nat) :
    (parseCgBI d n).1.stage = d.stage ∧ (parseCgBI d n).1.cb = d.cb ∧
    (parseCgBI d n).1.zbuff = d.zbuff ∧ (parseCgBI d n).1.r.length ≤ d.r.length := by
  have hf := readTmp_frame d 4
  have hr := (readTmp_r d 4).1
  unfold parseCgBI
  split_ifs
  · exact ⟨rfl, rfl, rfl, Nat.le_refl _⟩
  · split
    · next d1 e he =>
      rw [he] at hf hr
      exact ⟨hf.1, hf.2.1, hf.2.2.1, hr⟩
    · next d1 he =>
      rw [he] at hf hr
      simp only
      split_ifs
      · exact ⟨hf.1, hf.2.1, hf.2.2.1, hr⟩
      · have hv := verifyChecksum_frame
          { d1 with crc := crc32Update d1.crc (List.take 4 d1.tmp) } false
        have hvr := verifyChecksum_r
          { d1 with crc := crc32Update d1.crc (List.take 4 d1.tmp) } false
        exact ⟨hv.1.trans hf.1, hv.2.1.trans hf.2.1, hv.2.2.1.trans hf.2.2.1,
          Nat.le_trans hvr hr⟩

theorem parseCgBI_err (d d1 : decoder) (n : Nat) (e : GoError)
    (h : parseCgBI d n = (d1, some e)) : e ≠ chunkOrderError := by
  unfold parseCgBI at h
  split_ifs at h
  · simp only [Prod.mk.injEq, Option.some.injEq] at h
    rw [← h.2]; decide
  · split at h
    · next d2 e2 he =>
      simp only [Prod.mk.injEq, Option.some.injEq] at h
      obtain ⟨l, hl⟩ := readTmp_err_lib d d2 4 e2 he
      rw [← h.2, hl]
      exact lib_ne_order l
    · next d2 he =>
      simp only at h
      split_ifs at h
      · simp only [Prod.mk.injEq, Option.some.injEq] at h
        rw [← h.2]; decide
      · rcases verifyChecksum_err _ _ _ _ h with ⟨l, hl⟩ | hl
        · rw [hl]; exact lib_ne_order l
        · rw [hl]; decide

theorem parseIHDR_frame (d : decoder) (n : Nat) :
    (parseIHDR d n).1.stage = d.stage ∧ (parseIHDR d n).1.zbuff = d.zbuff ∧
    (parseIHDR d n).1.r.length ≤ d.r.length := by
  have hf := readTmp_frame { d with buff := d.buff ++ List.take 8 d.tmp } 13
  have hr := (readTmp_r { d with buff := d.buff ++ List.take 8 d.tmp } 13).1
  unfold parseIHDR
  split_ifs
  · exact ⟨rfl, rfl, Nat.le_refl _⟩
  · simp only
    split
    · next d1 e he =>
      rw [he] at hf hr
      exact ⟨hf.1, hf.2.2.1, hr⟩
    · next d1 he =>
      rw [he] at hf hr
      split_ifs
      · exact ⟨hf.1, hf.2.2.1, hr⟩
      · refine ⟨(verifyChecksum_frame _ true).1.trans hf.1,
          (verifyChecksum_frame _ true).2.2.1.trans hf.2.2.1,
          Nat.le_trans (verifyChecksum_r _ true) hr⟩
      · refine ⟨(verifyChecksum_frame _ true).1.trans hf.1,
          (verifyChecksum_frame _ true).2.2.1.trans hf.2.2.1,
          Nat.le_trans (verifyChecksum_r _ true) hr⟩

theorem parseIHDR_err (d d1 : decoder) (n : Nat) (e : GoError)
    (h : parseIHDR d n = (d1, some e)) : e ≠ chunkOrderError := by
  unfold parseIHDR at h
  split_ifs at h
  · simp only [Prod.mk.injEq, Option.some.injEq] at h
    rw [← h.2]; decide
  · simp only at h
    split at h
    · next d2 e2 he =>
      simp only [Prod.mk.injEq, Option.some.injEq] at h
      obtain ⟨l, hl⟩ := readTmp_err_lib _ d2 13 e2 he
      rw [← h.2, hl]
      exact lib_ne_order l
    · next d2 he =>
      split_ifs at h
      · simp only [Prod.mk.injEq, Option.some.injEq] at h
        rw [← h.2]; decide
      · rcases verifyChecksum_err _ _ _ _ h with ⟨l, hl⟩ | hl
        · rw [hl]; exact lib_ne_order l
        · rw [hl]; decide
      · rcases verifyChecksum_err _ _ _ _ h with ⟨l, hl⟩ | hl
        · rw [hl]; exact lib_ne_order l
        · rw [hl]; decide

theorem badLength_ne_order (n : Nat) :
    GoError.FormatError ("Bad chunk length: " ++ toString n) ≠ chunkOrderError := by
  intro h
  have h1 : ("Bad chunk length: " ++ toString n) = "chunk out of order" := by
    simpa [chunkOrderError] using h
  have h2 := congrArg String.data h1
  simp only [String.data_append] at h2
  have h3 := congrArg List.head? h2
  simp at h3

theorem parseIDAT_frame (d : decoder) (n : Nat) :
    (parseIDAT d n).1.stage = d.stage ∧ (parseIDAT d n).1.cb = d.cb ∧
    (parseIDAT d n).1.r.length ≤ d.r.length := by
  have hf := idatLoop_frame n d n
  have hr := idatLoop_r n d n
  unfold parseIDAT
  split_ifs
  · exact ⟨rfl, rfl, Nat.le_refl _⟩
  · split
    · next d1 e he =>
      rw [he] at hf hr
      exact ⟨hf.1, hf.2.1, hr⟩
    · next d1 he =>
      rw [he] at hf hr
      exact ⟨(verifyChecksum_frame _ false).1.trans hf.1,
        (verifyChecksum_frame _ false).2.1.trans hf.2.1,
        Nat.le_trans (verifyChecksum_r _ false) hr⟩

theorem parseIDAT_err (d d1 : decoder) (n : Nat) (e : GoError)
    (h : parseIDAT d n = (d1, some e)) : e ≠ chunkOrderError := by
  unfold parseIDAT at h
  split_ifs at h
  · simp only [Prod.mk.injEq, Option.some.injEq] at h
    rw [← h.2]; exact badLength_ne_order n
  · split at h
    · next d2 e2 he =>
      simp only [Prod.mk.injEq, Option.some.injEq] at h
      obtain ⟨l, hl⟩ := idatLoop_err _ _ _ _ _ he
      rw [← h.2, hl]
      exact lib_ne_order l
    · next d2 he =>
      rcases verifyChecksum_err _ _ _ _ h with ⟨l, hl⟩ | hl
      · rw [hl]; exact lib_ne_order l
      · rw [hl]; decide

theorem fixPasses_errval (w h : Int) : ∀ (ps : List interlaceScan) (total : Int)
    (raw out : List Nat) (e : GoError),
    fixPasses w h ps total raw = some (out, some e) →
    e = GoError.UnexpectedError "amount of image data" := by
  intro ps
  induction ps with
  | nil => intro total raw out e h; simp [fixPasses] at h
  | cons p ps ih =>
    intro total raw out e h
    simp only [fixPasses] at h
    split_ifs at h
    · simp only [Option.some.injEq, Prod.mk.injEq] at h
      exact h.2.symm
    · split at h
      · simp at h
      · exact ih _ _ _ _ h

theorem rawImageFix_errval (w h interlace : Int) (raw out : List Nat) (e : GoError)
    (hrun : rawImageFix w h interlace raw = some (out, some e)) :
    e = GoError.UnexpectedError "amount of image data" := by
  unfold rawImageFix at hrun
  split_ifs at hrun
  · split at hrun <;> simp at hrun
  · exact fixPasses_errval w h _ _ _ _ _ hrun

theorem makeChunk_eq (w typ data : List Nat) :
    makeChunk w typ data =
      (w ++ (putUint32 (data.length % 4294967296) ++ typ ++ data ++
        putUint32 (crc32 (typ ++ data))), none) := by
  simp only [makeChunk, bufferWrite, crc32_append, List.append_assoc]

theorem map_lib_ne_order (x : Option LibError) :
    x.map GoError.lib ≠ some chunkOrderError := by
  cases x with
  | none => simp
  | some l =>
    intro hc
    exact lib_ne_order l (Option.some.inj hc)

theorem parseIEND_frame (z : Zlib) (d d1 : decoder) (n : Nat) (e : Option GoError)
    (h : parseIEND z d n = some (d1, e)) :
    d1.stage = d.stage ∧ d1.r.length ≤ d.r.length ∧ e ≠ some chunkOrderError := by
  unfold parseIEND at h
  split_ifs at h
  · simp only [Option.some.injEq, Prod.mk.injEq] at h
    obtain ⟨rfl, rfl⟩ := h
    exact ⟨rfl, Nat.le_refl _, by decide⟩
  · simp only at h
    split at h
    · next l hl =>
      simp only [Option.some.injEq, Prod.mk.injEq] at h
      obtain ⟨rfl, rfl⟩ := h
      exact ⟨rfl, Nat.le_refl _, by
        intro hc
        exact lib_ne_order l (Option.some.inj hc)⟩
    · split_ifs at h
      · simp only [Option.some.injEq, Prod.mk.injEq] at h
        obtain ⟨rfl, rfl⟩ := h
        exact ⟨rfl, Nat.le_refl _, map_lib_ne_order _⟩
      · split at h
        · simp at h
        · next out e1 hfix =>
          simp only [Option.some.injEq, Prod.mk.injEq] at h
          obtain ⟨rfl, rfl⟩ := h
          refine ⟨rfl, Nat.le_refl _, ?_⟩
          rw [rawImageFix_errval _ _ _ _ _ _ hfix]
          decide
        · next out hfix =>
          rw [makeChunk_eq] at h
          simp only [Option.some.injEq] at h
          have hv := verifyChecksum_frame
            { r := d.r, buff := d.buff ++ (putUint32 ((z.compress out).length % 4294967296)
                ++ tagIDAT ++ z.compress out ++ putUint32 (crc32 (tagIDAT ++ z.compress out)))
                ++ List.take 8 d.tmp,
              zbuff := z.compress out, crc := d.crc, width := d.width, height := d.height,
              interlace := d.interlace, stage := d.stage, cb := d.cb, tmp := d.tmp } true
          have hvr := verifyChecksum_r
            { r := d.r, buff := d.buff ++ (putUint32 ((z.compress out).length % 4294967296)
                ++ tagIDAT ++ z.compress out ++ putUint32 (crc32 (tagIDAT ++ z.compress out)))
                ++ List.take 8 d.tmp,
              zbuff := z.compress out, crc := d.crc, width := d.width, height := d.height,
              interlace := d.interlace, stage := d.stage, cb := d.cb, tmp := d.tmp } true
          rw [h] at hv hvr
          refine ⟨hv.1, hvr, ?_⟩
          cases e with
          | none => simp
          | some e0 =>
            intro hc
            rcases verifyChecksum_err _ _ _ _ h with ⟨l, hl⟩ | hl
            · rw [hl] at hc; exact lib_ne_order l (Option.some.inj hc)
            · rw [hl] at hc; exact absurd (Option.some.inj hc) (by decide)

theorem parseCgBI_frame_of (d d1 : decoder) (n : Nat) (e : Option GoError)
    (h : parseCgBI d n = (d1, e)) :
    d1.stage = d.stage ∧ d1.cb = d.cb ∧ d1.zbuff = d.zbuff ∧ d1.r.length ≤ d.r.length := by
  have hf := parseCgBI_frame d n
  rw [h] at hf
  exact hf

theorem parseIDAT_frame_of (d d1 : decoder) (n : Nat) (e : Option GoError)
    (h : parseIDAT d n = (d1, e)) :
    d1.stage = d.stage ∧ d1.cb = d.cb ∧ d1.r.length ≤ d.r.length := by
  have hf := parseIDAT_frame d n
  rw [h] at hf
  exact hf

theorem parseIHDR_frame_of (d d1 : decoder) (n : Nat) (e : Option GoError)
    (h : parseIHDR d n = (d1, e)) :
    d1.stage = d.stage ∧ d1.zbuff = d.zbuff ∧ d1.r.length ≤ d.r.length := by
  have hf := parseIHDR_frame d n
  rw [h] at hf
  exact hf

theorem ignoreLoop_frame_of (fuel : Nat) (d d1 : decoder) (n : Nat) (e : Option GoError)
    (h : ignoreLoop fuel d n = (d1, e)) :
    d1.stage = d.stage ∧ d1.cb = d.cb ∧ d1.zbuff = d.zbuff ∧ d1.r.length ≤ d.r.length := by
  have hf := ignoreLoop_frame fuel d n
  have hr := ignoreLoop_r fuel d n
  rw [h] at hf hr
  exact ⟨hf.1, hf.2.1, hf.2.2.1, hr⟩

theorem verifyChecksum_frame_of (d d1 : decoder) (b : Bool) (e : Option GoError)
    (h : verifyChecksum d b = (d1, e)) :
    d1.stage = d.stage ∧ d1.cb = d.cb ∧ d1.zbuff = d.zbuff ∧ d1.r.length ≤ d.r.length := by
  have hf := verifyChecksum_frame d b
  have hr := verifyChecksum_r d b
  rw [h] at hf hr
  exact ⟨hf.1, hf.2.1, hf.2.2.1, hr⟩

/-- What every call of `parseChunk` does to the reader, the stage and the fields that
are set by later chunks. -/
theorem parseChunk_general (z : Zlib) (d d1 : decoder) (e : Option GoError)
    (h : parseChunk z d = some (d1, e)) :
    d1.r.length ≤ d.r.length ∧ (e = none → d1.r.length + 8 ≤ d.r.length) ∧
    d.stage ≤ d1.stage ∧ (d.stage ≤ dsSeenIEND → d1.stage ≤ dsSeenIEND) ∧
    (d1.stage ≤ dsSeenCgBI → d1.cb = d.cb ∧ d1.zbuff = d.zbuff) := by
  have hf := readTmp_frame d 8
  have hr := readTmp_r d 8
  unfold parseChunk at h
  split at h
  · next d2 e2 he =>
    rw [he] at hf hr
    simp only [Option.some.injEq, Prod.mk.injEq] at h
    obtain ⟨rfl, rfl⟩ := h
    refine ⟨hr.1, by simp, by rw [hf.1], by rw [hf.1]; exact id, fun _ => ⟨hf.2.1, hf.2.2.1⟩⟩
  · next d2 he =>
    rw [he] at hf hr
    have hr8 : d2.r.length + 8 = d.r.length := hr.2 rfl
    have hs : d2.stage = d.stage := hf.1
    have hcb : d2.cb = d.cb := hf.2.1
    have hz : d2.zbuff = d.zbuff := hf.2.2.1
    clear hf hr
    simp only [dsStart, dsSeenCgBI, dsSeenIHDR, dsSeenIDAT, dsSeenIEND] at h ⊢
    split_ifs at h with t1 c1 t2 c2 t3 c3 t4 c4 t5
    · simp only [Option.some.injEq, Prod.mk.injEq] at h
      obtain ⟨rfl, rfl⟩ := h
      exact ⟨by simp only; omega, by simp, by simp only; omega, by simp only; omega,
        fun _ => ⟨hcb, hz⟩⟩
    · simp only [Option.some.injEq] at h
      obtain ⟨h1, h2, h3, h4⟩ := parseCgBI_frame_of _ _ _ _ h
      simp only at h1 h2 h3 h4
      exact ⟨by omega, fun _ => by omega, by omega, fun _ => by omega,
        fun _ => ⟨h2.trans hcb, h3.trans hz⟩⟩
    · simp only [Option.some.injEq, Prod.mk.injEq] at h
      obtain ⟨rfl, rfl⟩ := h
      exact ⟨by simp only; omega, by simp, by simp only; omega, by simp only; omega,
        fun _ => ⟨hcb, hz⟩⟩
    · split at h
      · next d3 e3 hp =>
        simp only [Option.some.injEq, Prod.mk.injEq] at h
        obtain ⟨rfl, rfl⟩ := h
        obtain ⟨h1, h2, h3⟩ := parseIHDR_frame_of _ _ _ _ hp
        simp only at h1 h2 h3
        exact ⟨by omega, by simp, by omega, fun _ => by omega, fun hle => by omega⟩
      · next d3 hp =>
        obtain ⟨h1, h2, h3⟩ := parseIHDR_frame_of _ _ _ _ hp
        simp only at h1 h2 h3
        split_ifs at h
        · simp only [Option.some.injEq, Prod.mk.injEq] at h
          obtain ⟨rfl, rfl⟩ := h
          exact ⟨by omega, by simp, by omega, fun _ => by omega, fun hle => by omega⟩
        · simp only [Option.some.injEq, Prod.mk.injEq] at h
          obtain ⟨rfl, rfl⟩ := h
          exact ⟨by omega, fun _ => by omega, by omega, fun _ => by omega,
            fun hle => by omega⟩
    · simp only [Option.some.injEq, Prod.mk.injEq] at h
      obtain ⟨rfl, rfl⟩ := h
      exact ⟨by simp only; omega, by simp, by simp only; omega, by simp only; omega,
        fun _ => ⟨hcb, hz⟩⟩
    · simp only [Option.some.injEq] at h
      obtain ⟨h1, h2, h3⟩ := parseIDAT_frame_of _ _ _ _ h
      simp only at h1 h2 h3
      exact ⟨by omega, fun _ => by omega, by omega, fun _ => by omega, fun hle => by omega⟩
    · simp only [Option.some.injEq, Prod.mk.injEq] at h
      obtain ⟨rfl, rfl⟩ := h
      exact ⟨by simp only; omega, by simp, by simp only; omega, by simp only; omega,
        fun _ => ⟨hcb, hz⟩⟩
    · obtain ⟨h1, h2, _⟩ := parseIEND_frame z _ _ _ _ h
      simp only at h1 h2
      exact ⟨by omega, fun _ => by omega, by omega, fun _ => by omega, fun hle => by omega⟩
    · simp only [Option.some.injEq, Prod.mk.injEq] at h
      obtain ⟨rfl, rfl⟩ := h
      exact ⟨by simp only; omega, by simp, by simp only; omega, by simp only; omega,
        fun _ => ⟨hcb, hz⟩⟩
    · split at h
      · next d4 e4 hl =>
        simp only [Option.some.injEq, Prod.mk.injEq] at h
        obtain ⟨rfl, rfl⟩ := h
        obtain ⟨h1, h2, h3, h4⟩ := ignoreLoop_frame_of _ _ _ _ _ hl
        simp only at h1 h2 h3 h4
        exact ⟨by omega, by simp, by omega, fun _ => by omega,
          fun _ => ⟨h2.trans hcb, h3.trans hz⟩⟩
      · next d4 hl =>
        simp only [Option.some.injEq] at h
        obtain ⟨h1, h2, h3, h4⟩ := ignoreLoop_frame_of _ _ _ _ _ hl
        obtain ⟨g1, g2, g3, g4⟩ := verifyChecksum_frame_of _ _ _ _ h
        simp only at h1 h2 h3 h4
        exact ⟨by omega, fun _ => by omega, by omega, fun _ => by omega,
          fun _ => ⟨(g2.trans h2).trans hcb, (g3.trans h3).trans hz⟩⟩

/-! ## The decoder: each handler on a chunk that is fully present -/

theorem parseCgBI_full (d : decoder) (data rest : List Nat) (crc : Nat)
    (hr : d.r = data ++ (putUint32 crc ++ rest)) (hcrc : crc < 4294967296) :
    parseCgBI d data.length =
      if data.length ≠ 4 then (d, some (GoError.FormatError "bad CgBI length"))
      else if chunkDataCgBIValue ≠ beUint32 data then
        ({ d with r := putUint32 crc ++ rest, tmp := data ++ d.tmp.drop 4,
                  crc := crc32Update d.crc data },
          some (GoError.FormatError "bad CgBI data"))
      else if crc ≠ crc32Update d.crc data then
        ({ d with r := rest, tmp := putUint32 crc ++ (data ++ d.tmp.drop 4).drop 4,
                  crc := crc32Update d.crc data },
          some (GoError.FormatError "invalid checksum"))
      else
        ({ d with r := rest, tmp := putUint32 crc ++ (data ++ d.tmp.drop 4).drop 4,
                  crc := crc32Update d.crc data }, none) := by
  unfold parseCgBI
  by_cases h4 : data.length = 4
  · simp only [h4, ne_eq, not_true_eq_false, if_false]
    rw [readTmp_ok d data _ 4 hr h4]
    simp only [take_append_len _ _ 4 h4]
    by_cases hv : chunkDataCgBIValue = beUint32 data
    · simp only [hv, not_true_eq_false, if_false]
      rw [verifyChecksum_ok _ false crc rest rfl hcrc]
      simp only [Bool.not_false, if_true]
    · simp only [hv, not_false_eq_true, if_true]
  · simp only [ne_eq, h4, not_false_eq_true, if_true]

theorem parseIHDR_full (d : decoder) (data rest : List Nat) (crc : Nat)
    (hr : d.r = data ++ (putUint32 crc ++ rest)) (hcrc : crc < 4294967296) :
    parseIHDR d data.length =
      if data.length ≠ 13 then (d, some (GoError.FormatError "bad IHDR length"))
      else if data.getD 12 0 ≠ 0 ∧ data.getD 12 0 ≠ 1 then
        ({ d with r := putUint32 crc ++ rest, buff := d.buff ++ d.tmp.take 8,
                  tmp := data ++ d.tmp.drop 13 },
          some (GoError.FormatError "invalid interlace method"))
      else if crc ≠ crc32Update d.crc data then
        ({ d with r := rest, buff := d.buff ++ d.tmp.take 8 ++ data,
                  tmp := putUint32 crc ++ (data ++ d.tmp.drop 13).drop 4,
                  cb := if data.getD 8 0 = 8 ∧ data.getD 9 0 = 6 then cbTCA8 else d.cb,
                  interlace := ((data.getD 12 0 : Nat) : Int),
                  width := ((beUint32 (data.take 4) : Nat) : Int),
                  height := ((beUint32 ((data.drop 4).take 4) : Nat) : Int),
                  crc := crc32Update d.crc data },
          some (GoError.FormatError "invalid checksum"))
      else
        ({ d with r := rest, buff := d.buff ++ d.tmp.take 8 ++ data ++ putUint32 crc,
                  tmp := putUint32 crc ++ (data ++ d.tmp.drop 13).drop 4,
                  cb := if data.getD 8 0 = 8 ∧ data.getD 9 0 = 6 then cbTCA8 else d.cb,
                  interlace := ((data.getD 12 0 : Nat) : Int),
                  width := ((beUint32 (data.take 4) : Nat) : Int),
                  height := ((beUint32 ((data.drop 4).take 4) : Nat) : Int),
                  crc := crc32Update d.crc data }, none) := by
  unfold parseIHDR
  by_cases h13 : data.length = 13
  · simp only [h13, ne_eq, not_true_eq_false, if_false]
    rw [readTmp_ok { d with buff := d.buff ++ List.take 8 d.tmp } data _ 13 hr h13]
    have g12 : (data ++ List.drop 13 d.tmp).getD 12 0 = data.getD 12 0 := by
      simp only [List.getD_eq_getElem?_getD]
      rw [List.getElem?_append_left (by omega)]
    have g8 : (data ++ List.drop 13 d.tmp).getD 8 0 = data.getD 8 0 := by
      simp only [List.getD_eq_getElem?_getD]
      rw [List.getElem?_append_left (by omega)]
    have g9 : (data ++ List.drop 13 d.tmp).getD 9 0 = data.getD 9 0 := by
      simp only [List.getD_eq_getElem?_getD]
      rw [List.getElem?_append_left (by omega)]
    have t4 : List.take 4 (data ++ List.drop 13 d.tmp) = data.take 4 := by
      rw [List.take_append_of_le_length (by omega)]
    have t44 : List.take 4 (List.drop 4 (data ++ List.drop 13 d.tmp))
        = (data.drop 4).take 4 := by
      rw [List.drop_append_of_le_length (by omega),
        List.take_append_of_le_length (by rw [List.length_drop]; omega)]
    have t13 : List.take 13 (data ++ List.drop 13 d.tmp) = data :=
      take_append_len _ _ 13 h13
    simp only [g12, itNone, itAdam7, ctTrueColorAlpha]
    by_cases hi : data.getD 12 0 ≠ 0 ∧ data.getD 12 0 ≠ 1
    · have hi2 : ((data.getD 12 0 : Nat) : Int) ≠ 0 ∧ ((data.getD 12 0 : Nat) : Int) ≠ 1 := by
        omega
      simp only [hi, hi2, and_self, if_true, ne_eq, not_false_eq_true]
    · have hi2 : ¬ (((data.getD 12 0 : Nat) : Int) ≠ 0 ∧ ((data.getD 12 0 : Nat) : Int) ≠ 1) := by
        omega
      simp only [hi, hi2, if_false]
      by_cases hcb : data.getD 8 0 = 8 ∧ data.getD 9 0 = 6
      · simp only [g8, g9, hcb, and_self, if_true, g12, t4, t44, t13]
        rw [verifyChecksum_ok _ true crc rest rfl hcrc]
        by_cases hc : crc = crc32Update d.crc data
        · simp [hc]
        · simp [hc]
      · simp only [g8, g9, hcb, if_false, g12, t4, t44, t13]
        rw [verifyChecksum_ok _ true crc rest rfl hcrc]
        by_cases hc : crc = crc32Update d.crc data
        · simp [hc]
        · simp [hc]
  · simp only [ne_eq, h13, not_false_eq_true, if_true]

theorem parseIDAT_full (d : decoder) (data rest : List Nat) (crc : Nat)
    (hr : d.r = data ++ (putUint32 crc ++ rest)) (hcrc : crc < 4294967296) :
    parseIDAT d data.length =
      if data.length > 0x7fffffff then
        (d, some (GoError.FormatError ("Bad chunk length: " ++ toString data.length)))
      else if crc ≠ crc32Update d.crc data then
        ({ d with r := rest, tmp := putUint32 crc ++ d.tmp.drop 4,
                  crc := crc32Update d.crc data, zbuff := d.zbuff ++ data },
          some (GoError.FormatError "invalid checksum"))
      else
        ({ d with r := rest, tmp := putUint32 crc ++ d.tmp.drop 4,
                  crc := crc32Update d.crc data, zbuff := d.zbuff ++ data }, none) := by
  unfold parseIDAT
  by_cases hl : data.length > 0x7fffffff
  · simp only [hl, if_true]
  · simp only [hl, if_false]
    rw [idatLoop_ok data.length d data.length data _ hr rfl (Nat.le_refl _)]
    simp only
    rw [verifyChecksum_ok _ false crc rest rfl hcrc]
    simp only [Bool.not_false, if_true]

/-- The end of `parseChunk`, for a chunk of any other type. -/
theorem parseOther_full (d : decoder) (data rest : List Nat) (crc : Nat)
    (hr : d.r = data ++ (putUint32 crc ++ rest)) (hcrc : crc < 4294967296) :
    (match ignoreLoop data.length d data.length with
      | (d4, some err) => some (d4, some err)
      | (d4, none) => some (verifyChecksum d4 true)) =
      if crc ≠ crc32Update d.crc data then
        some ({ d with r := rest, tmp := putUint32 crc ++ d.tmp.drop 4,
                       crc := crc32Update d.crc data, buff := d.buff ++ data },
          some (GoError.FormatError "invalid checksum"))
      else
        some ({ d with r := rest, tmp := putUint32 crc ++ d.tmp.drop 4,
                       crc := crc32Update d.crc data,
                       buff := d.buff ++ data ++ putUint32 crc },
          none) := by
  rw [ignoreLoop_ok data.length d data.length data _ hr rfl (Nat.le_refl _)]
  simp only
  rw [verifyChecksum_ok _ true crc rest rfl hcrc]
  by_cases hc : crc = crc32Update d.crc data
  · simp [hc]
  · simp [hc]

/-- The `IHDR` case of `parseChunk` after the order check. -/
theorem ihdrCase_full (d : decoder) (data rest : List Nat) (crc : Nat)
    (hr : d.r = data ++ (putUint32 crc ++ rest)) (hcrc : crc < 4294967296) :
    (match parseIHDR d data.length with
      | (d3, some err) => some (d3, some err)
      | (d3, none) =>
        if d3.cb ≠ cbTCA8 then some (d3, some (GoError.FormatError "cb must cbTCA8 "))
        else some (d3, none)) =
      if data.length ≠ 13 then some (d, some (GoError.FormatError "bad IHDR length"))
      else if data.getD 12 0 ≠ 0 ∧ data.getD 12 0 ≠ 1 then
        some ({ d with r := putUint32 crc ++ rest, buff := d.buff ++ d.tmp.take 8,
                       tmp := data ++ d.tmp.drop 13 },
          some (GoError.FormatError "invalid interlace method"))
      else if crc ≠ crc32Update d.crc data then
        some ({ ihdrDone d data rest crc with buff := d.buff ++ d.tmp.take 8 ++ data },
          some (GoError.FormatError "invalid checksum"))
      else if (ihdrDone d data rest crc).cb ≠ cbTCA8 then
        some (ihdrDone d data rest crc, some (GoError.FormatError "cb must cbTCA8 "))
      else some (ihdrDone d data rest crc, none) := by
  rw [parseIHDR_full d data rest crc hr hcrc]
  by_cases h1 : data.length ≠ 13
  · rw [if_pos h1, if_pos h1]
  · rw [if_neg h1, if_neg h1]
    by_cases h2 : data.getD 12 0 ≠ 0 ∧ data.getD 12 0 ≠ 1
    · rw [if_pos h2, if_pos h2]
    · rw [if_neg h2, if_neg h2]
      by_cases h3 : crc ≠ crc32Update d.crc data
      · rw [if_pos h3, if_pos h3]
        rfl
      · rw [if_neg h3, if_neg h3]
        rfl

/-! ## The chunk-order state machine -/

theorem parseChunk_stage (z : Zlib) (d : decoder) (c : Chunk) (rest : List Nat)
    (hwf : c.WF) (hr : d.r = c.bytes ++ rest) :
    (nextStage d.stage c.typ = none →
      parseChunk z d = some (hdrState d c rest, some chunkOrderError)) ∧
    (∀ s, nextStage d.stage c.typ = some s → ∀ d1 e, parseChunk z d = some (d1, e) →
      d1.stage = s ∧ e ≠ some chunkOrderError) := by
  have hp := parseChunk_eq z d c rest hwf hr
  unfold nextStage
  by_cases t1 : c.typ = tagCgBI
  · simp only [t1, if_true] at hp ⊢
    by_cases c1 : d.stage ≠ dsStart
    · rw [if_pos c1] at hp ⊢
      exact ⟨fun _ => hp, fun s hs => by simp at hs⟩
    · rw [if_neg c1] at hp ⊢
      refine ⟨fun h => by simp at h, ?_⟩
      intro s hs d1 e h
      rw [hp] at h
      simp only [Option.some.injEq] at hs h
      obtain ⟨h1, -⟩ := parseCgBI_frame_of _ _ _ _ h
      refine ⟨by rw [h1, ← hs], ?_⟩
      cases e with
      | none => simp
      | some e0 =>
        intro hc
        exact parseCgBI_err _ _ _ _ h (Option.some.inj hc)
  · simp only [t1, if_false] at hp ⊢
    by_cases t2 : c.typ = tagIHDR
    · simp only [t2, if_true] at hp ⊢
      by_cases c2 : d.stage ≠ dsSeenCgBI
      · rw [if_pos c2] at hp ⊢
        exact ⟨fun _ => hp, fun s hs => by simp at hs⟩
      · rw [if_neg c2] at hp ⊢
        refine ⟨fun h => by simp at h, ?_⟩
        intro s hs d1 e h
        rw [hp] at h
        simp only [Option.some.injEq] at hs
        split at h
        · next d3 e3 hih =>
          simp only [Option.some.injEq, Prod.mk.injEq] at h
          obtain ⟨rfl, rfl⟩ := h
          obtain ⟨h1, -⟩ := parseIHDR_frame_of _ _ _ _ hih
          refine ⟨by rw [h1, ← hs], ?_⟩
          intro hc
          exact parseIHDR_err _ _ _ _ hih (Option.some.inj hc)
        · next d3 hih =>
          obtain ⟨h1, -⟩ := parseIHDR_frame_of _ _ _ _ hih
          split_ifs at h
          · simp only [Option.some.injEq, Prod.mk.injEq] at h
            obtain ⟨rfl, rfl⟩ := h
            exact ⟨by rw [h1, ← hs], by decide⟩
          · simp only [Option.some.injEq, Prod.mk.injEq] at h
            obtain ⟨rfl, rfl⟩ := h
            exact ⟨by rw [h1, ← hs], by simp⟩
    · simp only [t2, if_false] at hp ⊢
      by_cases t3 : c.typ = tagIDAT
      · simp only [t3, if_true] at hp ⊢
        by_cases c3 : d.stage < dsSeenIHDR ∨ d.stage > dsSeenIDAT
        · simp only [c3, if_true] at hp ⊢
          exact ⟨fun _ => hp, fun s hs => by simp at hs⟩
        · simp only [c3, if_false] at hp ⊢
          refine ⟨fun h => by simp at h, ?_⟩
          intro s hs d1 e h
          rw [hp] at h
          simp only [Option.some.injEq] at hs h
          obtain ⟨h1, -⟩ := parseIDAT_frame_of _ _ _ _ h
          refine ⟨by rw [h1, ← hs], ?_⟩
          cases e with
          | none => simp
          | some e0 =>
            intro hc
            exact parseIDAT_err _ _ _ _ h (Option.some.inj hc)
      · simp only [t3, if_false] at hp ⊢
        by_cases t4 : c.typ = tagIEND
        · simp only [t4, if_true] at hp ⊢
          by_cases c4 : d.stage ≠ dsSeenIDAT
          · rw [if_pos c4] at hp ⊢
            exact ⟨fun _ => hp, fun s hs => by simp at hs⟩
          · rw [if_neg c4] at hp ⊢
            refine ⟨fun h => by simp at h, ?_⟩
            intro s hs d1 e h
            rw [hp] at h
            simp only [Option.some.injEq] at hs
            obtain ⟨h1, -, h3⟩ := parseIEND_frame z _ _ _ _ h
            exact ⟨by rw [h1, ← hs], h3⟩
        · simp only [t4, if_false] at hp ⊢
          refine ⟨fun h => by simp at h, ?_⟩
          intro s hs d1 e h
          rw [hp] at h
          simp only [Option.some.injEq] at hs
          split_ifs at h
          · simp only [Option.some.injEq, Prod.mk.injEq] at h
            obtain ⟨rfl, rfl⟩ := h
            refine ⟨by rw [← hs]; rfl, ?_⟩
            intro hc
            exact badLength_ne_order _ (Option.some.inj hc)
          · split at h
            · next d4 e4 hl =>
              simp only [Option.some.injEq, Prod.mk.injEq] at h
              obtain ⟨rfl, rfl⟩ := h
              obtain ⟨h1, -⟩ := ignoreLoop_frame_of _ _ _ _ _ hl
              obtain ⟨l, rfl⟩ := ignoreLoop_err _ _ _ _ _ hl
              refine ⟨by rw [h1, ← hs]; rfl, ?_⟩
              intro hc
              exact lib_ne_order l (Option.some.inj hc)
            · next d4 hl =>
              simp only [Option.some.injEq] at h
              obtain ⟨h1, -⟩ := ignoreLoop_frame_of _ _ _ _ _ hl
              obtain ⟨g1, -⟩ := verifyChecksum_frame_of _ _ _ _ h
              refine ⟨by rw [g1, h1, ← hs]; rfl, ?_⟩
              cases e with
              | none => simp
              | some e0 =>
                intro hc
                rcases verifyChecksum_err _ _ _ _ h with ⟨l, hl2⟩ | hl2
                · rw [hl2] at hc; exact lib_ne_order l (Option.some.inj hc)
                · rw [hl2] at hc; exact absurd (Option.some.inj hc) (by decide)

theorem tags_distinct :
    tagCgBI ≠ tagIHDR ∧ tagCgBI ≠ tagIDAT ∧ tagCgBI ≠ tagIEND ∧ tagIHDR ≠ tagIDAT ∧
    tagIHDR ≠ tagIEND ∧ tagIDAT ≠ tagIEND := by decide

theorem criticalTypes_append (cs : List Chunk) (c : Chunk) :
    criticalTypes (cs ++ [c]) =
      criticalTypes cs ++ (if isCritical c.typ then [c.typ] else []) := by
  unfold criticalTypes
  rw [List.map_append, List.filter_append]
  congr 1
  by_cases h : isCritical c.typ
  · simp [h]
  · simp [h]

theorem criticalTypes_cons (c : Chunk) (cs : List Chunk) :
    criticalTypes (c :: cs) =
      (if isCritical c.typ then [c.typ] else []) ++ criticalTypes cs := by
  unfold criticalTypes
  by_cases h : isCritical c.typ
  · simp [h]
  · simp [h]

/-- One accepted chunk keeps the relation between the stage and the critical types
seen so far. -/
theorem stageInv_step (s s1 : Nat) (l : List (List Nat)) (t : List Nat)
    (hinv : StageInv s l) (hn : nextStage s t = some s1) :
    StageInv s1 (l ++ (if isCritical t then [t] else [])) := by
  obtain ⟨d1, d2, d3, d4, d5, d6⟩ := tags_distinct
  unfold nextStage at hn
  unfold StageInv at hinv ⊢
  simp only [dsStart, dsSeenCgBI, dsSeenIHDR, dsSeenIDAT, dsSeenIEND] at hinv hn ⊢
  by_cases t1 : t = tagCgBI
  · subst t1
    have hc : isCritical tagCgBI := Or.inl rfl
    simp only [if_true, hc] at hn ⊢
    split_ifs at hn with c1
    simp only [Option.some.injEq] at hn
    subst hn
    have h0 : s = 0 := by omega
    rcases hinv with ⟨_, hl⟩ | ⟨h, _⟩ | ⟨h, _⟩ | ⟨h, _⟩ | ⟨h, _⟩
    · subst hl
      right; left
      exact ⟨rfl, rfl⟩
    all_goals omega
  · simp only [t1, if_false] at hn
    by_cases t2 : t = tagIHDR
    · subst t2
      have hc : isCritical tagIHDR := Or.inr (Or.inl rfl)
      simp only [if_true, hc] at hn ⊢
      split_ifs at hn with c1
      simp only [Option.some.injEq] at hn
      subst hn
      have h0 : s = 1 := by omega
      rcases hinv with ⟨h, _⟩ | ⟨_, hl⟩ | ⟨h, _⟩ | ⟨h, _⟩ | ⟨h, _⟩
      · omega
      · subst hl
        right; right; left
        exact ⟨rfl, rfl⟩
      all_goals omega
    · simp only [t2, if_false] at hn
      by_cases t3 : t = tagIDAT
      · subst t3
        have hc : isCritical tagIDAT := Or.inr (Or.inr (Or.inl rfl))
        simp only [if_true, hc] at hn ⊢
        split_ifs at hn with c1
        simp only [Option.some.injEq] at hn
        subst hn
        rcases hinv with ⟨h, _⟩ | ⟨h, _⟩ | ⟨_, hl⟩ | ⟨_, n, hn1, hl⟩ | ⟨h, _⟩
        · omega
        · omega
        · subst hl
          right; right; right; left
          exact ⟨rfl, 1, Nat.le_refl _, rfl⟩
        · subst hl
          right; right; right; left
          refine ⟨rfl, n + 1, by omega, ?_⟩
          simp only [List.replicate_succ', List.append_assoc, List.cons_append,
            List.nil_append]
        · omega
      · simp only [t3, if_false] at hn
        by_cases t4 : t = tagIEND
        · subst t4
          have hc : isCritical tagIEND := Or.inr (Or.inr (Or.inr rfl))
          simp only [if_true, hc] at hn ⊢
          split_ifs at hn with c1
          simp only [Option.some.injEq] at hn
          subst hn
          have h0 : s = 3 := by omega
          rcases hinv with ⟨h, _⟩ | ⟨h, _⟩ | ⟨h, _⟩ | ⟨_, n, hn1, hl⟩ | ⟨h, _⟩
          · omega
          · omega
          · omega
          · subst hl
            right; right; right; right
            exact ⟨rfl, n, hn1, rfl⟩
          · omega
        · simp only [t4, if_false, Option.some.injEq] at hn
          subst hn
          have hc : ¬ isCritical t := by
            unfold isCritical
            tauto
          simp only [hc, if_false, List.append_nil]
          exact hinv

theorem stageInv_run : ∀ (ts : List Chunk) (s s1 : Nat) (l : List (List Nat)),
    StageInv s l → runStages s (ts.map Chunk.typ) = some s1 →
    StageInv s1 (l ++ criticalTypes ts) := by
  intro ts
  induction ts with
  | nil =>
    intro s s1 l hinv hrun
    simp only [List.map_nil, runStages, Option.some.injEq] at hrun
    subst hrun
    simpa [criticalTypes] using hinv
  | cons c cs ih =>
    intro s s1 l hinv hrun
    simp only [List.map_cons, runStages] at hrun
    split at hrun
    · simp at hrun
    · next s2 hs2 =>
      have h1 := stageInv_step s s2 l c.typ hinv hs2
      have h2 := ih s2 s1 _ h1 hrun
      rw [criticalTypes_cons, ← List.append_assoc]
      exact h2

theorem stageInv_legalStart (s : Nat) (l : List (List Nat)) (h : StageInv s l) :
    LegalStart l := by
  rcases h with ⟨_, hl⟩ | ⟨_, hl⟩ | ⟨_, hl⟩ | ⟨_, n, hn, hl⟩ | ⟨_, n, hn, hl⟩
  · exact ⟨1, 0, Nat.le_refl _, by rw [hl]; rfl⟩
  · exact ⟨1, 1, Nat.le_refl _, by rw [hl]; rfl⟩
  · exact ⟨1, 2, Nat.le_refl _, by rw [hl]; rfl⟩
  · refine ⟨n, n + 2, hn, ?_⟩
    rw [hl, legalOrder, take_append_len _ _ (n + 2) (by simp)]
  · refine ⟨n, n + 3, hn, ?_⟩
    rw [hl]
    exact (List.take_of_length_le (by simp [legalOrder])).symm

theorem runStages_append (ts : List (List Nat)) : ∀ (s : Nat) (t : List Nat),
    runStages s (ts ++ [t]) =
      match runStages s ts with
      | none => none
      | some s1 => nextStage s1 t := by
  induction ts with
  | nil =>
    intro s t
    simp only [List.nil_append, runStages]
    cases nextStage s t <;> rfl
  | cons a ts ih =>
    intro s t
    simp only [List.cons_append, runStages]
    cases nextStage s a with
    | none => rfl
    | some s1 => exact ih s1 t

theorem fed_runStages (z : Zlib) (d d1 : decoder) (cs : List Chunk) (h : Fed z d cs d1) :
    runStages d.stage (cs.map Chunk.typ) = some d1.stage := by
  induction h with
  | nil d => rfl
  | cons d d1 d3 c cs rest r2 e hwf hr hp he _ ih =>
    simp only [List.map_cons, runStages]
    obtain ⟨hnone, hsome⟩ := parseChunk_stage z d c rest hwf hr
    cases hns : nextStage d.stage c.typ with
    | none =>
      have := hnone hns
      rw [this] at hp
      simp only [Option.some.injEq, Prod.mk.injEq] at hp
      exact absurd hp.2.symm he
    | some s =>
      obtain ⟨h1, -⟩ := hsome s hns d1 e hp
      simp only
      rw [← h1]
      exact ih

/-! ## Runs of `parseChunk` and the loop of `decode` -/

theorem parseChunks_general (z : Zlib) : ∀ (k : Nat) (d0 d : decoder),
    parseChunks z k d0 = some (d, none) →
    d0.stage ≤ d.stage ∧ (d0.stage ≤ dsSeenIEND → d.stage ≤ dsSeenIEND) ∧
    d.r.length + 8 * k ≤ d0.r.length ∧
    (d.stage ≤ dsSeenCgBI → d.cb = d0.cb ∧ d.zbuff = d0.zbuff) := by
  intro k
  induction k with
  | zero =>
    intro d0 d h
    simp only [parseChunks, Option.some.injEq, Prod.mk.injEq, and_true] at h
    subst h
    exact ⟨Nat.le_refl _, id, by omega, fun _ => ⟨rfl, rfl⟩⟩
  | succ k ih =>
    intro d0 d h
    simp only [parseChunks] at h
    split at h
    · simp at h
    · simp at h
    · next d1 hp =>
      obtain ⟨g1, g2, g3, g4, g5⟩ := parseChunk_general z d0 d1 none hp
      obtain ⟨i1, i2, i3, i4⟩ := ih d1 d h
      refine ⟨Nat.le_trans g3 i1, fun h4 => i2 (g4 h4), ?_, ?_⟩
      · have := g2 rfl
        omega
      · intro hle
        obtain ⟨j1, j2⟩ := i4 hle
        obtain ⟨j3, j4⟩ := g5 (Nat.le_trans i1 hle)
        exact ⟨j1.trans j3, j2.trans j4⟩

theorem decodeLoop_steps (z : Zlib) : ∀ (k : Nat) (d0 d : decoder) (fuel : Nat),
    parseChunks z k d0 = some (d, none) → d.stage < dsSeenIEND → k ≤ fuel →
    decodeLoop z fuel d0 = decodeLoop z (fuel - k) d := by
  intro k
  induction k with
  | zero =>
    intro d0 d fuel h _ _
    simp only [parseChunks, Option.some.injEq, Prod.mk.injEq, and_true] at h
    subst h
    rfl
  | succ k ih =>
    intro d0 d fuel h hst hk
    simp only [parseChunks] at h
    split at h
    · simp at h
    · simp at h
    · next d1 hp =>
      obtain ⟨i1, -⟩ := parseChunks_general z k d1 d h
      obtain ⟨-, -, g3, -⟩ := parseChunk_general z d0 d1 none hp
      have hne : d0.stage ≠ dsSeenIEND := by omega
      obtain ⟨f, rfl⟩ : ∃ f, fuel = f + 1 := ⟨fuel - 1, by omega⟩
      simp only [decodeLoop, hne, ne_eq, not_false_eq_true, if_true, hp]
      rw [ih d1 d f h hst (by omega)]
      congr 1
      omega

theorem checkHeader_start (input : List Nat) :
    checkHeader (newDecoder (pngHeader ++ input)) = (startDecoder input, none) := by
  unfold checkHeader
  rw [readTmp_ok (newDecoder (pngHeader ++ input)) pngHeader input pngHeader.length rfl rfl]
  have h8 : pngHeader.length = 8 := rfl
  simp only [h8, take_append_len _ _ 8 h8]
  simp only [ne_eq, not_true_eq_false, if_false, newDecoder, startDecoder, List.nil_append,
    dsStart, cbInvalid]
  congr 2

/-- When `decode` has read `k` chunks without error and is not at the end, its result
is that of the rest of its loop. -/
theorem decode_steps (z : Zlib) (input : List Nat) (k : Nat) (d : decoder)
    (hrun : parseChunks z k (startDecoder input) = some (d, none))
    (hst : d.stage ≠ dsSeenIEND) :
    ∃ fuel, decode z (pngHeader ++ input) = decodeLoop z (fuel + 1) d := by
  obtain ⟨-, h2, h3, -⟩ := parseChunks_general z k _ d hrun
  have h4 : d.stage ≤ dsSeenIEND := h2 (Nat.zero_le _)
  have hlt : d.stage < dsSeenIEND := by omega
  have hr : (startDecoder input).r = input := rfl
  rw [hr] at h3
  refine ⟨(pngHeader ++ input).length - k, ?_⟩
  unfold decode
  rw [checkHeader_start]
  simp only
  have hlen : (pngHeader ++ input).length = input.length + 8 := by
    simp [pngHeader]
  rw [decodeLoop_steps z k _ d _ hrun hlt (by omega)]
  congr 1
  omega

/-- An error of `parseChunk` inside the loop of `decode` is what `decode` returns, with
no decoder. -/
theorem decode_error_at (z : Zlib) (input : List Nat) (k : Nat) (d d1 : decoder)
    (e : GoError) (hrun : parseChunks z k (startDecoder input) = some (d, none))
    (hst : d.stage ≠ dsSeenIEND) (hp : parseChunk z d = some (d1, some e)) :
    decode z (pngHeader ++ input) = some (DecodeResult.err (eofToUnexpected e)) := by
  obtain ⟨fuel, hf⟩ := decode_steps z input k d hrun hst
  rw [hf]
  simp only [decodeLoop, hst, ne_eq, not_false_eq_true, if_true, hp]

/-- The fuel of `decodeLoop` is enough as soon as it exceeds the number of unread
bytes: the loop then ends with a result. -/
theorem decodeLoop_total (z : Zlib) : ∀ (fuel : Nat) (d : decoder),
    d.r.length < fuel → decodeLoop z fuel d ≠ none := by
  intro fuel
  induction fuel with
  | zero => intro d h; omega
  | succ fuel ih =>
    intro d h
    simp only [decodeLoop]
    split_ifs with hs
    · split
      · simp
      · simp
      · next d1 hp =>
        obtain ⟨-, g2, -⟩ := parseChunk_general z d d1 none hp
        have := g2 rfl
        exact ih d1 (by omega)
    · simp

theorem checkHeader_r (d : decoder) : (checkHeader d).1.r.length ≤ d.r.length := by
  have hr := (readTmp_r d pngHeader.length).1
  unfold checkHeader
  split
  · next d1 e he => rw [he] at hr; exact hr
  · next d1 he =>
    rw [he] at hr
    split_ifs <;> exact hr

/-- The call `decode` always ends: with a decoder, an error or a panic. -/
theorem decode_total (z : Zlib) (input : List Nat) : decode z input ≠ none := by
  have hr := checkHeader_r (newDecoder input)
  unfold decode
  split
  · simp
  · next d1 he =>
    rw [he] at hr
    apply decodeLoop_total
    have : d1.r.length ≤ input.length := hr
    omega

theorem parseChunk_aligned (z : Zlib) (d d1 : decoder) (c : Chunk) (rest : List Nat)
    (hwf : c.WF) (hr : d.r = c.bytes ++ rest) (hp : parseChunk z d = some (d1, none))
    (hst : d1.stage ≠ dsSeenIEND) : d1.r = rest := by
  have hcrc := hwf.2.2
  rw [parseChunk_eq z d c rest hwf hr] at hp
  split_ifs at hp with t1 c1 t2 c2 t3 c3 t4 c4 t5
  · simp at hp
  · rw [parseCgBI_full _ c.data rest c.crc rfl hcrc] at hp
    split_ifs at hp
    · simp at hp
    · simp at hp
    · simp at hp
    · simp only [Option.some.injEq, Prod.mk.injEq, and_true] at hp
      rw [← hp]
  · simp at hp
  · rw [ihdrCase_full _ c.data rest c.crc rfl hcrc] at hp
    split_ifs at hp
    · simp at hp
    · simp at hp
    · simp at hp
    · simp at hp
    · simp only [Option.some.injEq, Prod.mk.injEq, and_true] at hp
      rw [← hp]
      rfl
  · simp at hp
  · rw [parseIDAT_full _ c.data rest c.crc rfl hcrc] at hp
    split_ifs at hp
    · simp at hp
    · simp at hp
    · simp only [Option.some.injEq, Prod.mk.injEq, and_true] at hp
      rw [← hp]
  · simp at hp
  · obtain ⟨h1, -⟩ := parseIEND_frame z _ _ _ _ hp
    exact absurd h1 hst
  · simp at hp
  · rw [parseOther_full _ c.data rest c.crc rfl hcrc] at hp
    split_ifs at hp
    · simp at hp
    · simp only [Option.some.injEq, Prod.mk.injEq, and_true] at hp
      rw [← hp]

theorem streamOf_cons (c : Chunk) (cs : List Chunk) :
    streamOf (c :: cs) = c.bytes ++ streamOf cs := by
  simp [streamOf]

theorem fed_snoc (z : Zlib) (d0 dk d2 : decoder) (cs : List Chunk) (c : Chunk)
    (rest : List Nat) (e : Option GoError) (hfed : Fed z d0 cs dk) (hwf : c.WF)
    (hr : dk.r = c.bytes ++ rest) (hp : parseChunk z dk = some (d2, e))
    (he : e ≠ some chunkOrderError) : Fed z d0 (cs ++ [c]) d2 := by
  induction hfed with
  | nil d => exact Fed.cons d d2 d2 c [] rest d2.r e hwf hr hp he (Fed.nil _)
  | cons d d1 d3 c1 cs1 rest1 r2 e1 hwf1 hr1 hp1 he1 _ ih =>
    exact Fed.cons d d1 d2 c1 (cs1 ++ [c]) rest1 r2 e1 hwf1 hr1 hp1 he1 (ih hr hp)

/-- A run of `parseChunk` over a stream of chunks that has not reached `IEND` has read
exactly these chunks, each one fully present when its call was made. -/
theorem aligned_run (z : Zlib) : ∀ (cs : List Chunk) (d0 d1 : decoder) (rest : List Nat),
    (∀ x ∈ cs, x.WF) → d0.r = streamOf cs ++ rest → d0.stage ≤ dsSeenIEND →
    parseChunks z cs.length d0 = some (d1, none) → d1.stage ≠ dsSeenIEND →
    d1.r = rest ∧ Fed z d0 cs d1 := by
  intro cs
  induction cs with
  | nil =>
    intro d0 d1 rest _ hr _ hrun _
    simp only [List.length_nil, parseChunks, Option.some.injEq, Prod.mk.injEq, and_true]
      at hrun
    subst hrun
    exact ⟨by simpa [streamOf] using hr, Fed.nil _⟩
  | cons c cs ih =>
    intro d0 d1 rest hwf hr h4 hrun hst
    simp only [List.length_cons, parseChunks] at hrun
    split at hrun
    · simp at hrun
    · simp at hrun
    · next dm hp =>
      have hwfc := hwf c (List.mem_cons_self _ _)
      have hr2 : d0.r = c.bytes ++ (streamOf cs ++ rest) := by
        rw [hr, streamOf_cons, List.append_assoc]
      obtain ⟨g1, g2, -, -⟩ := parseChunks_general z _ dm d1 hrun
      obtain ⟨-, -, -, f4, -⟩ := parseChunk_general z d0 dm none hp
      have hm4 : dm.stage ≤ dsSeenIEND := f4 h4
      have h14 : d1.stage ≤ dsSeenIEND := g2 hm4
      have hmne : dm.stage ≠ dsSeenIEND := by omega
      have hal := parseChunk_aligned z d0 dm c _ hwfc hr2 hp hmne
      obtain ⟨i1, i2⟩ := ih dm d1 rest (fun x hx => hwf x (List.mem_cons_of_mem _ hx))
        hal hm4 hrun hst
      exact ⟨i1, Fed.cons d0 dm d1 c cs _ dm.r none hwfc hr2 hp (by simp) i2⟩

/-! ## Claims about the decoder -/

theorem stageInv_start : StageInv dsStart [] := Or.inl ⟨rfl, rfl⟩

theorem eofToUnexpected_format (msg : String) :
    eofToUnexpected (GoError.FormatError msg) = GoError.FormatError msg := by
  simp [eofToUnexpected]

/-- C7 (as amended). Chunk order in the decode direction. Let the chunks `cs` be fed to
`parseChunk` from a decoder in state `dsStart` without a chunk-order error. (1) If the
state reached is `dsSeenIEND`, the critical types of `cs` are exactly one `CgBI`, one
`IHDR`, one or more `IDAT`, one `IEND`. (2) If a next chunk `c` makes the critical
types stop being the start of that pattern, `parseChunk` returns the chunk-order error
on `c` and changes neither the stage nor the two buffers. (3) When `decode` reads such
a stream, has accepted the chunks before `c` and has not seen `IEND` among them, it
returns the chunk-order error and no decoder. -/
theorem chunk_order_invariant (z : Zlib) (d0 d1 : decoder) (cs : List Chunk)
    (h0 : d0.stage = dsStart) (hfed : Fed z d0 cs d1) :
    (d1.stage = dsSeenIEND → ∃ n, 1 ≤ n ∧ criticalTypes cs = legalOrder n) ∧
    (∀ c rest, c.WF → d1.r = c.bytes ++ rest → ¬ LegalStart (criticalTypes (cs ++ [c])) →
      ∃ d2, parseChunk z d1 = some (d2, some chunkOrderError) ∧ d2.stage = d1.stage ∧
        d2.buff = d1.buff ∧ d2.zbuff = d1.zbuff) ∧
    (∀ c rest dk, (∀ x ∈ cs, x.WF) → c.WF → ¬ LegalStart (criticalTypes (cs ++ [c])) →
      parseChunks z cs.length (startDecoder (streamOf (cs ++ [c]) ++ rest)) = some (dk, none) →
      dk.stage ≠ dsSeenIEND →
      decode z (pngHeader ++ (streamOf (cs ++ [c]) ++ rest)) =
        some (DecodeResult.err chunkOrderError)) := by
  have key : ∀ (e0 e1 : decoder) (c : Chunk) (rest : List Nat), e0.stage = dsStart →
      Fed z e0 cs e1 → c.WF → e1.r = c.bytes ++ rest →
      ¬ LegalStart (criticalTypes (cs ++ [c])) →
      parseChunk z e1 = some (hdrState e1 c rest, some chunkOrderError) := by
    intro e0 e1 c rest he0 hf hwf hr hnot
    have hrun := fed_runStages z e0 e1 cs hf
    rw [he0] at hrun
    have hinv := stageInv_run cs dsStart e1.stage [] stageInv_start hrun
    rw [List.nil_append] at hinv
    obtain ⟨hnone, -⟩ := parseChunk_stage z e1 c rest hwf hr
    apply hnone
    cases hns : nextStage e1.stage c.typ with
    | none => rfl
    | some s =>
      exfalso
      apply hnot
      rw [criticalTypes_append]
      exact stageInv_legalStart s _ (stageInv_step e1.stage s _ c.typ hinv hns)
  refine ⟨?_, ?_, ?_⟩
  · intro h4
    have hrun := fed_runStages z d0 d1 cs hfed
    rw [h0] at hrun
    have hinv := stageInv_run cs dsStart d1.stage [] stageInv_start hrun
    rw [List.nil_append, h4] at hinv
    rcases hinv with ⟨h, _⟩ | ⟨h, _⟩ | ⟨h, _⟩ | ⟨h, _⟩ | ⟨_, n, hn, hl⟩
    · exact absurd h (by decide)
    · exact absurd h (by decide)
    · exact absurd h (by decide)
    · exact absurd h (by decide)
    · exact ⟨n, hn, hl⟩
  · intro c rest hwf hr hnot
    exact ⟨hdrState d1 c rest, key d0 d1 c rest h0 hfed hwf hr hnot, rfl, rfl, rfl⟩
  · intro c rest dk hwfs hwf hnot hrun hst
    have hsplit : streamOf (cs ++ [c]) ++ rest = streamOf cs ++ (c.bytes ++ rest) := by
      simp [streamOf]
    obtain ⟨hr, hf⟩ := aligned_run z cs (startDecoder (streamOf (cs ++ [c]) ++ rest)) dk
      (c.bytes ++ rest) hwfs hsplit (Nat.zero_le _) hrun hst
    have hp := key _ dk c rest rfl hf hwf hr hnot
    have hd := decode_error_at z _ cs.length dk _ chunkOrderError hrun hst hp
    rw [hd]
    rfl

/-- C8 (as amended). In state `dsStart` a chunk of type `IHDR`, `IDAT` or `IEND`, and
in state `dsSeenCgBI` a chunk of type `CgBI`, `IDAT` or `IEND`, is rejected with the
chunk-order error; `CgBI` in `dsStart` and `IHDR` in `dsSeenCgBI` pass the order check
and move the state on; a chunk of any other type is never rejected with the chunk-order
error, in any state, and leaves the state unchanged. -/
theorem order_check_by_type (z : Zlib) (d : decoder) (c : Chunk) (rest : List Nat)
    (hwf : c.WF) (hr : d.r = c.bytes ++ rest) :
    (d.stage = dsStart → (c.typ = tagIHDR ∨ c.typ = tagIDAT ∨ c.typ = tagIEND) →
      parseChunk z d = some (hdrState d c rest, some chunkOrderError)) ∧
    (d.stage = dsSeenCgBI → (c.typ = tagCgBI ∨ c.typ = tagIDAT ∨ c.typ = tagIEND) →
      parseChunk z d = some (hdrState d c rest, some chunkOrderError)) ∧
    (d.stage = dsStart → c.typ = tagCgBI → ∀ d1 e, parseChunk z d = some (d1, e) →
      e ≠ some chunkOrderError ∧ d1.stage = dsSeenCgBI) ∧
    (d.stage = dsSeenCgBI → c.typ = tagIHDR → ∀ d1 e, parseChunk z d = some (d1, e) →
      e ≠ some chunkOrderError ∧ d1.stage = dsSeenIHDR) ∧
    (¬ isCritical c.typ → ∀ d1 e, parseChunk z d = some (d1, e) →
      e ≠ some chunkOrderError ∧ d1.stage = d.stage) := by
  obtain ⟨hnone, hsome⟩ := parseChunk_stage z d c rest hwf hr
  obtain ⟨n1, n2, n3, n4, n5, n6⟩ := tags_distinct
  refine ⟨?_, ?_, ?_, ?_, ?_⟩
  · intro hs ht
    apply hnone
    rw [hs]
    rcases ht with ht | ht | ht <;> rw [ht] <;> decide
  · intro hs ht
    apply hnone
    rw [hs]
    rcases ht with ht | ht | ht <;> rw [ht] <;> decide
  · intro hs ht d1 e hp
    have := hsome dsSeenCgBI (by rw [hs, ht]; decide) d1 e hp
    exact ⟨this.2, this.1⟩
  · intro hs ht d1 e hp
    have := hsome dsSeenIHDR (by rw [hs, ht]; decide) d1 e hp
    exact ⟨this.2, this.1⟩
  · intro hnc d1 e hp
    have hn : nextStage d.stage c.typ = some d.stage := by
      unfold isCritical at hnc
      unfold nextStage
      rw [if_neg (fun h => hnc (Or.inl h)), if_neg (fun h => hnc (Or.inr (Or.inl h))),
        if_neg (fun h => hnc (Or.inr (Or.inr (Or.inl h)))),
        if_neg (fun h => hnc (Or.inr (Or.inr (Or.inr h))))]
    have := hsome d.stage hn d1 e hp
    exact ⟨this.2, this.1⟩

set_option maxRecDepth 100000 in
/-- Witness for C7: the stream `CgBI IHDR IDAT IEND` is fed and reaches `dsSeenIEND`. -/
theorem chunk_order_invariant_witness :
    (startDecoder (streamOf exChunks)).stage = dsStart ∧
    (exAfter exChunks 4).stage = dsSeenIEND ∧
    ∃ n, 1 ≤ n ∧ criticalTypes exChunks = legalOrder n := by
  have hfed3 := (aligned_run storedZlib [exCgBI, exIHDR, exIDAT]
    (startDecoder (streamOf exChunks)) (exAfter exChunks 3) exIEND.bytes (by decide)
    (by decide) (by decide) (by decide) (by decide)).2
  have hfed : Fed storedZlib (startDecoder (streamOf exChunks)) exChunks
      (exAfter exChunks 4) :=
    fed_snoc storedZlib _ (exAfter exChunks 3) (exAfter exChunks 4) [exCgBI, exIHDR, exIDAT]
      exIEND [] none hfed3 (by decide) (by decide) (by decide) (by decide)
  exact ⟨rfl, by decide,
    (chunk_order_invariant storedZlib _ (exAfter exChunks 4) exChunks rfl hfed).1
      (by decide)⟩

theorem not_legalStart_iend_twice :
    ¬ LegalStart [tagCgBI, tagIHDR, tagIDAT, tagIEND, tagIEND] := by
  rintro ⟨n, k, hn, h⟩
  obtain ⟨m, rfl⟩ : ∃ m, n = m + 1 := ⟨n - 1, by omega⟩
  simp only [legalOrder, List.replicate_succ, List.cons_append, List.nil_append] at h
  have hl := congrArg List.length h
  simp only [List.length_cons, List.length_nil, List.length_take] at hl
  obtain ⟨j, rfl⟩ : ∃ j, k = j + 5 := ⟨k - 5, by omega⟩
  simp only [List.take_succ_cons, List.cons.injEq, true_and] at h
  cases m with
  | zero => simp at h
  | succ m =>
    simp only [List.replicate_succ, List.cons_append, List.take_succ_cons,
      List.cons.injEq] at h
    exact absurd h.1 (by decide)

set_option maxRecDepth 100000 in
/-- Counterexample to C7 as stated: in the stream `CgBI IHDR IDAT IEND IEND` the
critical types are not the start of the legal pattern (the second `IEND` is out of
order), yet `decode` returns a decoder: it stops reading at the first `IEND`. -/
theorem chunk_after_iend_decodes :
    ¬ LegalStart (criticalTypes (exChunks ++ [exIEND])) ∧
    ∃ d, decode storedZlib (pngHeader ++ streamOf (exChunks ++ [exIEND])) =
      some (DecodeResult.ok d) := by
  refine ⟨?_, _, rfl⟩
  have e : criticalTypes (exChunks ++ [exIEND]) =
      [tagCgBI, tagIHDR, tagIDAT, tagIEND, tagIEND] := by decide
  rw [e]
  exact not_legalStart_iend_twice

set_option maxRecDepth 100000 in
/-- Witness for C8: an `IHDR` chunk that arrives in state `dsStart` is rejected with the
chunk-order error. -/
theorem order_check_by_type_witness :
    (startDecoder exIHDR.bytes).stage = dsStart ∧
    parseChunk storedZlib (startDecoder exIHDR.bytes) =
      some (hdrState (startDecoder exIHDR.bytes) exIHDR [], some chunkOrderError) :=
  ⟨rfl, (order_check_by_type storedZlib (startDecoder exIHDR.bytes) exIHDR [] (by decide)
    (by decide)).1 rfl (Or.inl rfl)⟩

set_option maxRecDepth 100000 in
/-- Counterexample to C8 as stated: a `tEXt` chunk that arrives in state `dsStart` is
not rejected; `parseChunk` returns no error, stays in `dsStart` and copies the chunk to
the output buffer. -/
theorem text_in_start_accepted :
    (startDecoder exTEXt.bytes).stage = dsStart ∧ exTEXt.typ ≠ tagCgBI ∧
    (parseChunk storedZlib (startDecoder exTEXt.bytes)).map (fun x => (x.1.stage, x.1.buff, x.2))
      = some (dsStart, pngHeader ++ exTEXt.bytes, none) := by
  refine ⟨rfl, by decide, by decide⟩

theorem start_reach_inv (z : Zlib) (input : List Nat) (k : Nat) (d : decoder)
    (hrun : parseChunks z k (startDecoder input) = some (d, none))
    (hst : d.stage ≤ dsSeenCgBI) : d.cb = cbInvalid ∧ d.zbuff = [0x78, 0x1] := by
  obtain ⟨-, -, -, h4⟩ := parseChunks_general z k _ d hrun
  exact h4 hst

/-- C9. Acceptance of `IHDR`: for a fully present `IHDR` chunk that the decoder meets
in state `dsSeenCgBI`, `parseChunk` succeeds exactly when the length is 13, the
interlace byte is 0 or 1, the stored CRC is the CRC-32 of type and payload, the bit
depth is 8 and the colour type is 6. In every other case it returns a `FormatError`,
`decode` returns that error and no decoder, and `zbuff` still holds only the two bytes
it was created with: no `IDAT` payload has been read. -/
theorem ihdr_acceptance (z : Zlib) (input : List Nat) (k : Nat) (d : decoder) (c : Chunk)
    (rest : List Nat) (hrun : parseChunks z k (startDecoder input) = some (d, none))
    (hst : d.stage = dsSeenCgBI) (hwf : c.WF) (htyp : c.typ = tagIHDR)
    (hr : d.r = c.bytes ++ rest) :
    ((∃ d1, parseChunk z d = some (d1, none)) ↔ ihdrAccepted c) ∧
    (¬ ihdrAccepted c → ∃ d1 msg,
      parseChunk z d = some (d1, some (GoError.FormatError msg)) ∧
      d1.zbuff = [0x78, 0x1] ∧ d1.stage = dsSeenIHDR ∧
      decode z (pngHeader ++ input) = some (DecodeResult.err (GoError.FormatError msg))) := by
  obtain ⟨hcb, hz⟩ := start_reach_inv z input k d hrun (by rw [hst])
  have hne : d.stage ≠ dsSeenIEND := by rw [hst]; decide
  have hp := parseChunk_eq z d c rest hwf hr
  have t1 : ¬ c.typ = tagCgBI := by rw [htyp]; decide
  rw [if_neg t1, if_pos htyp, if_neg (by rw [hst]; simp),
    ihdrCase_full _ c.data rest c.crc rfl hwf.2.2] at hp
  have hcrc0 : crc32Update (hdrState d c rest).crc c.data = crc32 (c.typ ++ c.data) :=
    crc32_append c.typ c.data
  have hcbd : (ihdrDone { hdrState d c rest with stage := dsSeenIHDR } c.data rest c.crc).cb
      = if c.data.getD 8 0 = 8 ∧ c.data.getD 9 0 = 6 then cbTCA8 else cbInvalid := by
    simp only [ihdrDone, hdrState, hcb]
  have hfail : ∀ d1 msg, parseChunk z d = some (d1, some (GoError.FormatError msg)) →
      d1.zbuff = [0x78, 0x1] → d1.stage = dsSeenIHDR → ∃ d1 msg,
      parseChunk z d = some (d1, some (GoError.FormatError msg)) ∧
      d1.zbuff = [0x78, 0x1] ∧ d1.stage = dsSeenIHDR ∧
      decode z (pngHeader ++ input) = some (DecodeResult.err (GoError.FormatError msg)) := by
    intro d1 msg h1 h2 h3
    refine ⟨d1, msg, h1, h2, h3, ?_⟩
    rw [decode_error_at z input k d d1 _ hrun hne h1, eofToUnexpected_format]
  unfold ihdrAccepted
  by_cases h13 : c.data.length ≠ 13
  · rw [if_pos h13] at hp
    refine ⟨⟨fun ⟨d1, h⟩ => by rw [hp] at h; simp at h, fun h => absurd h.1 h13⟩, ?_⟩
    intro _
    exact hfail _ _ hp hz rfl
  · rw [if_neg h13] at hp
    by_cases hil : c.data.getD 12 0 ≠ 0 ∧ c.data.getD 12 0 ≠ 1
    · rw [if_pos hil] at hp
      refine ⟨⟨fun ⟨d1, h⟩ => by rw [hp] at h; simp at h, fun h => by omega⟩, ?_⟩
      intro _
      exact hfail _ _ hp hz rfl
    · rw [if_neg hil] at hp
      by_cases hck : c.crc ≠ crc32Update (hdrState d c rest).crc c.data
      · rw [if_pos hck] at hp
        refine ⟨⟨fun ⟨d1, h⟩ => by rw [hp] at h; simp at h,
          fun h => absurd (h.2.2.1.trans hcrc0.symm) hck⟩, ?_⟩
        intro _
        exact hfail _ _ hp hz rfl
      · rw [if_neg hck] at hp
        by_cases hdc : c.data.getD 8 0 = 8 ∧ c.data.getD 9 0 = 6
        · rw [if_neg (by rw [hcbd, if_pos hdc]; simp)] at hp
          refine ⟨⟨fun _ => ⟨by omega, by omega, ?_, hdc.1, hdc.2⟩, fun _ => ⟨_, hp⟩⟩, ?_⟩
          · rw [← hcrc0]
            exact not_not.mp hck
          · intro hn
            exfalso
            apply hn
            refine ⟨by omega, by omega, ?_, hdc.1, hdc.2⟩
            rw [← hcrc0]
            exact not_not.mp hck
        · rw [if_pos (by rw [hcbd, if_neg hdc]; decide)] at hp
          refine ⟨⟨fun ⟨d1, h⟩ => by rw [hp] at h; simp at h,
            fun h => absurd ⟨h.2.2.2.1, h.2.2.2.2⟩ hdc⟩, ?_⟩
          intro _
          exact hfail _ _ hp hz rfl

set_option maxRecDepth 100000 in
/-- Witness for C9: after `CgBI`, the 8-bit RGBA `IHDR` is accepted, and an `IHDR` with
bit depth 16 is rejected with a `FormatError` that `decode` returns. -/
theorem ihdr_acceptance_witness :
    (ihdrAccepted exIHDR ∧ ∃ d1, parseChunk storedZlib (exAfter exChunks 1) = some (d1, none)) ∧
    (¬ ihdrAccepted exIHDR16 ∧ ∃ d1 msg,
      parseChunk storedZlib (exAfter [exCgBI, exIHDR16, exIDAT, exIEND] 1) =
        some (d1, some (GoError.FormatError msg)) ∧
      d1.zbuff = [0x78, 0x1] ∧ d1.stage = dsSeenIHDR ∧
      decode storedZlib (pngHeader ++ streamOf [exCgBI, exIHDR16, exIDAT, exIEND]) =
        some (DecodeResult.err (GoError.FormatError msg))) :=
  ⟨⟨by decide,
    (ihdr_acceptance storedZlib (streamOf exChunks) 1 (exAfter exChunks 1) exIHDR
      (streamOf [exIDAT, exIEND]) (by decide) (by decide) (by decide) (by decide)
      (by decide)).1.2 (by decide)⟩,
   ⟨by decide,
    (ihdr_acceptance storedZlib (streamOf [exCgBI, exIHDR16, exIDAT, exIEND]) 1
      (exAfter [exCgBI, exIHDR16, exIDAT, exIEND] 1) exIHDR16 (streamOf [exIDAT, exIEND])
      (by decide) (by decide) (by decide) (by decide) (by decide)).2 (by decide)⟩⟩

/-- C10. Checksum validation by the reader: for a fully present chunk of type `CgBI`,
`IHDR`, `IDAT` or of a non-critical type that passes the chunk-order, length and
payload checks, `parseChunk` returns `FormatError("invalid checksum")` exactly when the
stored CRC differs from the CRC-32 (IEEE) of the type bytes followed by the payload;
when it does so inside `decode`, `decode` returns that error and no decoder. -/
theorem checksum_validation (z : Zlib) (d : decoder) (c : Chunk) (rest : List Nat)
    (hwf : c.WF) (hr : d.r = c.bytes ++ rest) (hpass : passesChecks d c) :
    ((∃ d1, parseChunk z d = some (d1, some (GoError.FormatError "invalid checksum")))
      ↔ c.crc ≠ crc32 (c.typ ++ c.data)) ∧
    (c.crc ≠ crc32 (c.typ ++ c.data) → ∀ input k,
      parseChunks z k (startDecoder input) = some (d, none) → d.stage ≠ dsSeenIEND →
      decode z (pngHeader ++ input) =
        some (DecodeResult.err (GoError.FormatError "invalid checksum"))) := by
  have hcrc0 : crc32Update (hdrState d c rest).crc c.data = crc32 (c.typ ++ c.data) :=
    crc32_append c.typ c.data
  have hp := parseChunk_eq z d c rest hwf hr
  obtain ⟨n1, n2, n3, n4, n5, n6⟩ := tags_distinct
  have main : (c.crc ≠ crc32 (c.typ ++ c.data) →
        ∃ d1, parseChunk z d = some (d1, some (GoError.FormatError "invalid checksum"))) ∧
      (c.crc = crc32 (c.typ ++ c.data) →
        ¬ ∃ d1, parseChunk z d = some (d1, some (GoError.FormatError "invalid checksum"))) := by
    rcases hpass with ⟨ht, hs, hl, hv⟩ | ⟨ht, hs, hl, hil⟩ | ⟨ht, hs1, hs2, hl⟩ | ⟨hnc, hl⟩
    · rw [if_pos ht, if_neg (by rw [hs]; simp),
        parseCgBI_full _ c.data rest c.crc rfl hwf.2.2, if_neg (by rw [hl]; simp),
        if_neg (by rw [hv]; simp)] at hp
      constructor
      · intro hne
        rw [if_pos (by rw [← hcrc0] at hne; exact hne)] at hp
        exact ⟨_, hp⟩
      · rintro heq ⟨d1, h⟩
        rw [if_neg (by rw [← hcrc0] at heq; simpa using heq)] at hp
        rw [hp] at h
        simp at h
    · rw [if_neg (by rw [ht]; exact n1.symm), if_pos ht, if_neg (by rw [hs]; simp),
        ihdrCase_full _ c.data rest c.crc rfl hwf.2.2, if_neg (by rw [hl]; simp),
        if_neg (by omega)] at hp
      constructor
      · intro hne
        rw [if_pos (by rw [← hcrc0] at hne; exact hne)] at hp
        exact ⟨_, hp⟩
      · rintro heq ⟨d1, h⟩
        rw [if_neg (by rw [← hcrc0] at heq; simpa using heq)] at hp
        rw [hp] at h
        split_ifs at h
        · simp only [Option.some.injEq, Prod.mk.injEq, GoError.FormatError.injEq] at h
          exact absurd h.2 (by decide)
        · simp at h
    · rw [if_neg (by rw [ht]; exact n2.symm), if_neg (by rw [ht]; exact n4.symm), if_pos ht,
        if_neg (by simp only [dsSeenIHDR, dsSeenIDAT] at hs1 hs2 ⊢; omega),
        parseIDAT_full _ c.data rest c.crc rfl hwf.2.2, if_neg (by omega)] at hp
      constructor
      · intro hne
        rw [if_pos (by rw [← hcrc0] at hne; exact hne)] at hp
        exact ⟨_, hp⟩
      · rintro heq ⟨d1, h⟩
        rw [if_neg (by rw [← hcrc0] at heq; simpa using heq)] at hp
        rw [hp] at h
        simp at h
    · unfold isCritical at hnc
      rw [if_neg (fun h => hnc (Or.inl h)), if_neg (fun h => hnc (Or.inr (Or.inl h))),
        if_neg (fun h => hnc (Or.inr (Or.inr (Or.inl h)))),
        if_neg (fun h => hnc (Or.inr (Or.inr (Or.inr h)))), if_neg (by omega),
        parseOther_full _ c.data rest c.crc rfl hwf.2.2] at hp
      constructor
      · intro hne
        rw [if_pos (by rw [← hcrc0] at hne; exact hne)] at hp
        exact ⟨_, hp⟩
      · rintro heq ⟨d1, h⟩
        rw [if_neg (by rw [← hcrc0] at heq; simpa using heq)] at hp
        rw [hp] at h
        simp at h
  refine ⟨⟨fun hex => ?_, main.1⟩, ?_⟩
  · intro heq
    exact main.2 heq hex
  · intro hne input k hrun hst
    obtain ⟨d1, h1⟩ := main.1 hne
    rw [decode_error_at z input k d d1 _ hrun hst h1, eofToUnexpected_format]

set_option maxRecDepth 100000 in
/-- Witness for C10: a `tEXt` chunk whose stored CRC is wrong is answered with
`FormatError("invalid checksum")`, which `decode` returns. -/
theorem checksum_validation_witness :
    exTEXtBad.crc ≠ crc32 (exTEXtBad.typ ++ exTEXtBad.data) ∧
    (∃ d1, parseChunk storedZlib (startDecoder exTEXtBad.bytes) =
      some (d1, some (GoError.FormatError "invalid checksum"))) ∧
    decode storedZlib (pngHeader ++ exTEXtBad.bytes) =
      some (DecodeResult.err (GoError.FormatError "invalid checksum")) :=
  ⟨by decide,
   (checksum_validation storedZlib (startDecoder exTEXtBad.bytes) exTEXtBad [] (by decide)
     (by decide) (by decide)).1.2 (by decide),
   (checksum_validation storedZlib (startDecoder exTEXtBad.bytes) exTEXtBad [] (by decide)
     (by decide) (by decide)).2 (by decide) exTEXtBad.bytes 0 rfl (by decide)⟩

/-! ## The decoder on whole streams -/

theorem parseChunk_step (z : Zlib) (d d1 : decoder) (c : Chunk) (rest : List Nat)
    (hwf : c.WF) (hr : d.r = c.bytes ++ rest) (hp : parseChunk z d = some (d1, none))
    (hne : c.typ ≠ tagIEND) :
    d1.r = rest ∧
    d1.buff = d.buff ++ (if c.typ = tagCgBI ∨ c.typ = tagIDAT then [] else c.bytes) ∧
    d1.zbuff = d.zbuff ++ (if c.typ = tagIDAT then c.data else []) ∧
    c.crc = crc32 (c.typ ++ c.data) ∧
    d.stage ≤ d1.stage ∧
    (c.typ = tagIHDR → d.stage = dsSeenCgBI ∧ d1.stage = dsSeenIHDR ∧ GeomOf d1 c) ∧
    (c.typ ≠ tagIHDR →
      d1.width = d.width ∧ d1.height = d.height ∧ d1.interlace = d.interlace) ∧
    (d.stage ≠ dsSeenIEND → d1.stage ≠ dsSeenIEND) ∧
    (c.typ ≠ tagIHDR → d.stage < dsSeenIHDR → d1.stage < dsSeenIHDR) := by
  have hcrc := hwf.2.2
  have hcrc0 : crc32Update (crc32Update 0 c.typ) c.data = crc32 (c.typ ++ c.data) :=
    crc32_append c.typ c.data
  obtain ⟨n1, n2, n3, n4, n5, n6⟩ := tags_distinct
  rw [parseChunk_eq z d c rest hwf hr] at hp
  split_ifs at hp with t1 c1 t2 c2 t3 c3 t4
  · simp at hp
  · rw [parseCgBI_full _ c.data rest c.crc rfl hcrc] at hp
    split_ifs at hp with a1 a2 a3
    · simp at hp
    · simp at hp
    · simp at hp
    · simp only [Option.some.injEq, Prod.mk.injEq, and_true] at hp
      subst hp
      simp only [hdrState, hcrc0, ne_eq, not_not] at a3
      have hs : d.stage = dsStart := by simpa using c1
      refine ⟨rfl, by simp [t1, hdrState], by simp [t1, n2, hdrState], a3,
        by simp [hs, hdrState, dsStart], fun h => absurd (t1.symm.trans h) n1,
        fun _ => ⟨rfl, rfl, rfl⟩, fun _ => (by decide : dsSeenCgBI ≠ dsSeenIEND),
        fun _ _ => (by decide : dsSeenCgBI < dsSeenIHDR)⟩
  · simp at hp
  · rw [ihdrCase_full _ c.data rest c.crc rfl hcrc] at hp
    split_ifs at hp with a1 a2 a3 a4
    · simp at hp
    · simp at hp
    · simp at hp
    · simp at hp
    · simp only [Option.some.injEq, Prod.mk.injEq, and_true] at hp
      subst hp
      simp only [hdrState, hcrc0, ne_eq, not_not] at a3
      have hs : d.stage = dsSeenCgBI := by simpa using c2
      have h8 : (putUint32 c.data.length ++ c.typ).length = 8 := by
        simp [putUint32_length, hwf.1]
      have e0 : ¬ c.typ = tagIDAT := by rw [t2]; exact n4
      refine ⟨rfl, ?_, by simp [e0, ihdrDone, hdrState], a3,
        by simp [hs, ihdrDone, hdrState, dsSeenCgBI, dsSeenIHDR],
        fun _ => ⟨hs, rfl, rfl, rfl, rfl⟩, fun h => absurd t2 h,
        fun _ => (by decide : dsSeenIHDR ≠ dsSeenIEND), fun h => absurd t2 h⟩
      have e1 : ¬ (c.typ = tagCgBI ∨ c.typ = tagIDAT) := fun h => h.elim t1 e0
      rw [if_neg e1]
      have h9 : List.take 8 (putUint32 c.data.length ++ (c.typ ++ List.drop 8 d.tmp))
          = putUint32 c.data.length ++ c.typ := by
        rw [← List.append_assoc]
        exact take_append_len _ _ 8 h8
      simp only [ihdrDone, hdrState, Chunk.bytes, List.append_assoc, h9]
  · simp at hp
  · rw [parseIDAT_full _ c.data rest c.crc rfl hcrc] at hp
    split_ifs at hp with a1 a2
    · simp at hp
    · simp at hp
    · simp only [Option.some.injEq, Prod.mk.injEq, and_true] at hp
      subst hp
      simp only [hdrState, hcrc0, ne_eq, not_not] at a2
      have hs : d.stage ≤ dsSeenIDAT := by
        simp only [not_or, not_lt] at c3
        exact c3.2
      refine ⟨rfl, by simp [t3, hdrState], by simp [t3, hdrState], a2,
        by simpa [hdrState] using hs, fun h => absurd h t2, fun _ => ⟨rfl, rfl, rfl⟩,
        fun _ => (by decide : dsSeenIDAT ≠ dsSeenIEND), fun _ h => ?_⟩
      simp only [not_or, not_lt] at c3
      exact absurd h (by omega)
  · simp at hp
  · rw [parseOther_full _ c.data rest c.crc rfl hcrc] at hp
    split_ifs at hp with a1
    · simp at hp
    · simp only [Option.some.injEq, Prod.mk.injEq, and_true] at hp
      subst hp
      simp only [hdrState, hcrc0, ne_eq, not_not] at a1
      refine ⟨rfl, ?_, by simp [t3, hdrState], a1, Nat.le_refl _,
        fun h => absurd h t2, fun _ => ⟨rfl, rfl, rfl⟩, fun h => h, fun _ h => h⟩
      have e1 : ¬ (c.typ = tagCgBI ∨ c.typ = tagIDAT) := fun h => h.elim t1 t3
      rw [if_neg e1]
      simp only [hdrState, Chunk.bytes, List.append_assoc]

theorem keptChunks_cons (c : Chunk) (cs : List Chunk) :
    streamOf (keptChunks (c :: cs)) =
      (if c.typ = tagCgBI ∨ c.typ = tagIDAT then [] else c.bytes) ++
        streamOf (keptChunks cs) := by
  unfold keptChunks
  by_cases h : c.typ = tagCgBI ∨ c.typ = tagIDAT
  · have h1 : decide (c.typ ≠ tagCgBI ∧ c.typ ≠ tagIDAT) = false := by
      simp only [ne_eq, decide_eq_false_iff_not, not_and_or, not_not]
      exact h
    rw [List.filter_cons_of_neg (by simp [h1]), if_pos h, List.nil_append]
  · have h1 : decide (c.typ ≠ tagCgBI ∧ c.typ ≠ tagIDAT) = true := by
      simp only [ne_eq, decide_eq_true_eq]
      exact not_or.mp h
    rw [List.filter_cons_of_pos (by simpa using h1), if_neg h, streamOf_cons]

theorem idatPayload_cons (c : Chunk) (cs : List Chunk) :
    idatPayload (c :: cs) = (if c.typ = tagIDAT then c.data else []) ++ idatPayload cs := by
  unfold idatPayload
  by_cases h : c.typ = tagIDAT
  · rw [List.filter_cons_of_pos (by simp [h]), if_pos h, List.flatMap_cons]
  · rw [List.filter_cons_of_neg (by simp [h]), if_neg h, List.nil_append]

/-- What a run of `parseChunk` over chunks before `IEND` leaves in the decoder. -/
theorem run_summary (z : Zlib) : ∀ (cs : List Chunk) (d0 d1 : decoder) (rest : List Nat),
    (∀ x ∈ cs, x.WF) → (∀ x ∈ cs, x.typ ≠ tagIEND) → d0.r = streamOf cs ++ rest →
    parseChunks z cs.length d0 = some (d1, none) →
    d1.r = rest ∧ d1.buff = d0.buff ++ streamOf (keptChunks cs) ∧
    d1.zbuff = d0.zbuff ++ idatPayload cs ∧
    (∀ x ∈ cs, x.crc = crc32 (x.typ ++ x.data)) ∧ d0.stage ≤ d1.stage ∧
    (dsSeenIHDR ≤ d0.stage → (∀ x ∈ cs, x.typ ≠ tagIHDR) ∧
      d1.width = d0.width ∧ d1.height = d0.height ∧ d1.interlace = d0.interlace) ∧
    (∀ x ∈ cs, x.typ = tagIHDR → GeomOf d1 x) ∧
    (d0.stage ≠ dsSeenIEND → d1.stage ≠ dsSeenIEND) ∧
    (d0.stage < dsSeenIHDR → dsSeenIHDR ≤ d1.stage → ∃ x ∈ cs, x.typ = tagIHDR) := by
  intro cs
  induction cs with
  | nil =>
    intro d0 d1 rest _ _ hr hrun
    simp only [List.length_nil, parseChunks, Option.some.injEq, Prod.mk.injEq, and_true]
      at hrun
    subst hrun
    refine ⟨by simpa [streamOf] using hr, by simp [keptChunks, streamOf],
      by simp [idatPayload], by simp, Nat.le_refl _, fun _ => ⟨by simp, rfl, rfl, rfl⟩,
      by simp, fun h => h, fun h1 h2 => absurd h1 (by omega)⟩
  | cons c cs ih =>
    intro d0 d1 rest hwf hne hr hrun
    simp only [List.length_cons, parseChunks] at hrun
    split at hrun
    · simp at hrun
    · simp at hrun
    · next dm hp =>
      have hwfc := hwf c (List.mem_cons_self _ _)
      have hnec := hne c (List.mem_cons_self _ _)
      have hr2 : d0.r = c.bytes ++ (streamOf cs ++ rest) := by
        rw [hr, streamOf_cons, List.append_assoc]
      obtain ⟨s1, s2, s3, s4, s5, s6, s7, s8, s9⟩ :=
        parseChunk_step z d0 dm c _ hwfc hr2 hp hnec
      obtain ⟨i1, i2, i3, i4, i5, i6, i7, i8, i9⟩ :=
        ih dm d1 rest (fun x hx => hwf x (List.mem_cons_of_mem _ hx))
          (fun x hx => hne x (List.mem_cons_of_mem _ hx)) s1 hrun
      refine ⟨i1, ?_, ?_, ?_, Nat.le_trans s5 i5, ?_, ?_, fun h => i8 (s8 h), ?_⟩
      · rw [i2, s2, keptChunks_cons, List.append_assoc]
      · rw [i3, s3, idatPayload_cons, List.append_assoc]
      · intro x hx
        rcases List.mem_cons.mp hx with rfl | hx
        · exact s4
        · exact i4 x hx
      · intro h2
        have hc : c.typ ≠ tagIHDR := by
          intro h
          have := (s6 h).1
          simp only [dsSeenIHDR, dsSeenCgBI] at h2 this
          omega
        obtain ⟨j1, j2, j3, j4⟩ := i6 (Nat.le_trans h2 s5)
        obtain ⟨k1, k2, k3⟩ := s7 hc
        refine ⟨?_, j2.trans k1, j3.trans k2, j4.trans k3⟩
        intro x hx
        rcases List.mem_cons.mp hx with rfl | hx
        · exact hc
        · exact j1 x hx
      · intro x hx hx2
        rcases List.mem_cons.mp hx with rfl | hx
        · obtain ⟨-, k2, k3, k4, k5⟩ := s6 hx2
          obtain ⟨-, j2, j3, j4⟩ := i6 (by rw [k2])
          exact ⟨j2.trans k3, j3.trans k4, j4.trans k5⟩
        · exact i7 x hx hx2
      · intro h1 h2
        by_cases hc : c.typ = tagIHDR
        · exact ⟨c, List.mem_cons_self _ _, hc⟩
        · have hm : dm.stage < dsSeenIHDR := s9 hc h1
          obtain ⟨x, hx, hx2⟩ := i9 hm h2
          exact ⟨x, List.mem_cons_of_mem _ hx, hx2⟩

theorem decodeLoop_ok_inv (z : Zlib) (fuel : Nat) (d dfin : decoder)
    (h : decodeLoop z fuel d = some (DecodeResult.ok dfin)) :
    (d.stage = dsSeenIEND → dfin = d) ∧
    (d.stage ≠ dsSeenIEND → ∃ d1 fuel1, parseChunk z d = some (d1, none) ∧
      decodeLoop z fuel1 d1 = some (DecodeResult.ok dfin)) := by
  cases fuel with
  | zero => simp [decodeLoop] at h
  | succ fuel =>
    simp only [decodeLoop] at h
    split_ifs at h with hs
    · refine ⟨fun h1 => absurd h1 hs, fun _ => ?_⟩
      split at h
      · simp at h
      · simp at h
      · next d1 hp => exact ⟨d1, fuel, hp, h⟩
    · refine ⟨fun _ => ?_, fun h1 => absurd (not_not.mp hs) h1⟩
      simp only [Option.some.injEq, DecodeResult.ok.injEq] at h
      exact h.symm

/-- A `decode` loop that ends with a decoder has taken every chunk before `IEND`
without error. -/
theorem decodeLoop_ok_run (z : Zlib) : ∀ (cs : List Chunk) (d0 dfin : decoder)
    (rest : List Nat) (fuel : Nat),
    (∀ x ∈ cs, x.WF) → (∀ x ∈ cs, x.typ ≠ tagIEND) → d0.r = streamOf cs ++ rest →
    d0.stage ≠ dsSeenIEND → decodeLoop z fuel d0 = some (DecodeResult.ok dfin) →
    ∃ dk fuel1, parseChunks z cs.length d0 = some (dk, none) ∧
      decodeLoop z fuel1 dk = some (DecodeResult.ok dfin) := by
  intro cs
  induction cs with
  | nil =>
    intro d0 dfin rest fuel _ _ _ _ h
    exact ⟨d0, fuel, rfl, h⟩
  | cons c cs ih =>
    intro d0 dfin rest fuel hwf hne hr hst h
    obtain ⟨d1, fuel1, hp, h1⟩ := (decodeLoop_ok_inv z fuel d0 dfin h).2 hst
    have hwfc := hwf c (List.mem_cons_self _ _)
    have hnec := hne c (List.mem_cons_self _ _)
    have hr2 : d0.r = c.bytes ++ (streamOf cs ++ rest) := by
      rw [hr, streamOf_cons, List.append_assoc]
    obtain ⟨s1, -, -, -, -, -, -, s8, -⟩ := parseChunk_step z d0 d1 c _ hwfc hr2 hp hnec
    obtain ⟨dk, fuel2, hrun, h2⟩ := ih d1 dfin rest fuel1
      (fun x hx => hwf x (List.mem_cons_of_mem _ hx))
      (fun x hx => hne x (List.mem_cons_of_mem _ hx)) s1 (s8 hst) h1
    refine ⟨dk, fuel2, ?_, h2⟩
    simp only [List.length_cons, parseChunks, hp]
    exact hrun

theorem decode_ok_run (z : Zlib) (cs : List Chunk) (rest : List Nat) (dfin : decoder)
    (hwf : ∀ x ∈ cs, x.WF) (hne : ∀ x ∈ cs, x.typ ≠ tagIEND)
    (h : decode z (pngHeader ++ (streamOf cs ++ rest)) = some (DecodeResult.ok dfin)) :
    ∃ dk fuel1, parseChunks z cs.length (startDecoder (streamOf cs ++ rest)) = some (dk, none) ∧
      decodeLoop z fuel1 dk = some (DecodeResult.ok dfin) := by
  unfold decode at h
  rw [checkHeader_start] at h
  exact decodeLoop_ok_run z cs _ dfin rest _ hwf hne rfl
    (by decide : dsStart ≠ dsSeenIEND) h

/-- The call `parseIEND` when the inflater reports the checksum mismatch and the
channel fixer succeeds. -/
theorem parseIEND_checksum (z : Zlib) (d : decoder) (D D1 rest : List Nat) (crc : Nat)
    (hnr : z.newReader (d.zbuff ++ [0, 0, 0, 0]) = none)
    (hra : z.readAll (d.zbuff ++ [0, 0, 0, 0]) = (D, some LibError.ErrChecksum))
    (hfix : rawImageFix d.width d.height d.interlace D = some (D1, none))
    (hr : d.r = putUint32 crc ++ rest) (hcrc : crc < 4294967296) :
    parseIEND z d 0 =
      if crc ≠ d.crc then
        some ({ d with
                r := rest, tmp := putUint32 crc ++ d.tmp.drop 4, zbuff := z.compress D1,
                buff := d.buff ++ (makeChunk [] tagIDAT (z.compress D1)).1 ++ d.tmp.take 8 },
          some (GoError.FormatError "invalid checksum"))
      else
        some ({ d with
                r := rest, tmp := putUint32 crc ++ d.tmp.drop 4, zbuff := z.compress D1,
                buff := d.buff ++ (makeChunk [] tagIDAT (z.compress D1)).1 ++ d.tmp.take 8
                  ++ putUint32 crc },
          none) := by
  unfold parseIEND
  simp only [ne_eq, not_true_eq_false, if_false, hnr, hra, hfix, makeChunk_eq,
    List.nil_append]
  have key : ∀ d2 : decoder, d2.r = putUint32 crc ++ rest → verifyChecksum d2 true = _ :=
    fun d2 h => verifyChecksum_ok d2 true crc rest h hcrc
  rw [key _ (by exact hr)]
  by_cases hc : crc = d.crc
  · simp [hc]
  · simp [hc]

/-- A chunk that passes the checks of `parseChunk` and carries the right CRC is taken
without error. -/
theorem parseChunk_accept (z : Zlib) (d : decoder) (c : Chunk) (rest : List Nat)
    (hwf : c.WF) (hr : d.r = c.bytes ++ rest) (hpass : passesChecks d c)
    (hcrc : c.crc = crc32 (c.typ ++ c.data))
    (hcb : c.typ = tagIHDR → c.data.getD 8 0 = 8 ∧ c.data.getD 9 0 = 6) :
    ∃ d1, parseChunk z d = some (d1, none) := by
  have hcrc0 : crc32Update (hdrState d c rest).crc c.data = crc32 (c.typ ++ c.data) :=
    crc32_append c.typ c.data
  have hp := parseChunk_eq z d c rest hwf hr
  obtain ⟨n1, n2, n3, n4, n5, n6⟩ := tags_distinct
  rcases hpass with ⟨ht, hs, hl, hv⟩ | ⟨ht, hs, hl, hil⟩ | ⟨ht, hs1, hs2, hl⟩ | ⟨hnc, hl⟩
  · rw [if_pos ht, if_neg (by rw [hs]; simp),
      parseCgBI_full _ c.data rest c.crc rfl hwf.2.2, if_neg (by rw [hl]; simp),
      if_neg (by rw [hv]; simp), if_neg (by rw [← hcrc0] at hcrc; simpa using hcrc)] at hp
    exact ⟨_, hp⟩
  · obtain ⟨h8, h6⟩ := hcb ht
    rw [if_neg (by rw [ht]; exact n1.symm), if_pos ht, if_neg (by rw [hs]; simp),
      ihdrCase_full _ c.data rest c.crc rfl hwf.2.2, if_neg (by rw [hl]; simp),
      if_neg (by omega), if_neg (by rw [← hcrc0] at hcrc; simpa using hcrc),
      if_neg (not_not.mpr (by
        show (if c.data.getD 8 0 = 8 ∧ c.data.getD 9 0 = 6 then cbTCA8 else _) = cbTCA8
        rw [if_pos ⟨h8, h6⟩]))] at hp
    exact ⟨_, hp⟩
  · rw [if_neg (by rw [ht]; exact n2.symm), if_neg (by rw [ht]; exact n4.symm), if_pos ht,
      if_neg (by simp only [dsSeenIHDR, dsSeenIDAT] at hs1 hs2 ⊢; omega),
      parseIDAT_full _ c.data rest c.crc rfl hwf.2.2, if_neg (by omega),
      if_neg (by rw [← hcrc0] at hcrc; simpa using hcrc)] at hp
    exact ⟨_, hp⟩
  · unfold isCritical at hnc
    simp only [not_or] at hnc
    rw [if_neg hnc.1, if_neg hnc.2.1, if_neg hnc.2.2.1, if_neg hnc.2.2.2, if_neg (by omega),
      parseOther_full _ c.data rest c.crc rfl hwf.2.2,
      if_neg (by rw [← hcrc0] at hcrc; simpa [hdrState] using hcrc)] at hp
    exact ⟨_, hp⟩

theorem nextStage_of_success (z : Zlib) (d d1 : decoder) (c : Chunk) (rest : List Nat)
    (hwf : c.WF) (hr : d.r = c.bytes ++ rest) (hp : parseChunk z d = some (d1, none)) :
    nextStage d.stage c.typ = some d1.stage := by
  obtain ⟨hnone, hsome⟩ := parseChunk_stage z d c rest hwf hr
  cases hns : nextStage d.stage c.typ with
  | none =>
    rw [hnone hns] at hp
    simp at hp
  | some s => rw [(hsome s hns d1 none hp).1]

/-- The last round of the loop of `decode`. -/
theorem decode_finish (z : Zlib) (input : List Nat) (k : Nat) (d d1 : decoder)
    (hrun : parseChunks z k (startDecoder input) = some (d, none))
    (hst : d.stage ≠ dsSeenIEND) (hp : parseChunk z d = some (d1, none))
    (h1 : d1.stage = dsSeenIEND) :
    decode z (pngHeader ++ input) = some (DecodeResult.ok d1) := by
  obtain ⟨fuel, hf⟩ := decode_steps z input k d hrun hst
  have ht := decode_total z (pngHeader ++ input)
  rw [hf] at ht ⊢
  simp only [decodeLoop, hst, ne_eq, not_false_eq_true, if_true, hp] at ht ⊢
  cases fuel with
  | zero => simp [decodeLoop] at ht
  | succ fuel => simp [decodeLoop, h1]

/-- The `IEND` case of `parseChunk` when the inflater reports no error: the call
returns without error, and neither the buffer nor the reader has changed since the
chunk header was read. -/
theorem parseIEND_no_error (z : Zlib) (d : decoder) (D : List Nat)
    (hnr : z.newReader (d.zbuff ++ [0, 0, 0, 0]) = none)
    (hra : z.readAll (d.zbuff ++ [0, 0, 0, 0]) = (D, none)) :
    parseIEND z d 0 = some ({ d with zbuff := d.zbuff ++ [0, 0, 0, 0] }, none) := by
  unfold parseIEND
  simp [hnr, hra]

theorem parseChunks_cons_ok (z : Zlib) (d d1 d2 : decoder) (k : Nat)
    (hp : parseChunk z d = some (d1, none)) (h : parseChunks z k d1 = some (d2, none)) :
    parseChunks z (k + 1) d = some (d2, none) := by
  simp only [parseChunks, hp, h]

theorem mk0_crc (typ data : List Nat) :
    (Chunk.mk0 typ data).crc = crc32 ((Chunk.mk0 typ data).typ ++ (Chunk.mk0 typ data).data) :=
  rfl

theorem mk0_WF (typ data : List Nat) (ht : typ.length = 4) (hl : data.length < 4294967296) :
    (Chunk.mk0 typ data).WF := ⟨ht, hl, crc32_lt _⟩


theorem streamOf_append (a b : List Chunk) : streamOf (a ++ b) = streamOf a ++ streamOf b := by
  simp [streamOf]

theorem streamOf_single (c : Chunk) : streamOf [c] = c.bytes := by
  simp [streamOf]

theorem take8_hdr (n : Nat) (typ x : List Nat) (ht : typ.length = 4) :
    List.take 8 (putUint32 n ++ (typ ++ x)) = putUint32 n ++ typ := by
  rw [← List.append_assoc]
  exact take_append_len _ _ 8 (by simp [putUint32_length, ht])

/-- A successful `parseIEND` on which the inflater has reported the checksum mismatch
has had length zero, no error from `zlib.NewReader` and a channel fixer that
succeeded. -/
theorem parseIEND_ok_inv (z : Zlib) (d d1 : decoder) (D : List Nat) (len : Nat)
    (h : parseIEND z d len = some (d1, none))
    (hra : z.readAll (d.zbuff ++ [0, 0, 0, 0]) = (D, some LibError.ErrChecksum)) :
    len = 0 ∧ z.newReader (d.zbuff ++ [0, 0, 0, 0]) = none ∧
    ∃ D1, rawImageFix d.width d.height d.interlace D = some (D1, none) := by
  unfold parseIEND at h
  by_cases hl : len = 0
  · refine ⟨hl, ?_⟩
    simp only [hl, ne_eq, not_true_eq_false, if_false] at h
    cases hnr : z.newReader (d.zbuff ++ [0, 0, 0, 0]) with
    | some e => simp [hnr] at h
    | none =>
      refine ⟨rfl, ?_⟩
      simp only [hnr, hra, not_true_eq_false, if_false] at h
      cases hfix : rawImageFix d.width d.height d.interlace D with
      | none => simp [hfix] at h
      | some res =>
        obtain ⟨D1, e⟩ := res
        cases e with
        | none => exact ⟨D1, rfl⟩
        | some e1 => simp [hfix] at h
  · simp [hl] at h

/-- The `IEND` chunk with an empty payload is the twelve bytes length 0, tag, CRC. -/
theorem iend_bytes (c : Chunk) (hd : c.data = []) :
    c.bytes = putUint32 0 ++ c.typ ++ putUint32 c.crc := by
  simp [Chunk.bytes, hd]

/-- The `IEND` step of a successful `decode` on which the inflater reports the
checksum mismatch. -/
theorem iend_step (z : Zlib) (d d1 : decoder) (c : Chunk) (rest D : List Nat)
    (hwf : c.WF) (ht : c.typ = tagIEND) (hr : d.r = c.bytes ++ rest)
    (hp : parseChunk z d = some (d1, none))
    (hra : z.readAll (d.zbuff ++ [0, 0, 0, 0]) = (D, some LibError.ErrChecksum)) :
    d.stage = dsSeenIDAT ∧ c.data = [] ∧ c.crc = crc32 (c.typ ++ c.data) ∧
    z.newReader (d.zbuff ++ [0, 0, 0, 0]) = none ∧
    ∃ D1, rawImageFix d.width d.height d.interlace D = some (D1, none) ∧
      d1.buff = d.buff ++ (makeChunk [] tagIDAT (z.compress D1)).1 ++ c.bytes ∧
      d1.zbuff = z.compress D1 ∧ d1.r = rest ∧ d1.stage = dsSeenIEND := by
  obtain ⟨n1, n2, n3, n4, n5, n6⟩ := tags_distinct
  have hq := parseChunk_eq z d c rest hwf hr
  rw [if_neg (by rw [ht]; exact n3.symm), if_neg (by rw [ht]; exact n5.symm),
    if_neg (by rw [ht]; exact n6.symm), if_pos ht] at hq
  by_cases hs : d.stage = dsSeenIDAT
  · rw [if_neg (not_not.mpr hs)] at hq
    rw [hq] at hp
    obtain ⟨hl, hnr, D1, hfix⟩ := parseIEND_ok_inv z _ d1 D _ hp hra
    have hd : c.data = [] := List.length_eq_zero.mp hl
    have hr2 : (hdrState d c rest).r = putUint32 c.crc ++ rest := by
      simp [hdrState, hd]
    rw [hl, parseIEND_checksum z _ D D1 rest c.crc hnr hra hfix hr2 hwf.2.2] at hp
    have h8 : (putUint32 c.data.length ++ c.typ).length = 8 := by
      simp [putUint32_length, hwf.1]
    have hcrc0 : crc32Update 0 c.typ = crc32 (c.typ ++ c.data) := by
      rw [hd, List.append_nil]
      rfl
    split_ifs at hp with hc
    · simp at hp
    · simp only [Option.some.injEq, Prod.mk.injEq, and_true] at hp
      subst hp
      simp only [hdrState, ne_eq, not_not] at hc
      refine ⟨hs, hd, hc.trans hcrc0, hnr, D1, hfix, ?_, rfl, rfl, rfl⟩
      simp only [hdrState, iend_bytes c hd, hd, List.length_nil, List.append_assoc,
        take8_hdr 0 c.typ _ hwf.1]
  · rw [if_pos hs] at hq
    rw [hq] at hp
    simp at hp

/-- C12. Shape of the rewritten stream: when `decode` accepts an input made of the
signature, chunks `cs` and the `IEND` chunk, the inflater having reported the checksum
mismatch on the gathered pixel stream, the output buffer is the signature, then every
chunk of `cs` other than `CgBI` and `IDAT` with its own bytes and in input order, then
the one chunk that `makeChunk` builds with tag `IDAT` from the recompressed channel-fixed
data, then the bytes of the input's `IEND` chunk. None of the copied chunks is a `CgBI`
or an `IDAT` chunk, and every chunk of the output carries the CRC-32 of its type and
payload. -/
theorem decode_output_shape (z : Zlib) (cs : List Chunk) (iend : Chunk) (rest D : List Nat)
    (d : decoder) (hwf : ∀ x ∈ cs, x.WF) (hwfi : iend.WF) (hne : ∀ x ∈ cs, x.typ ≠ tagIEND)
    (hi : iend.typ = tagIEND)
    (hdec : decode z (pngHeader ++ (streamOf (cs ++ [iend]) ++ rest))
      = some (DecodeResult.ok d))
    (hsig : z.readAll ([0x78, 0x1] ++ idatPayload cs ++ [0, 0, 0, 0])
      = (D, some LibError.ErrChecksum)) :
    ∃ ihdr D1, ihdr ∈ cs ∧ ihdr.typ = tagIHDR ∧
      rawImageFix (ihdrWidth ihdr) (ihdrHeight ihdr) (ihdrInterlace ihdr) D = some (D1, none) ∧
      d.buff = pngHeader ++ streamOf (keptChunks cs) ++
        (makeChunk [] tagIDAT (z.compress D1)).1 ++ iend.bytes ∧
      (makeChunk [] tagIDAT (z.compress D1)).1 =
        putUint32 ((z.compress D1).length % 4294967296) ++ tagIDAT ++ z.compress D1 ++
          putUint32 (crc32 (tagIDAT ++ z.compress D1)) ∧
      (∀ x ∈ keptChunks cs, x ∈ cs ∧ x.typ ≠ tagCgBI ∧ x.typ ≠ tagIDAT ∧ x.typ ≠ tagIEND ∧
        x.crc = crc32 (x.typ ++ x.data)) ∧
      iend.data = [] ∧ iend.crc = crc32 (iend.typ ++ iend.data) ∧
      ((z.compress D1).length < 4294967296 →
        d.buff = pngHeader ++
          streamOf (keptChunks cs ++ [Chunk.mk0 tagIDAT (z.compress D1), iend])) := by
  have hstream : streamOf (cs ++ [iend]) ++ rest = streamOf cs ++ (iend.bytes ++ rest) := by
    rw [streamOf_append, streamOf_single, List.append_assoc]
  rw [hstream] at hdec
  obtain ⟨dk, fuel1, hrun, hloop⟩ := decode_ok_run z cs _ d hwf hne hdec
  obtain ⟨q1, q2, q3, q4, -, -, q7, q8, q9⟩ := run_summary z cs _ dk _ hwf hne rfl hrun
  have hk : dk.stage ≠ dsSeenIEND := q8 (by decide : dsStart ≠ dsSeenIEND)
  obtain ⟨d1, fuel2, hp, hloop2⟩ := (decodeLoop_ok_inv z fuel1 dk d hloop).2 hk
  have hz : dk.zbuff ++ [0, 0, 0, 0] = [0x78, 0x1] ++ idatPayload cs ++ [0, 0, 0, 0] := by
    rw [q3]
    rfl
  obtain ⟨hs, hd, hcrc, -, D1, hfix, hb, -, -, hst1⟩ :=
    iend_step z dk d1 iend rest D hwfi hi q1 hp (by rw [hz]; exact hsig)
  have hdd : d = d1 := (decodeLoop_ok_inv z fuel2 d1 d hloop2).1 hst1
  obtain ⟨ihdr, hmem, hty⟩ := q9 (by decide : dsStart < dsSeenIHDR) (by rw [hs]; decide)
  obtain ⟨g1, g2, g3⟩ := q7 ihdr hmem hty
  have hbuff : d.buff = pngHeader ++ streamOf (keptChunks cs) ++
      (makeChunk [] tagIDAT (z.compress D1)).1 ++ iend.bytes := by
    rw [hdd, hb, q2]
    rfl
  refine ⟨ihdr, D1, hmem, hty, by rw [← g1, ← g2, ← g3]; exact hfix, hbuff, ?_, ?_, hd, hcrc, ?_⟩
  · rw [makeChunk_eq, List.nil_append]
  · intro x hx
    have hx2 := List.mem_filter.mp hx
    have hx3 : x.typ ≠ tagCgBI ∧ x.typ ≠ tagIDAT := of_decide_eq_true hx2.2
    exact ⟨hx2.1, hx3.1, hx3.2, hne x hx2.1, q4 x hx2.1⟩
  · intro hlt
    rw [hbuff, streamOf_append, makeChunk_eq, List.nil_append, Nat.mod_eq_of_lt hlt]
    simp [streamOf, Chunk.bytes, Chunk.mk0]

set_option maxRecDepth 100000 in
/-- Witness for C12: the stream `CgBI IHDR IDAT IEND` of a 1×1 image is decoded, the
inflater reporting the checksum mismatch on its pixel stream. -/
theorem decode_output_shape_witness :
    decode storedZlib (pngHeader ++ (streamOf ([exCgBI, exIHDR, exIDAT] ++ [exIEND]) ++ []))
      = some (DecodeResult.ok (exAfter exChunks 4)) ∧
    storedZlib.readAll ([0x78, 0x1] ++ idatPayload [exCgBI, exIHDR, exIDAT] ++ [0, 0, 0, 0])
      = ([0, 30, 20, 10, 255], some LibError.ErrChecksum) ∧
    ∃ ihdr D1, ihdr ∈ [exCgBI, exIHDR, exIDAT] ∧ ihdr.typ = tagIHDR ∧
      rawImageFix (ihdrWidth ihdr) (ihdrHeight ihdr) (ihdrInterlace ihdr) [0, 30, 20, 10, 255]
        = some (D1, none) ∧
      (exAfter exChunks 4).buff = pngHeader ++ streamOf (keptChunks [exCgBI, exIHDR, exIDAT]) ++
        (makeChunk [] tagIDAT (storedZlib.compress D1)).1 ++ exIEND.bytes :=
  ⟨by decide, by decide,
    (decode_output_shape storedZlib [exCgBI, exIHDR, exIDAT] exIEND [] [0, 30, 20, 10, 255]
      (exAfter exChunks 4) (by decide) (by decide) (by decide) rfl (by decide)
      (by decide)).imp fun _ h => h.imp fun _ h => ⟨h.1, h.2.1, h.2.2.1, h.2.2.2.1⟩⟩

/-- C15. Handling of the inflate outcome at `IEND`. The decoder `d` has read the chunks
`cs` of the input without error, is in state `dsSeenIDAT` and meets a fully present
`IEND` chunk of length 0; the inflater is given `x`, the bytes `78 01`, the `IDAT`
payloads and four zero bytes. (1) If `zlib.NewReader` fails with `e`, or `ReadAll`
ends with an error `e` other than the checksum mismatch, `parseChunk` returns `e`, the
output buffer is as before, and `decode` returns the error and no decoder. (2) If
`ReadAll` returns the bytes `D` with the checksum mismatch, what happens next is
decided by `rawImageFix` on exactly `D` with the width, height and interlace method of
the `IHDR` chunk: its panic is the panic of the call, its error is returned with the
output buffer as before, and on its success with `D1` an `IDAT` chunk holding the
recompressed `D1` is appended and the only possible error left is that of the CRC
check of `IEND`. -/
theorem iend_inflate_outcome (z : Zlib) (cs : List Chunk) (iend : Chunk) (rest : List Nat)
    (d : decoder) (hwf : ∀ x ∈ cs, x.WF) (hwfi : iend.WF) (hne : ∀ x ∈ cs, x.typ ≠ tagIEND)
    (hi : iend.typ = tagIEND) (hlen : iend.data = [])
    (hrun : parseChunks z cs.length (startDecoder (streamOf (cs ++ [iend]) ++ rest))
      = some (d, none))
    (hst : d.stage = dsSeenIDAT) :
    (∀ e, (z.newReader ([0x78, 0x1] ++ idatPayload cs ++ [0, 0, 0, 0]) = some e ∨
        (z.newReader ([0x78, 0x1] ++ idatPayload cs ++ [0, 0, 0, 0]) = none ∧
          (z.readAll ([0x78, 0x1] ++ idatPayload cs ++ [0, 0, 0, 0])).2 = some e ∧
          e ≠ LibError.ErrChecksum)) →
      ∃ d1, parseChunk z d = some (d1, some (GoError.lib e)) ∧ d1.buff = d.buff ∧
        decode z (pngHeader ++ (streamOf (cs ++ [iend]) ++ rest)) =
          some (DecodeResult.err (eofToUnexpected (GoError.lib e)))) ∧
    (∀ D, z.newReader ([0x78, 0x1] ++ idatPayload cs ++ [0, 0, 0, 0]) = none →
      z.readAll ([0x78, 0x1] ++ idatPayload cs ++ [0, 0, 0, 0])
        = (D, some LibError.ErrChecksum) →
      ∃ ihdr, ihdr ∈ cs ∧ ihdr.typ = tagIHDR ∧
        (rawImageFix (ihdrWidth ihdr) (ihdrHeight ihdr) (ihdrInterlace ihdr) D = none →
          parseChunk z d = none) ∧
        (∀ x e1, rawImageFix (ihdrWidth ihdr) (ihdrHeight ihdr) (ihdrInterlace ihdr) D
            = some (x, some e1) →
          ∃ d1, parseChunk z d = some (d1, some e1) ∧ d1.buff = d.buff) ∧
        (∀ D1, rawImageFix (ihdrWidth ihdr) (ihdrHeight ihdr) (ihdrInterlace ihdr) D
            = some (D1, none) →
          ∃ d1, parseChunk z d = some (d1,
              if iend.crc ≠ crc32 tagIEND then some (GoError.FormatError "invalid checksum")
              else none) ∧
            d1.zbuff = z.compress D1 ∧
            d.buff ++ (makeChunk [] tagIDAT (z.compress D1)).1 <+: d1.buff)) := by
  obtain ⟨n1, n2, n3, n4, n5, n6⟩ := tags_distinct
  have hstream : streamOf (cs ++ [iend]) ++ rest = streamOf cs ++ (iend.bytes ++ rest) := by
    rw [streamOf_append, streamOf_single, List.append_assoc]
  have hrun0 := hrun
  rw [hstream] at hrun
  obtain ⟨q1, -, q3, -, -, -, q7, -, q9⟩ := run_summary z cs _ d _ hwf hne rfl hrun
  have hz : d.zbuff ++ [0, 0, 0, 0] = [0x78, 0x1] ++ idatPayload cs ++ [0, 0, 0, 0] := by
    rw [q3]
    rfl
  have hq := parseChunk_eq z d iend rest hwfi q1
  rw [if_neg (by rw [hi]; exact n3.symm), if_neg (by rw [hi]; exact n5.symm),
    if_neg (by rw [hi]; exact n6.symm), if_pos hi, if_neg (not_not.mpr hst)] at hq
  have hl : iend.data.length = 0 := by rw [hlen]; rfl
  rw [hl] at hq
  have hne4 : d.stage ≠ dsSeenIEND := by rw [hst]; decide
  have hzz : (hdrState d iend rest).zbuff ++ [0, 0, 0, 0]
      = [0x78, 0x1] ++ idatPayload cs ++ [0, 0, 0, 0] := hz
  constructor
  · intro e he
    have hp : parseChunk z d = some ({ hdrState d iend rest with
        stage := dsSeenIEND, zbuff := d.zbuff ++ [0, 0, 0, 0] }, some (GoError.lib e)) := by
      rw [hq]
      unfold parseIEND
      simp only [ne_eq, not_true_eq_false, if_false, hzz]
      rcases he with h1 | ⟨h1, h2, h3⟩
      · simp only [h1]
        rw [hz]
      · simp only [h1]
        have h4 : (z.readAll ([0x78, 0x1] ++ idatPayload cs ++ [0, 0, 0, 0])).2
            ≠ some LibError.ErrChecksum := by
          rw [h2]
          exact fun h => h3 (Option.some.inj h)
        rw [if_pos h4, h2, hz]
        rfl
    exact ⟨_, hp, rfl, decode_error_at z _ cs.length d _ _ hrun0 hne4 hp⟩
  · intro D hnr hra
    obtain ⟨ihdr, hmem, hty⟩ := q9 (by decide : dsStart < dsSeenIHDR) (by rw [hst]; decide)
    obtain ⟨g1, g2, g3⟩ := q7 ihdr hmem hty
    refine ⟨ihdr, hmem, hty, ?_, ?_, ?_⟩
    all_goals rw [← g1, ← g2, ← g3]
    · intro hfix
      rw [hq]
      unfold parseIEND
      simp only [ne_eq, not_true_eq_false, if_false, hzz, hnr, hra]
      have hfix2 : rawImageFix (hdrState d iend rest).width (hdrState d iend rest).height
          (hdrState d iend rest).interlace D = none := hfix
      simp only [hfix2]
    · intro x e1 hfix
      rw [hq]
      unfold parseIEND
      simp only [ne_eq, not_true_eq_false, if_false, hzz, hnr, hra]
      have hfix2 : rawImageFix (hdrState d iend rest).width (hdrState d iend rest).height
          (hdrState d iend rest).interlace D = some (x, some e1) := hfix
      simp only [hfix2]
      exact ⟨_, rfl, rfl⟩
    · intro D1 hfix
      have hr2 : (hdrState d iend rest).r = putUint32 iend.crc ++ rest := by
        simp [hdrState, hlen]
      have key := parseIEND_checksum z { hdrState d iend rest with stage := dsSeenIEND } D D1
        rest iend.crc (by rw [← hnr]; exact congrArg _ hz) (by rw [← hra]; exact congrArg _ hz)
        hfix hr2 hwfi.2.2
      rw [hq, key]
      have hcrc0 : (hdrState d iend rest).crc = crc32 tagIEND := by
        simp only [hdrState, hi]
        rfl
      by_cases hc : iend.crc = crc32 tagIEND
      · rw [if_neg (by simpa [hcrc0] using hc), if_neg (not_not.mpr hc)]
        refine ⟨_, rfl, rfl, ?_⟩
        simp only [hdrState]
        exact ⟨_, (List.append_assoc _ _ _).symm⟩
      · rw [if_pos (by simpa [hcrc0] using hc), if_pos hc]
        refine ⟨_, rfl, rfl, ?_⟩
        simp only [hdrState]
        exact ⟨_, rfl⟩


set_option maxRecDepth 100000 in
/-- Witness for C15: in the stream `CgBI IHDR IDAT IEND` of a 1×1 image the inflater
reports the checksum mismatch with the five bytes of the row, and `parseChunk` goes on
with the channel fixer on these bytes and the geometry of the `IHDR` chunk. -/
theorem iend_inflate_outcome_witness :
    parseChunks storedZlib [exCgBI, exIHDR, exIDAT].length
      (startDecoder (streamOf ([exCgBI, exIHDR, exIDAT] ++ [exIEND]) ++ []))
      = some (exAfter exChunks 3, none) ∧
    (exAfter exChunks 3).stage = dsSeenIDAT ∧
    storedZlib.readAll ([0x78, 0x1] ++ idatPayload [exCgBI, exIHDR, exIDAT] ++ [0, 0, 0, 0])
      = ([0, 30, 20, 10, 255], some LibError.ErrChecksum) ∧
    ∃ ihdr, ihdr ∈ [exCgBI, exIHDR, exIDAT] ∧ ihdr.typ = tagIHDR ∧
      ∀ D1, rawImageFix (ihdrWidth ihdr) (ihdrHeight ihdr) (ihdrInterlace ihdr)
          [0, 30, 20, 10, 255] = some (D1, none) →
        ∃ d1, parseChunk storedZlib (exAfter exChunks 3) = some (d1,
            if exIEND.crc ≠ crc32 tagIEND then some (GoError.FormatError "invalid checksum")
            else none) ∧
          d1.zbuff = storedZlib.compress D1 ∧
          (exAfter exChunks 3).buff ++ (makeChunk [] tagIDAT (storedZlib.compress D1)).1
            <+: d1.buff :=
  ⟨by decide, by decide, by decide,
    ((iend_inflate_outcome storedZlib [exCgBI, exIHDR, exIDAT] exIEND [] (exAfter exChunks 3)
      (by decide) (by decide) (by decide) rfl rfl (by decide) (by decide)).2
      [0, 30, 20, 10, 255] (by decide) (by decide)).imp
      fun _ h => ⟨h.1, h.2.1, h.2.2.2.2⟩⟩

set_option maxRecDepth 100000 in
/-- C17. On a stream whose pixel data has Adler-32 zero the inflater reports no error
at `IEND`; `decode` then succeeds although the `IEND` chunk's CRC has not been read
and neither an `IDAT` nor the `IEND` chunk has been written: the buffer holds the
signature and the `IHDR` chunk only. -/
theorem iend_success_without_output :
    ∃ d, decode storedZlib (pngHeader ++ streamOf [exCgBI, exIHDR65, exIDATZero, exIEND])
        = some (DecodeResult.ok d) ∧
      d.buff = pngHeader ++ exIHDR65.bytes ∧ d.r = putUint32 exIEND.crc := by
  have w1 : exCgBI.WF := mk0_WF _ _ rfl (by decide)
  have w2 : exIHDR65.WF := mk0_WF _ _ rfl (by decide)
  have hl3 : exIDATZero.data.length ≤ 0x7fffffff := by
    simp [exIDATZero, Chunk.mk0, exZeroAdlerData]
  have w3 : exIDATZero.WF := mk0_WF _ _ rfl (by simp [exZeroAdlerData])
  have w4 : exIEND.WF := mk0_WF _ _ rfl (by decide)
  have hne : ∀ x ∈ [exCgBI, exIHDR65, exIDATZero], x.typ ≠ tagIEND := by
    intro x hx
    simp only [List.mem_cons, List.mem_singleton, List.not_mem_nil, or_false] at hx
    rcases hx with rfl | rfl | rfl <;> decide
  have hwf : ∀ x ∈ [exCgBI, exIHDR65, exIDATZero], x.WF := by
    intro x hx
    simp only [List.mem_cons, List.mem_singleton, List.not_mem_nil, or_false] at hx
    rcases hx with rfl | rfl | rfl
    · exact w1
    · exact w2
    · exact w3
  have hr0 : (startDecoder (streamOf [exCgBI, exIHDR65, exIDATZero, exIEND])).r =
      exCgBI.bytes ++ streamOf [exIHDR65, exIDATZero, exIEND] := streamOf_cons _ _
  obtain ⟨d1, p1⟩ := parseChunk_accept storedZlib _ exCgBI _ w1 hr0
    (Or.inl ⟨rfl, rfl, rfl, rfl⟩) (mk0_crc _ _) (fun h => absurd h (by decide))
  have s1 := nextStage_of_success storedZlib _ d1 exCgBI _ w1 hr0 p1
  obtain ⟨r1, -⟩ := parseChunk_step storedZlib _ d1 exCgBI _ w1 hr0 p1 (by decide)
  have hr1 : d1.r = exIHDR65.bytes ++ streamOf [exIDATZero, exIEND] :=
    r1.trans (streamOf_cons _ _)
  have st1 : d1.stage = dsSeenCgBI := by
    have : some dsSeenCgBI = some d1.stage := s1
    exact (Option.some.inj this).symm
  obtain ⟨d2, p2⟩ := parseChunk_accept storedZlib d1 exIHDR65 _ w2 hr1
    (Or.inr (Or.inl ⟨rfl, st1, rfl, Or.inl rfl⟩)) (mk0_crc _ _) (fun _ => ⟨rfl, rfl⟩)
  have s2 := nextStage_of_success storedZlib d1 d2 exIHDR65 _ w2 hr1 p2
  obtain ⟨r2, -⟩ := parseChunk_step storedZlib d1 d2 exIHDR65 _ w2 hr1 p2 (by decide)
  have hr2 : d2.r = exIDATZero.bytes ++ streamOf [exIEND] := r2.trans (streamOf_cons _ _)
  have st2 : d2.stage = dsSeenIHDR := by
    rw [st1] at s2
    have : some dsSeenIHDR = some d2.stage := s2
    exact (Option.some.inj this).symm
  obtain ⟨d3, p3⟩ := parseChunk_accept storedZlib d2 exIDATZero _ w3 hr2
    (Or.inr (Or.inr (Or.inl ⟨rfl, by rw [st2], by rw [st2]; decide, hl3⟩))) (mk0_crc _ _)
    (fun h => absurd h (by decide))
  have s3 := nextStage_of_success storedZlib d2 d3 exIDATZero _ w3 hr2 p3
  have st3 : d3.stage = dsSeenIDAT := by
    rw [st2] at s3
    have : some dsSeenIDAT = some d3.stage := s3
    exact (Option.some.inj this).symm
  have hrun : parseChunks storedZlib [exCgBI, exIHDR65, exIDATZero].length
      (startDecoder (streamOf [exCgBI, exIHDR65, exIDATZero, exIEND])) = some (d3, none) :=
    parseChunks_cons_ok _ _ _ _ 2 p1
      (parseChunks_cons_ok _ _ _ _ 1 p2 (parseChunks_cons_ok _ _ _ _ 0 p3 rfl))
  have hsplit : streamOf [exCgBI, exIHDR65, exIDATZero, exIEND] =
      streamOf [exCgBI, exIHDR65, exIDATZero] ++ exIEND.bytes := by
    simp [streamOf]
  obtain ⟨q1, q2, q3, -⟩ := run_summary storedZlib [exCgBI, exIHDR65, exIDATZero] _ d3
    exIEND.bytes hwf hne (by rw [← hsplit]; rfl) hrun
  have hk : streamOf (keptChunks [exCgBI, exIHDR65, exIDATZero]) = exIHDR65.bytes := by
    have : keptChunks [exCgBI, exIHDR65, exIDATZero] = [exIHDR65] := rfl
    rw [this]
    simp [streamOf]
  have hz : d3.zbuff = [0x78, 0x1] ++ exIDATZero.data := by
    rw [q3]
    have : idatPayload [exCgBI, exIHDR65, exIDATZero] = exIDATZero.data := by
      have h : List.filter (fun c => decide (c.typ = tagIDAT)) [exCgBI, exIHDR65, exIDATZero]
          = [exIDATZero] := rfl
      unfold idatPayload
      rw [h]
      simp
    rw [this]
    rfl
  have hq1 : d3.r = exIEND.bytes ++ [] := by rw [q1, List.append_nil]
  have p4 := parseChunk_eq storedZlib d3 exIEND [] w4 hq1
  rw [if_neg (by decide : ¬ exIEND.typ = tagCgBI), if_neg (by decide : ¬ exIEND.typ = tagIHDR),
    if_neg (by decide : ¬ exIEND.typ = tagIDAT), if_pos (show exIEND.typ = tagIEND from rfl),
    if_neg (by rw [st3]; simp)] at p4
  have hlen : exIEND.data.length = 0 := rfl
  rw [hlen, parseIEND_no_error storedZlib _ exZeroAdlerData
    (by simp only [hdrState, hz]; decide) (by simp only [hdrState, hz]; decide)] at p4
  refine ⟨_, decode_finish storedZlib _ _ d3 _ hrun (by rw [st3]; decide) p4 rfl, ?_, ?_⟩
  · simp only [hdrState, q2]
    rw [hk]
    rfl
  · simp [hdrState, exIEND, Chunk.mk0]


theorem cgbi_payload_iff (data : List Nat) (h4 : data.length = 4)
    (hb : ∀ b ∈ data, b < 256) :
    chunkDataCgBIValue = beUint32 data ↔ data = [0x50, 0x00, 0x20, 0x06] := by
  match data, h4 with
  | [a, b, c, e], _ =>
    have ha := hb a (by simp)
    have hb1 := hb b (by simp)
    have hc := hb c (by simp)
    have he := hb e (by simp)
    simp only [beUint32, chunkDataCgBIValue, List.getD_cons_zero, List.getD_cons_succ]
    constructor
    · intro h
      have : a = 0x50 ∧ b = 0 ∧ c = 0x20 ∧ e = 6 := by omega
      obtain ⟨rfl, rfl, rfl, rfl⟩ := this
      rfl
    · intro h
      injection h with h1 h
      injection h with h2 h
      injection h with h3 h
      injection h with h4 h
      subst h1 h2 h3 h4
      rfl

/-- C18. Acceptance of the `CgBI` marker chunk: for a fully present `CgBI` chunk that
arrives in state `dsStart`, `parseChunk` succeeds exactly when the declared length is 4,
the payload is `50 00 20 06` and the stored CRC is the CRC-32 of `"CgBI"` followed by
the payload. Any other length gives `FormatError("bad CgBI length")`, any other payload
of four bytes gives `FormatError("bad CgBI data")`, and in these cases as on success
nothing is appended to the output buffer. -/
theorem cgbi_acceptance (z : Zlib) (d : decoder) (c : Chunk) (rest : List Nat)
    (hst : d.stage = dsStart) (hwf : c.WF) (htyp : c.typ = tagCgBI)
    (hbytes : ∀ b ∈ c.data, b < 256) (hr : d.r = c.bytes ++ rest) :
    ((∃ d1, parseChunk z d = some (d1, none)) ↔
      (c.data.length = 4 ∧ c.data = [0x50, 0x00, 0x20, 0x06] ∧
        c.crc = crc32 (tagCgBI ++ c.data))) ∧
    (c.data.length ≠ 4 → ∃ d1,
      parseChunk z d = some (d1, some (GoError.FormatError "bad CgBI length")) ∧
      d1.buff = d.buff) ∧
    (c.data.length = 4 → c.data ≠ [0x50, 0x00, 0x20, 0x06] → ∃ d1,
      parseChunk z d = some (d1, some (GoError.FormatError "bad CgBI data")) ∧
      d1.buff = d.buff) ∧
    (∀ d1, parseChunk z d = some (d1, none) →
      d1.buff = d.buff ∧ d1.stage = dsSeenCgBI ∧ d1.r = rest) := by
  have hp := parseChunk_eq z d c rest hwf hr
  rw [if_pos htyp, if_neg (by rw [hst]; simp),
    parseCgBI_full _ c.data rest c.crc rfl hwf.2.2] at hp
  have hcrc : crc32Update (crc32Update 0 c.typ) c.data = crc32 (tagCgBI ++ c.data) := by
    rw [htyp, crc32_append]
  simp only [hdrState] at hp
  rw [hcrc] at hp
  by_cases h4 : c.data.length = 4
  · have hiff := cgbi_payload_iff c.data h4 hbytes
    rw [if_neg (by simp [h4])] at hp
    by_cases hv : c.data = [0x50, 0x00, 0x20, 0x06]
    · rw [if_neg (not_not.mpr (hiff.mpr hv))] at hp
      by_cases hc : c.crc = crc32 (tagCgBI ++ c.data)
      · rw [if_neg (not_not.mpr hc)] at hp
        refine ⟨⟨fun _ => ⟨h4, hv, hc⟩, fun _ => ⟨_, hp⟩⟩, fun h => absurd h4 h,
          fun _ h => absurd hv h, ?_⟩
        intro d1 h1
        rw [hp] at h1
        injection h1 with h1
        injection h1 with h1 _
        subst h1
        exact ⟨rfl, rfl, rfl⟩
      · rw [if_pos hc] at hp
        refine ⟨⟨?_, fun h => absurd h.2.2 hc⟩, fun h => absurd h4 h,
          fun _ h => absurd hv h, ?_⟩
        · rintro ⟨d1, h1⟩
          rw [hp] at h1
          simp at h1
        · intro d1 h1
          rw [hp] at h1
          simp at h1
    · rw [if_pos (fun h => hv (hiff.mp h))] at hp
      refine ⟨⟨?_, fun h => absurd h.2.1 hv⟩, fun h => absurd h4 h,
        fun _ _ => ⟨_, hp, rfl⟩, ?_⟩
      · rintro ⟨d1, h1⟩
        rw [hp] at h1
        simp at h1
      · intro d1 h1
        rw [hp] at h1
        simp at h1
  · rw [if_pos h4] at hp
    refine ⟨⟨?_, fun h => absurd h.1 h4⟩, fun _ => ⟨_, hp, rfl⟩,
      fun h => absurd h h4, ?_⟩
    · rintro ⟨d1, h1⟩
      rw [hp] at h1
      simp at h1
    · intro d1 h1
      rw [hp] at h1
      simp at h1


set_option maxRecDepth 100000 in
/-- Witness for C18: the `CgBI` chunk with the marker value is accepted at the start
of a stream, and the output buffer still holds the signature only. -/
theorem cgbi_acceptance_witness :
    (startDecoder exCgBI.bytes).stage = dsStart ∧ exCgBI.WF ∧ exCgBI.typ = tagCgBI ∧
    (∃ d1, parseChunk storedZlib (startDecoder exCgBI.bytes) = some (d1, none)) ∧
    (∀ d1, parseChunk storedZlib (startDecoder exCgBI.bytes) = some (d1, none) →
      d1.buff = pngHeader ∧ d1.stage = dsSeenCgBI ∧ d1.r = []) :=
  ⟨rfl, by decide, rfl,
    (cgbi_acceptance storedZlib (startDecoder exCgBI.bytes) exCgBI [] rfl (by decide) rfl
      (by decide) (by decide)).1.2 (by decide),
    (cgbi_acceptance storedZlib (startDecoder exCgBI.bytes) exCgBI [] rfl (by decide) rfl
      (by decide) (by decide)).2.2.2⟩

/-! ## Truncated input: the decoder on a proper prefix of an accepted stream -/

theorem bindRes_trunc (t : List Nat) (x y : decoder × Option GoError)
    (k1 k2 : decoder → decoder × Option GoError) (h : SimRes t x y)
    (hk : ∀ a b, Trunc t a b → SimRes t (k1 a) (k2 b)) :
    SimRes t (bindRes x k1) (bindRes y k2) := by
  obtain ⟨a, ea⟩ := x
  obtain ⟨b, eb⟩ := y
  rcases h with he | ⟨he, ht⟩
  · rcases he with he | he
    · simp only at he
      subst he
      exact Or.inl (Or.inl rfl)
    · simp only at he
      subst he
      exact Or.inl (Or.inr rfl)
  · simp only at he ht
    subst he
    cases ea with
    | none => exact hk a b ht
    | some e => exact Or.inr ⟨rfl, ht⟩

theorem readFull_trunc (r1 t : List Nat) (n : Nat) :
    (readFull r1 n = (r1.take n, r1.drop n, none) ∧
      readFull (r1 ++ t) n = (r1.take n, r1.drop n ++ t, none)) ∨
    (∃ b rest, readFull r1 n = (b, rest, some (GoError.lib LibError.EOF))) ∨
    (∃ b rest, readFull r1 n = (b, rest, some (GoError.lib LibError.ErrUnexpectedEOF))) := by
  unfold readFull
  by_cases hn : n ≤ r1.length
  · left
    have hn2 : n ≤ (r1 ++ t).length := by
      rw [List.length_append]
      omega
    rw [if_pos hn, if_pos hn2, List.take_append_of_le_length hn,
      List.drop_append_of_le_length hn]
    exact ⟨rfl, rfl⟩
  · right
    rw [if_neg hn]
    by_cases h0 : r1.length = 0
    · left
      rw [if_pos h0]
      exact ⟨_, _, rfl⟩
    · right
      rw [if_neg h0]
      exact ⟨_, _, rfl⟩

theorem readTmp_trunc (t : List Nat) (a b : decoder) (n : Nat) (h : Trunc t a b) :
    SimRes t (a.readTmp n) (b.readTmp n) := by
  obtain ⟨r1, hr, rfl⟩ := h
  unfold decoder.readTmp
  simp only [hr]
  rcases readFull_trunc r1 t n with ⟨h1, h2⟩ | ⟨x, y, h1⟩ | ⟨x, y, h1⟩
  · rw [h1, h2]
    exact Or.inr ⟨rfl, _, rfl, rfl⟩
  · rw [h1]
    exact Or.inl (Or.inl rfl)
  · rw [h1]
    exact Or.inl (Or.inr rfl)

theorem verifyChecksum_trunc (t : List Nat) (a b : decoder) (w : Bool) (h : Trunc t a b) :
    SimRes t (verifyChecksum a w) (verifyChecksum b w) := by
  show SimRes t (bindRes (a.readTmp 4) _) (bindRes (b.readTmp 4) _)
  apply bindRes_trunc _ _ _ _ _ (readTmp_trunc t a b 4 h)
  rintro a1 b1 ⟨r1, hr, rfl⟩
  simp only
  split_ifs
  · exact Or.inr ⟨rfl, r1, hr, rfl⟩
  · exact Or.inr ⟨rfl, r1, hr, rfl⟩
  · exact Or.inr ⟨rfl, r1, hr, rfl⟩

theorem simRes_some (t : List Nat) (x y : decoder × Option GoError) (h : SimRes t x y) :
    SimResO t (some x) (some y) := by
  rcases h with he | ⟨he, ht⟩
  · exact Or.inl ⟨x, rfl, he⟩
  · exact Or.inr (Or.inr ⟨x, y, rfl, rfl, he, ht⟩)

theorem simRes_err (t : List Nat) (a b : decoder) (e : Option GoError) (h : Trunc t a b) :
    SimRes t (a, e) (b, e) := Or.inr ⟨rfl, h⟩

theorem parseCgBI_trunc (t : List Nat) (a b : decoder) (len : Nat) (h : Trunc t a b) :
    SimRes t (parseCgBI a len) (parseCgBI b len) := by
  unfold parseCgBI
  split_ifs
  · exact simRes_err t a b _ h
  · show SimRes t (bindRes (a.readTmp 4) _) (bindRes (b.readTmp 4) _)
    apply bindRes_trunc _ _ _ _ _ (readTmp_trunc t a b 4 h)
    rintro a1 b1 ⟨r1, hr, rfl⟩
    simp only
    split_ifs
    · exact Or.inr ⟨rfl, r1, hr, rfl⟩
    · exact verifyChecksum_trunc t _ _ false ⟨r1, hr, rfl⟩

theorem parseIHDR_trunc (t : List Nat) (a b : decoder) (len : Nat) (h : Trunc t a b) :
    SimRes t (parseIHDR a len) (parseIHDR b len) := by
  unfold parseIHDR
  split_ifs
  · exact simRes_err t a b _ h
  · obtain ⟨r0, hr0, rfl⟩ := h
    have h0 : Trunc t { ({ b with r := r0 } : decoder) with
          buff := ({ b with r := r0 } : decoder).buff ++ ({ b with r := r0 } : decoder).tmp.take 8 }
        { b with buff := b.buff ++ b.tmp.take 8 } := ⟨r0, hr0, rfl⟩
    show SimRes t (bindRes (decoder.readTmp _ 13) _) (bindRes (decoder.readTmp _ 13) _)
    apply bindRes_trunc _ _ _ _ _ (readTmp_trunc t _ _ 13 h0)
    rintro a1 b1 ⟨r1, hr, rfl⟩
    simp only
    split_ifs
    · exact Or.inr ⟨rfl, r1, hr, rfl⟩
    · exact verifyChecksum_trunc t _ _ true ⟨r1, hr, rfl⟩
    · exact verifyChecksum_trunc t _ _ true ⟨r1, hr, rfl⟩

theorem idatLoop_trunc (t : List Nat) : ∀ (fuel : Nat) (a b : decoder) (len : Nat),
    Trunc t a b → SimRes t (idatLoop fuel a len) (idatLoop fuel b len) := by
  intro fuel
  induction fuel with
  | zero =>
    intro a b len h
    exact simRes_err t a b _ h
  | succ fuel ih =>
    intro a b len h
    obtain ⟨r1, hr, rfl⟩ := h
    simp only [idatLoop]
    split_ifs
    · simp only [hr]
      rcases readFull_trunc r1 t (min 4096 len) with ⟨h1, h2⟩ | ⟨x, y, h1⟩ | ⟨x, y, h1⟩
      · rw [h1, h2]
        exact ih _ _ _ ⟨_, rfl, rfl⟩
      · rw [h1]
        exact Or.inl (Or.inl rfl)
      · rw [h1]
        exact Or.inl (Or.inr rfl)
    · exact Or.inr ⟨rfl, r1, hr, rfl⟩

theorem ignoreLoop_trunc (t : List Nat) : ∀ (fuel : Nat) (a b : decoder) (len : Nat),
    Trunc t a b → SimRes t (ignoreLoop fuel a len) (ignoreLoop fuel b len) := by
  intro fuel
  induction fuel with
  | zero =>
    intro a b len h
    exact simRes_err t a b _ h
  | succ fuel ih =>
    intro a b len h
    obtain ⟨r1, hr, rfl⟩ := h
    simp only [ignoreLoop]
    split_ifs
    · simp only [hr]
      rcases readFull_trunc r1 t (min 4096 len) with ⟨h1, h2⟩ | ⟨x, y, h1⟩ | ⟨x, y, h1⟩
      · rw [h1, h2]
        exact ih _ _ _ ⟨_, rfl, rfl⟩
      · rw [h1]
        exact Or.inl (Or.inl rfl)
      · rw [h1]
        exact Or.inl (Or.inr rfl)
    · exact Or.inr ⟨rfl, r1, hr, rfl⟩

theorem parseIDAT_trunc (t : List Nat) (a b : decoder) (len : Nat) (h : Trunc t a b) :
    SimRes t (parseIDAT a len) (parseIDAT b len) := by
  unfold parseIDAT
  split_ifs
  · exact simRes_err t a b _ h
  · show SimRes t (bindRes (idatLoop len a len) _) (bindRes (idatLoop len b len) _)
    apply bindRes_trunc _ _ _ _ _ (idatLoop_trunc t len a b len h)
    intro a1 b1 h1
    exact verifyChecksum_trunc t _ _ false h1

theorem parseIEND_trunc (z : Zlib) (t : List Nat) (a b : decoder) (len : Nat)
    (h : Trunc t a b) : SimResO t (parseIEND z a len) (parseIEND z b len) := by
  obtain ⟨r1, hr, rfl⟩ := h
  unfold parseIEND
  split_ifs
  · exact simRes_some t _ _ (simRes_err t _ _ _ ⟨r1, hr, rfl⟩)
  · simp only
    cases z.newReader (b.zbuff ++ [0, 0, 0, 0]) with
    | some e => exact simRes_some t _ _ (simRes_err t _ _ _ ⟨r1, hr, rfl⟩)
    | none =>
      simp only
      split_ifs
      · exact simRes_some t _ _ (simRes_err t _ _ _ ⟨r1, hr, rfl⟩)
      · cases rawImageFix b.width b.height b.interlace
            (z.readAll (b.zbuff ++ [0, 0, 0, 0])).1 with
        | none => exact Or.inr (Or.inl ⟨rfl, rfl⟩)
        | some res =>
          obtain ⟨data1, e1⟩ := res
          cases e1 with
          | some e => exact simRes_some t _ _ (simRes_err t _ _ _ ⟨r1, hr, rfl⟩)
          | none =>
            simp only [makeChunk_eq]
            exact simRes_some t _ _ (verifyChecksum_trunc t _ _ true ⟨r1, hr, rfl⟩)

theorem parseChunk_trunc (z : Zlib) (t : List Nat) (a b : decoder) (h : Trunc t a b) :
    SimResO t (parseChunk z a) (parseChunk z b) := by
  unfold parseChunk
  have hsim := readTmp_trunc t a b 8 h
  revert hsim
  generalize a.readTmp 8 = x
  generalize b.readTmp 8 = y
  intro hsim
  obtain ⟨a1, ea⟩ := x
  obtain ⟨b1, eb⟩ := y
  rcases hsim with he | ⟨he, ht⟩
  · left
    rcases he with he | he
    · simp only at he
      subst he
      exact ⟨_, rfl, Or.inl rfl⟩
    · simp only at he
      subst he
      exact ⟨_, rfl, Or.inr rfl⟩
  · simp only at he ht
    subst he
    obtain ⟨r1, hr, rfl⟩ := ht
    cases ea with
    | some e => exact simRes_some t _ _ (simRes_err t _ _ _ ⟨r1, hr, rfl⟩)
    | none =>
      simp only
      split_ifs
      · exact simRes_some t _ _ (simRes_err t _ _ _ ⟨r1, hr, rfl⟩)
      · exact simRes_some t _ _ (parseCgBI_trunc t _ _ _ ⟨r1, hr, rfl⟩)
      · exact simRes_some t _ _ (simRes_err t _ _ _ ⟨r1, hr, rfl⟩)
      · have hI := parseIHDR_trunc t
          { ({ b1 with r := r1 } : decoder) with
            crc := crc32Update 0 ((b1.tmp.drop 4).take 4), stage := dsSeenIHDR }
          { b1 with crc := crc32Update 0 ((b1.tmp.drop 4).take 4), stage := dsSeenIHDR }
          (beUint32 (b1.tmp.take 4)) ⟨r1, hr, rfl⟩
        revert hI
        generalize parseIHDR
          { ({ b1 with r := r1 } : decoder) with
            crc := crc32Update 0 ((b1.tmp.drop 4).take 4), stage := dsSeenIHDR }
          (beUint32 (b1.tmp.take 4)) = x
        generalize parseIHDR
          { b1 with crc := crc32Update 0 ((b1.tmp.drop 4).take 4), stage := dsSeenIHDR }
          (beUint32 (b1.tmp.take 4)) = y
        intro hI
        obtain ⟨xa, xe⟩ := x
        obtain ⟨ya, ye⟩ := y
        rcases hI with he | ⟨he, ht⟩
        · left
          rcases he with he | he
          · simp only at he
            subst he
            exact ⟨_, rfl, Or.inl rfl⟩
          · simp only at he
            subst he
            exact ⟨_, rfl, Or.inr rfl⟩
        · simp only at he ht
          subst he
          obtain ⟨r2, hr2, rfl⟩ := ht
          cases xe with
          | some e => exact simRes_some t _ _ (simRes_err t _ _ _ ⟨r2, hr2, rfl⟩)
          | none =>
            simp only
            split_ifs
            · exact simRes_some t _ _ (simRes_err t _ _ _ ⟨r2, hr2, rfl⟩)
            · exact simRes_some t _ _ (simRes_err t _ _ _ ⟨r2, hr2, rfl⟩)
      · exact simRes_some t _ _ (simRes_err t _ _ _ ⟨r1, hr, rfl⟩)
      · exact simRes_some t _ _ (parseIDAT_trunc t _ _ _ ⟨r1, hr, rfl⟩)
      · exact simRes_some t _ _ (simRes_err t _ _ _ ⟨r1, hr, rfl⟩)
      · exact parseIEND_trunc z t _ _ _ ⟨r1, hr, rfl⟩
      · exact simRes_some t _ _ (simRes_err t _ _ _ ⟨r1, hr, rfl⟩)
      · have hI := ignoreLoop_trunc t (beUint32 (b1.tmp.take 4))
          { ({ b1 with r := r1 } : decoder) with
            crc := crc32Update 0 ((b1.tmp.drop 4).take 4),
            buff := b1.buff ++ b1.tmp.take 8 }
          { b1 with crc := crc32Update 0 ((b1.tmp.drop 4).take 4),
                    buff := b1.buff ++ b1.tmp.take 8 }
          (beUint32 (b1.tmp.take 4)) ⟨r1, hr, rfl⟩
        revert hI
        generalize ignoreLoop (beUint32 (b1.tmp.take 4))
          { ({ b1 with r := r1 } : decoder) with
            crc := crc32Update 0 ((b1.tmp.drop 4).take 4),
            buff := b1.buff ++ b1.tmp.take 8 }
          (beUint32 (b1.tmp.take 4)) = x
        generalize ignoreLoop (beUint32 (b1.tmp.take 4))
          { b1 with crc := crc32Update 0 ((b1.tmp.drop 4).take 4),
                    buff := b1.buff ++ b1.tmp.take 8 }
          (beUint32 (b1.tmp.take 4)) = y
        intro hI
        obtain ⟨xa, xe⟩ := x
        obtain ⟨ya, ye⟩ := y
        rcases hI with he | ⟨he, ht⟩
        · left
          rcases he with he | he
          · simp only at he
            subst he
            exact ⟨_, rfl, Or.inl rfl⟩
          · simp only at he
            subst he
            exact ⟨_, rfl, Or.inr rfl⟩
        · simp only at he ht
          subst he
          cases xe with
          | some e => exact simRes_some t _ _ (simRes_err t _ _ _ ht)
          | none => exact simRes_some t _ _ (verifyChecksum_trunc t _ _ true ht)

theorem checkHeader_trunc (t : List Nat) (a b : decoder) (h : Trunc t a b) :
    SimRes t (checkHeader a) (checkHeader b) := by
  show SimRes t (bindRes (a.readTmp pngHeader.length) _) (bindRes (b.readTmp pngHeader.length) _)
  apply bindRes_trunc _ _ _ _ _ (readTmp_trunc t a b _ h)
  rintro a1 b1 ⟨r1, hr, rfl⟩
  simp only
  split_ifs
  · exact Or.inr ⟨rfl, r1, hr, rfl⟩
  · exact Or.inr ⟨rfl, r1, hr, rfl⟩

theorem eofToUnexpected_eof (e : GoError) (h : IsEof (some e)) :
    eofToUnexpected e = GoError.lib LibError.ErrUnexpectedEOF := by
  rcases h with h | h
  · rw [Option.some.inj h]
    rfl
  · rw [Option.some.inj h]
    rfl

/-- The loop of `decode` on a reader cut short, when on the full reader it ends with
a decoder that has read everything: it ends with `io.ErrUnexpectedEOF`. -/
theorem decodeLoop_trunc (z : Zlib) (t : List Nat) (ht : t ≠ []) :
    ∀ (fuel : Nat) (a b dfin : decoder) (fuel1 : Nat), Trunc t a b →
    decodeLoop z fuel b = some (DecodeResult.ok dfin) → dfin.r = [] →
    decodeLoop z fuel1 a = none ∨
    decodeLoop z fuel1 a = some (DecodeResult.err (GoError.lib LibError.ErrUnexpectedEOF)) := by
  intro fuel
  induction fuel with
  | zero =>
    intro a b dfin fuel1 _ h _
    simp [decodeLoop] at h
  | succ fuel ih =>
    intro a b dfin fuel1 hab h hfin
    obtain ⟨h1, h2⟩ := decodeLoop_ok_inv z _ b dfin h
    by_cases hs : b.stage = dsSeenIEND
    · exfalso
      have hb := h1 hs
      obtain ⟨r1, hr, -⟩ := hab
      rw [hb] at hfin
      rw [hfin] at hr
      have := congrArg List.length hr
      simp only [List.length_nil, List.length_append] at this
      exact ht (List.length_eq_zero.mp (by omega))
    · simp only [decodeLoop, hs, ne_eq, not_false_eq_true, if_true] at h
      have hsa : a.stage ≠ dsSeenIEND := by
        obtain ⟨r1, -, rfl⟩ := hab
        exact hs
      cases fuel1 with
      | zero => exact Or.inl rfl
      | succ fuel1 =>
        simp only [decodeLoop, hsa, ne_eq, not_false_eq_true, if_true]
        rcases parseChunk_trunc z t a b hab with ⟨x, hx, he⟩ | ⟨hx, hy⟩ | ⟨x, y, hx, hy, he, hxy⟩
        · right
          obtain ⟨xa, xe⟩ := x
          cases xe with
          | none => rcases he with he | he <;> simp at he
          | some e =>
            rw [hx]
            simp only
            rw [eofToUnexpected_eof e he]
        · rw [hy] at h
          simp at h
        · rw [hy] at h
          rw [hx]
          obtain ⟨xa, xe⟩ := x
          obtain ⟨ya, ye⟩ := y
          simp only at he hxy
          subst he
          cases xe with
          | some e => simp at h
          | none =>
            simp only at h ⊢
            exact ih xa ya dfin fuel1 hxy h hfin

/-- C11. Truncation is reported as unexpected end of input: when `decode` accepts the
byte stream `s` and has read all of it, `decode` on any proper prefix `p` of `s`, the
empty one included, returns `io.ErrUnexpectedEOF` and no decoder; so it returns neither
`io.EOF`, nor a `FormatError`, nor a decoder. The collaborator is the same function of
its input in both calls. -/
theorem truncation_unexpected_eof (z : Zlib) (s p : List Nat) (d : decoder)
    (hdec : decode z s = some (DecodeResult.ok d)) (hall : d.r = []) (hp : p <+: s)
    (hne : p ≠ s) :
    decode z p = some (DecodeResult.err (GoError.lib LibError.ErrUnexpectedEOF)) := by
  obtain ⟨t, rfl⟩ := hp
  have ht : t ≠ [] := by
    intro h
    apply hne
    rw [h, List.append_nil]
  have htot := decode_total z p
  unfold decode at hdec htot ⊢
  have hsim := checkHeader_trunc t (newDecoder p) (newDecoder (p ++ t)) ⟨p, rfl, rfl⟩
  revert hsim hdec htot
  generalize checkHeader (newDecoder p) = x
  generalize checkHeader (newDecoder (p ++ t)) = y
  intro hdec htot hsim
  obtain ⟨xa, xe⟩ := x
  obtain ⟨ya, ye⟩ := y
  rcases hsim with he | ⟨he, hxy⟩
  · cases xe with
    | none => rcases he with he | he <;> simp at he
    | some e =>
      simp only
      rw [eofToUnexpected_eof e he]
  · simp only at he hxy
    subst he
    cases xe with
    | some e => simp at hdec
    | none =>
      simp only at hdec htot ⊢
      rcases decodeLoop_trunc z t ht _ xa ya d _ hxy hdec hall with h | h
      · exact absurd h htot
      · exact h

set_option maxRecDepth 100000 in
/-- Witness for C11: the stream `CgBI IHDR IDAT IEND` is accepted and read to its end;
cut after the `IHDR` chunk, and cut down to nothing, it gives `io.ErrUnexpectedEOF`. -/
theorem truncation_unexpected_eof_witness :
    decode storedZlib (pngHeader ++ streamOf exChunks)
      = some (DecodeResult.ok (exAfter exChunks 4)) ∧
    (exAfter exChunks 4).r = [] ∧
    decode storedZlib (pngHeader ++ streamOf [exCgBI, exIHDR])
      = some (DecodeResult.err (GoError.lib LibError.ErrUnexpectedEOF)) ∧
    decode storedZlib [] = some (DecodeResult.err (GoError.lib LibError.ErrUnexpectedEOF)) :=
  ⟨by decide, by decide,
    truncation_unexpected_eof storedZlib (pngHeader ++ streamOf exChunks)
      (pngHeader ++ streamOf [exCgBI, exIHDR]) (exAfter exChunks 4) (by decide) (by decide)
      ⟨streamOf [exIDAT, exIEND], by decide⟩ (by decide),
    truncation_unexpected_eof storedZlib (pngHeader ++ streamOf exChunks) []
      (exAfter exChunks 4) (by decide) (by decide) ⟨_, rfl⟩ (by decide)⟩

/-! ## The channel fixer as a sequence of swaps -/

theorem swapRB_length (raw out : List Nat) (i : Nat) (h : swapRB raw i = some out) :
    out.length = raw.length := by
  unfold swapRB at h
  split_ifs at h
  simp only [Option.some.injEq] at h
  rw [← h]
  simp

theorem swapAll_length : ∀ (cs raw out : List Nat), swapAll cs raw = some out →
    out.length = raw.length := by
  intro cs
  induction cs with
  | nil =>
    intro raw out h
    simp only [swapAll, Option.some.injEq] at h
    rw [h]
  | cons c cs ih =>
    intro raw out h
    simp only [swapAll] at h
    split at h
    · simp at h
    · next raw1 h1 => rw [ih raw1 out h, swapRB_length raw raw1 c h1]

theorem swapAll_append : ∀ (a b raw : List Nat),
    swapAll (a ++ b) raw = (swapAll a raw).bind (swapAll b) := by
  intro a
  induction a with
  | nil => intro b raw; rfl
  | cons c a ih =>
    intro b raw
    simp only [List.cons_append, swapAll]
    cases swapRB raw c with
    | none => rfl
    | some raw1 => exact ih b raw1

theorem fixRow_trace (n : Nat) : ∀ (i : Nat) (raw : List Nat),
    fixRow n i raw = (swapAll (rowCursors n i) raw).map (fun r => (r, i + 4 * n)) := by
  induction n with
  | zero => intro i raw; rfl
  | succ n ih =>
    intro i raw
    simp only [fixRow, rowCursors, swapAll]
    cases swapRB raw i with
    | none => rfl
    | some raw1 =>
      simp only
      rw [ih]
      have : i + 4 + 4 * n = i + 4 * (n + 1) := by omega
      rw [this]

theorem fixRows_trace (w m : Nat) : ∀ (i : Nat) (raw : List Nat),
    fixRows w m i raw =
      (swapAll (rowsCursors w m i) raw).map (fun r => (r, i + m * (4 * w + 1))) := by
  induction m with
  | zero => intro i raw; simp [fixRows, rowsCursors, swapAll]
  | succ m ih =>
    intro i raw
    simp only [fixRows, rowsCursors, swapAll_append, fixRow_trace]
    cases swapAll (rowCursors w (i + 1)) raw with
    | none => rfl
    | some raw1 =>
      simp only [Option.map_some', Option.some_bind]
      rw [ih]
      have : i + 1 + 4 * w + m * (4 * w + 1) = i + (m + 1) * (4 * w + 1) := by ring
      rw [this]

/-- The call `unsafeImageFix(w, h, raw)` is the sequence of swaps at its cursors. -/
theorem unsafeImageFix_trace (w h : Int) (raw : List Nat) :
    unsafeImageFix w h raw = swapAll (rowsCursors w.toNat h.toNat 0) raw := by
  unfold unsafeImageFix
  rw [fixRows_trace]
  cases swapAll (rowsCursors w.toNat h.toNat 0) raw with
  | none => rfl
  | some r => rfl

theorem swapRB_shift (a b : List Nat) (c : Nat) :
    swapRB (a ++ b) (a.length + c) = (swapRB b c).map (fun r => a ++ r) := by
  unfold swapRB
  by_cases hc : c + 2 < b.length
  · have hc2 : a.length + c + 2 < (a ++ b).length := by
      rw [List.length_append]
      omega
    rw [if_pos hc, if_pos hc2]
    simp only [Option.map_some', Option.some.injEq]
    have g1 : (a ++ b).getD (a.length + c) 0 = b.getD c 0 := by
      rw [List.getD_append_right _ _ _ _ (by omega)]
      congr 1
      omega
    have g2 : (a ++ b).getD (a.length + c + 2) 0 = b.getD (c + 2) 0 := by
      rw [List.getD_append_right _ _ _ _ (by omega)]
      congr 1
      omega
    have e1 : a.length + c + 2 - a.length = c + 2 := by omega
    have e2 : a.length + c - a.length = c := by omega
    rw [g1, g2, List.set_append_right _ _ (by omega), List.set_append_right _ _ (by omega),
      e1, e2]
  · have hc2 : ¬ a.length + c + 2 < (a ++ b).length := by
      rw [List.length_append]
      omega
    rw [if_neg hc, if_neg hc2]
    rfl

theorem swapAll_shift (a : List Nat) : ∀ (cs b : List Nat),
    swapAll (cs.map (fun c => a.length + c)) (a ++ b) = (swapAll cs b).map (fun r => a ++ r) := by
  intro cs
  induction cs with
  | nil => intro b; rfl
  | cons c cs ih =>
    intro b
    simp only [List.map_cons, swapAll, swapRB_shift]
    cases swapRB b c with
    | none => rfl
    | some b1 => exact ih b1

theorem rowCursors_length (n : Nat) : ∀ i, (rowCursors n i).length = n := by
  induction n with
  | zero => intro i; rfl
  | succ n ih => intro i; simp [rowCursors, ih]

theorem rowsCursors_length (w m : Nat) : ∀ i, (rowsCursors w m i).length = m * w := by
  induction m with
  | zero => intro i; simp [rowsCursors]
  | succ m ih =>
    intro i
    simp only [rowsCursors, List.length_append, rowCursors_length, ih]
    ring

theorem rowCursors_mem (n : Nat) : ∀ i c, c ∈ rowCursors n i → i ≤ c ∧ c + 4 ≤ i + 4 * n := by
  induction n with
  | zero => intro i c h; simp [rowCursors] at h
  | succ n ih =>
    intro i c h
    simp only [rowCursors, List.mem_cons] at h
    rcases h with rfl | h
    · omega
    · have := ih _ _ h
      omega

theorem rowsCursors_mem (w m : Nat) : ∀ i c, c ∈ rowsCursors w m i →
    i + 1 ≤ c ∧ c + 4 ≤ i + m * (4 * w + 1) := by
  induction m with
  | zero => intro i c h; simp [rowsCursors] at h
  | succ m ih =>
    intro i c h
    simp only [rowsCursors, List.mem_append] at h
    have e : (m + 1) * (4 * w + 1) = m * (4 * w + 1) + 4 * w + 1 := by ring
    rcases h with h | h
    · have := rowCursors_mem w _ _ h
      have : 0 ≤ m * (4 * w + 1) := Nat.zero_le _
      omega
    · have := ih _ _ h
      omega

/-- The cursors of a row are four apart. -/
theorem rowCursors_pairwise (n : Nat) : ∀ i,
    (rowCursors n i).Pairwise (fun a b => a + 4 ≤ b) := by
  induction n with
  | zero => intro i; simp [rowCursors]
  | succ n ih =>
    intro i
    simp only [rowCursors, List.pairwise_cons]
    refine ⟨fun c hc => ?_, ih _⟩
    have := rowCursors_mem n _ _ hc
    omega

theorem rowsCursors_pairwise (w m : Nat) : ∀ i,
    (rowsCursors w m i).Pairwise (fun a b => a + 4 ≤ b) := by
  induction m with
  | zero => intro i; simp [rowsCursors]
  | succ m ih =>
    intro i
    simp only [rowsCursors, List.pairwise_append]
    refine ⟨rowCursors_pairwise w _, ih _, fun a ha b hb => ?_⟩
    have h1 := rowCursors_mem w _ _ ha
    have h2 := rowsCursors_mem w m _ _ hb
    omega

/-- A successful run of the Adam7 loop is the sequence of swaps at its cursors. -/
theorem fixPasses_trace (w h : Int) (ps : List interlaceScan)
    (hg : ∀ p ∈ ps, 0 ≤ passWidth p w ∧ 0 ≤ passHeight p h) :
    ∀ (total : Nat) (raw out : List Nat),
    fixPasses w h ps total raw = some (out, none) →
    swapAll (passesCursors w h ps total) raw = some out := by
  induction ps with
  | nil =>
    intro total raw out hrun
    simp only [fixPasses, Option.some.injEq, Prod.mk.injEq, and_true] at hrun
    rw [← hrun]
    rfl
  | cons p ps ih =>
    intro total raw out hrun
    obtain ⟨hw, hh⟩ := hg p (List.mem_cons_self _ _)
    have hsz := pSize_eq p w h hw hh
    simp only [fixPasses] at hrun
    split_ifs at hrun with c1 c2
    · simp at hrun
    split at hrun
    · simp at hrun
    · next tail htail =>
      have hle : total ≤ raw.length := by
        simp only [not_or, not_lt] at c2
        exact_mod_cast c2.2
      rw [unsafeImageFix_trace, Int.toNat_ofNat] at htail
      have hsplit : raw = raw.take total ++ raw.drop total := (List.take_append_drop _ _).symm
      have hlen : (raw.take total).length = total := by
        rw [List.length_take]
        omega
      have h1 := swapAll_shift (raw.take total)
        (rowsCursors (passWidth p w).toNat (passHeight p h).toNat 0) (raw.drop total)
      rw [← hsplit, hlen, htail] at h1
      have hnext : (total : Int) + pSize p w h = ((total + (pSize p w h).toNat : Nat) : Int) := by
        rw [hsz, Int.toNat_ofNat, Nat.cast_add]
      rw [Int.toNat_ofNat, hnext] at hrun
      have h2 := ih (fun q hq => hg q (List.mem_cons_of_mem _ hq)) _ _ _ hrun
      simp only [passesCursors, swapAll_append, h1, Option.map_some', Option.some_bind]
      exact h2

theorem passesCursors_length (w h : Int) (ps : List interlaceScan) : ∀ (total : Nat),
    (passesCursors w h ps total).length =
      (ps.map (fun p => (passHeight p h).toNat * (passWidth p w).toNat)).sum := by
  induction ps with
  | nil => intro total; rfl
  | cons p ps ih =>
    intro total
    simp only [passesCursors, List.length_append, List.length_map, rowsCursors_length, ih,
      List.map_cons, List.sum_cons]

theorem passesCursors_mem (w h : Int) (ps : List interlaceScan)
    (hg : ∀ p ∈ ps, 0 ≤ passWidth p w ∧ 0 ≤ passHeight p h) : ∀ (total c : Nat),
    c ∈ passesCursors w h ps total → total + 1 ≤ c := by
  induction ps with
  | nil => intro total c hc; simp [passesCursors] at hc
  | cons p ps ih =>
    intro total c hc
    simp only [passesCursors, List.mem_append, List.mem_map] at hc
    rcases hc with ⟨c1, h1, rfl⟩ | h2
    · have := rowsCursors_mem _ _ _ _ h1
      omega
    · have := ih (fun q hq => hg q (List.mem_cons_of_mem _ hq)) _ _ h2
      omega

/-- The cursors of the Adam7 loop are four apart: no two swaps touch the same bytes. -/
theorem passesCursors_pairwise (w h : Int) (ps : List interlaceScan)
    (hg : ∀ p ∈ ps, 0 ≤ passWidth p w ∧ 0 ≤ passHeight p h) : ∀ (total : Nat),
    (passesCursors w h ps total).Pairwise (fun a b => a + 4 ≤ b) := by
  induction ps with
  | nil => intro total; simp [passesCursors]
  | cons p ps ih =>
    intro total
    obtain ⟨hw, hh⟩ := hg p (List.mem_cons_self _ _)
    have hsz := pSize_eq p w h hw hh
    simp only [passesCursors, List.pairwise_append]
    refine ⟨?_, ih (fun q hq => hg q (List.mem_cons_of_mem _ hq)) _, ?_⟩
    · rw [List.pairwise_map]
      exact (rowsCursors_pairwise _ _ 0).imp (fun hab => by omega)
    · intro a ha b hb
      simp only [List.mem_map] at ha
      obtain ⟨c1, h1, rfl⟩ := ha
      have h2 := rowsCursors_mem _ _ _ _ h1
      have h3 := passesCursors_mem w h ps (fun q hq => hg q (List.mem_cons_of_mem _ hq)) _ _ hb
      have h4 : (pSize p w h).toNat
          = (passHeight p h).toNat * (4 * (passWidth p w).toNat + 1) := by
        rw [hsz, Int.toNat_ofNat]
      omega

theorem count_range (P : Nat → Prop) [DecidablePred P] (f : Nat → Nat) (h0 : f 0 = 0)
    (hs : ∀ n, f (n + 1) = f n + if P n then 1 else 0) :
    ∀ n, ((List.range n).filter (fun x => decide (P x))).length = f n := by
  intro n
  induction n with
  | zero => simp [h0]
  | succ n ih =>
    rw [List.range_succ, List.filter_append, List.length_append, ih, hs]
    by_cases hp : P n
    · simp [hp]
    · simp [hp]

theorem tdiv_count (k o : Int) (f : Nat → Nat) (h0 : f 0 = 0)
    (hs : ∀ n : Nat, f (n + 1) = f n + if ((n : Int) % k = o) then 1 else 0)
    (hf : ∀ n : Nat, Int.tdiv ((n : Int) - o + k - 1) k = (f n : Int)) (w : Nat) :
    Int.tdiv ((w : Int) - o + k - 1) k = (((List.range w).filter
      (fun (x : Nat) => decide ((x : Int) % k = o))).length : Nat) := by
  rw [count_range (fun x : Nat => (x : Int) % k = o) f h0 hs w]
  exact hf w

theorem passWidth_count (p : interlaceScan) (hp : p ∈ interlacing) (w : Nat) :
    passWidth p w =
      (((List.range w).filter
        (fun (x : Nat) => decide ((x : Int) % p.xFactor = p.xOffset))).length : Nat) := by
  simp only [interlacing, List.mem_cons, List.mem_singleton, List.not_mem_nil, or_false] at hp
  rcases hp with h | h | h | h | h | h | h <;> subst h
  · exact tdiv_count 8 0 (fun n => (n + 7) / 8) (by decide)
      (fun n => by simp only []; split_ifs <;> omega)
      (fun n => by rw [Int.tdiv_eq_ediv (by omega) (by omega)]; simp only []; omega) w
  · exact tdiv_count 8 4 (fun n => (n + 3) / 8) (by decide)
      (fun n => by simp only []; split_ifs <;> omega)
      (fun n => by rw [Int.tdiv_eq_ediv (by omega) (by omega)]; simp only []; omega) w
  · exact tdiv_count 4 0 (fun n => (n + 3) / 4) (by decide)
      (fun n => by simp only []; split_ifs <;> omega)
      (fun n => by rw [Int.tdiv_eq_ediv (by omega) (by omega)]; simp only []; omega) w
  · exact tdiv_count 4 2 (fun n => (n + 1) / 4) (by decide)
      (fun n => by simp only []; split_ifs <;> omega)
      (fun n => by rw [Int.tdiv_eq_ediv (by omega) (by omega)]; simp only []; omega) w
  · exact tdiv_count 2 0 (fun n => (n + 1) / 2) (by decide)
      (fun n => by simp only []; split_ifs <;> omega)
      (fun n => by rw [Int.tdiv_eq_ediv (by omega) (by omega)]; simp only []; omega) w
  · exact tdiv_count 2 1 (fun n => n / 2) (by decide)
      (fun n => by simp only []; split_ifs <;> omega)
      (fun n => by rw [Int.tdiv_eq_ediv (by omega) (by omega)]; simp only []; omega) w
  · exact tdiv_count 1 0 (fun n => n) (by decide)
      (fun n => by simp only []; split_ifs <;> omega)
      (fun n => by rw [Int.tdiv_eq_ediv (by omega) (by omega)]; simp only []; omega) w

theorem passHeight_count (p : interlaceScan) (hp : p ∈ interlacing) (h : Nat) :
    passHeight p h =
      (((List.range h).filter
        (fun (x : Nat) => decide ((x : Int) % p.yFactor = p.yOffset))).length : Nat) := by
  simp only [interlacing, List.mem_cons, List.mem_singleton, List.not_mem_nil, or_false] at hp
  rcases hp with e | e | e | e | e | e | e <;> subst e
  · exact tdiv_count 8 0 (fun n => (n + 7) / 8) (by decide)
      (fun n => by simp only []; split_ifs <;> omega)
      (fun n => by rw [Int.tdiv_eq_ediv (by omega) (by omega)]; simp only []; omega) h
  · exact tdiv_count 8 0 (fun n => (n + 7) / 8) (by decide)
      (fun n => by simp only []; split_ifs <;> omega)
      (fun n => by rw [Int.tdiv_eq_ediv (by omega) (by omega)]; simp only []; omega) h
  · exact tdiv_count 8 4 (fun n => (n + 3) / 8) (by decide)
      (fun n => by simp only []; split_ifs <;> omega)
      (fun n => by rw [Int.tdiv_eq_ediv (by omega) (by omega)]; simp only []; omega) h
  · exact tdiv_count 4 0 (fun n => (n + 3) / 4) (by decide)
      (fun n => by simp only []; split_ifs <;> omega)
      (fun n => by rw [Int.tdiv_eq_ediv (by omega) (by omega)]; simp only []; omega) h
  · exact tdiv_count 4 2 (fun n => (n + 1) / 4) (by decide)
      (fun n => by simp only []; split_ifs <;> omega)
      (fun n => by rw [Int.tdiv_eq_ediv (by omega) (by omega)]; simp only []; omega) h
  · exact tdiv_count 2 0 (fun n => (n + 1) / 2) (by decide)
      (fun n => by simp only []; split_ifs <;> omega)
      (fun n => by rw [Int.tdiv_eq_ediv (by omega) (by omega)]; simp only []; omega) h
  · exact tdiv_count 2 1 (fun n => n / 2) (by decide)
      (fun n => by simp only []; split_ifs <;> omega)
      (fun n => by rw [Int.tdiv_eq_ediv (by omega) (by omega)]; simp only []; omega) h

theorem adam7_sum (w h : Nat) :
    (interlacing.map (fun p => passWidth p w * passHeight p h)).sum = (w : Int) * h := by
  simp only [interlacing, List.map_cons, List.map_nil, List.sum_cons, List.sum_nil, passWidth,
    passHeight]
  repeat rw [Int.tdiv_eq_ediv (by omega) (by omega)]
  have E1 : ((w : Int) - 0 + 8 - 1) / 8 + ((w : Int) - 4 + 8 - 1) / 8
      = ((w : Int) - 0 + 4 - 1) / 4 := by omega
  have E2 : ((h : Int) - 0 + 8 - 1) / 8 + ((h : Int) - 4 + 8 - 1) / 8
      = ((h : Int) - 0 + 4 - 1) / 4 := by omega
  have E3 : ((w : Int) - 0 + 4 - 1) / 4 + ((w : Int) - 2 + 4 - 1) / 4
      = ((w : Int) - 0 + 2 - 1) / 2 := by omega
  have E4 : ((h : Int) - 0 + 4 - 1) / 4 + ((h : Int) - 2 + 4 - 1) / 4
      = ((h : Int) - 0 + 2 - 1) / 2 := by omega
  have E5 : ((w : Int) - 0 + 2 - 1) / 2 + ((w : Int) - 1 + 2 - 1) / 2
      = ((w : Int) - 0 + 1 - 1) / 1 := by omega
  have E6 : ((h : Int) - 0 + 2 - 1) / 2 + ((h : Int) - 1 + 2 - 1) / 2 = (h : Int) := by omega
  have E7 : ((w : Int) - 0 + 1 - 1) / 1 = (w : Int) := by omega
  generalize ((w : Int) - 0 + 8 - 1) / 8 = a0 at *
  generalize ((w : Int) - 4 + 8 - 1) / 8 = a1 at *
  generalize ((w : Int) - 0 + 4 - 1) / 4 = a2 at *
  generalize ((w : Int) - 2 + 4 - 1) / 4 = a3 at *
  generalize ((w : Int) - 0 + 2 - 1) / 2 = a4 at *
  generalize ((w : Int) - 1 + 2 - 1) / 2 = a5 at *
  generalize ((w : Int) - 0 + 1 - 1) / 1 = a6 at *
  generalize ((h : Int) - 0 + 8 - 1) / 8 = b0 at *
  generalize ((h : Int) - 4 + 8 - 1) / 8 = b2 at *
  generalize ((h : Int) - 0 + 4 - 1) / 4 = b3 at *
  generalize ((h : Int) - 2 + 4 - 1) / 4 = b4 at *
  generalize ((h : Int) - 0 + 2 - 1) / 2 = b5 at *
  generalize ((h : Int) - 1 + 2 - 1) / 2 = b6 at *
  linear_combination b0 * E1 + a2 * E2 + b3 * E3 + a4 * E4 + b5 * E5 + a6 * E6 + (h : Int) * E7

theorem cursors_count_cast (w h : Int) : ∀ (ps : List interlaceScan),
    (∀ p ∈ ps, 0 ≤ passWidth p w ∧ 0 ≤ passHeight p h) →
    (((ps.map (fun p => (passHeight p h).toNat * (passWidth p w).toNat)).sum : Nat) : Int)
      = (ps.map (fun p => passWidth p w * passHeight p h)).sum := by
  intro ps
  induction ps with
  | nil => intro _; rfl
  | cons p ps ih =>
    intro hg
    obtain ⟨hw, hh⟩ := hg p (List.mem_cons_self _ _)
    simp only [List.map_cons, List.sum_cons, Nat.cast_add, Nat.cast_mul,
      Int.toNat_of_nonneg hw, Int.toNat_of_nonneg hh,
      ih (fun q hq => hg q (List.mem_cons_of_mem _ hq))]
    ring

theorem rawImageFix_adam7_eq (w h : Int) (raw : List Nat) :
    rawImageFix w h itAdam7 raw = fixPasses w h interlacing 0 raw := by
  unfold rawImageFix
  rw [if_neg (by decide)]

/-- The seven Adam7 passes count the pixels of a `w × h` image, in exact arithmetic:
the width `wp` of a pass is the number of columns `x < w` with
`x mod xFactor = xOffset`, its height `hp` the number of rows `y < h` with
`y mod yFactor = yOffset`, and the products `wp * hp` of the seven passes add up to
`w * h`. A successful Adam7 call of `rawImageFix` is the sequence of the swaps at the
cursors `passesCursors`, of which there are `w * h`, any two of them at least four
bytes apart. Where these cursors lie is decided by the pass lengths `pSize`, which are
not the lengths of the PNG layout when a pass has no column (`adam7_size_1x1`). -/
theorem adam7_partition_exact (w h : Nat) :
    (∀ p ∈ interlacing,
      passWidth p w = (((List.range w).filter
        (fun (x : Nat) => decide ((x : Int) % p.xFactor = p.xOffset))).length : Nat) ∧
      passHeight p h = (((List.range h).filter
        (fun (y : Nat) => decide ((y : Int) % p.yFactor = p.yOffset))).length : Nat)) ∧
    (interlacing.map (fun p => passWidth p w * passHeight p h)).sum = (w : Int) * h ∧
    (passesCursors w h interlacing 0).length = w * h ∧
    (passesCursors w h interlacing 0).Pairwise (fun a b => a + 4 ≤ b) ∧
    (∀ raw out, rawImageFix w h itAdam7 raw = some (out, none) →
      swapAll (passesCursors w h interlacing 0) raw = some out) := by
  refine ⟨fun p hp => ⟨passWidth_count p hp w, passHeight_count p hp h⟩, adam7_sum w h, ?_,
    passesCursors_pairwise w h interlacing (interlacing_geometry w h) 0, ?_⟩
  · have h1 := cursors_count_cast w h interlacing (interlacing_geometry w h)
    rw [adam7_sum, ← passesCursors_length w h interlacing 0] at h1
    exact_mod_cast h1
  · intro raw out hrun
    rw [rawImageFix_adam7_eq] at hrun
    exact fixPasses_trace w h interlacing (interlacing_geometry w h) 0 raw out hrun

theorem wrapInt64_eq (x : Int) (h1 : -9223372036854775808 ≤ x)
    (h2 : x ≤ 9223372036854775807) : wrapInt64 x = x := by
  unfold wrapInt64
  omega

theorem wrapInt64_add (a b : Int) : wrapInt64 (wrapInt64 a + b) = wrapInt64 (a + b) := by
  unfold wrapInt64
  omega

theorem wrapInt64_sub (a b : Int) : wrapInt64 (wrapInt64 a - b) = wrapInt64 (a - b) := by
  unfold wrapInt64
  omega

theorem passDim64_eq (n : Nat) (o k : Int) (ho : 0 ≤ o) (hk : o < k) (hk8 : k ≤ 8)
    (hn : (n : Int) + 7 ≤ maxInt64) :
    wrapInt64 (Int.tdiv (wrapInt64 (wrapInt64 (wrapInt64 ((n : Int) - o) + k) - 1)) k)
      = Int.tdiv ((n : Int) - o + k - 1) k := by
  unfold maxInt64 at hn
  have e3 : wrapInt64 ((n : Int) - o + k - 1) = (n : Int) - o + k - 1 :=
    wrapInt64_eq _ (by omega) (by omega)
  have e4 : Int.tdiv ((n : Int) - o + k - 1) k = ((n : Int) - o + k - 1) / k :=
    Int.tdiv_eq_ediv (by omega) (by omega)
  rw [wrapInt64_add, wrapInt64_sub, e3, e4]
  have h1 : 0 ≤ ((n : Int) - o + k - 1) / k := Int.ediv_nonneg (by omega) (by omega)
  have h2 : ((n : Int) - o + k - 1) / k ≤ (n : Int) - o + k - 1 :=
    Int.ediv_le_self _ (by omega)
  exact wrapInt64_eq _ (by omega) (by omega)

theorem passWidth64_eq (p : interlaceScan) (hp : p ∈ interlacing) (w : Nat)
    (hw : (w : Int) + 7 ≤ maxInt64) : passWidth64 p w = passWidth p w := by
  simp only [interlacing, List.mem_cons, List.mem_singleton, List.not_mem_nil, or_false] at hp
  rcases hp with h | h | h | h | h | h | h <;> subst h <;>
    exact passDim64_eq w _ _ (by decide) (by decide) (by decide) hw

theorem passHeight64_eq (p : interlaceScan) (hp : p ∈ interlacing) (h : Nat)
    (hh : (h : Int) + 7 ≤ maxInt64) : passHeight64 p h = passHeight p h := by
  simp only [interlacing, List.mem_cons, List.mem_singleton, List.not_mem_nil, or_false] at hp
  rcases hp with e | e | e | e | e | e | e <;> subst e <;>
    exact passDim64_eq h _ _ (by decide) (by decide) (by decide) hh

/-- The exact sum of the seven pass lengths is `4*w*h` plus the seven pass heights, each
of them at most `h`: it is at most `h * (4*w + 7)`. -/
theorem passesTotal_le (w h : Nat) :
    passesTotal w h interlacing ≤ (h : Int) * (4 * (w : Int) + 7) := by
  have hs := adam7_sum w h
  have hh : ∀ p ∈ interlacing, passHeight p h ≤ (h : Int) := by
    intro p hp
    simp only [interlacing, List.mem_cons, List.mem_singleton, List.not_mem_nil, or_false]
      at hp
    rcases hp with e | e | e | e | e | e | e <;> subst e <;> simp only [passHeight] <;>
      rw [Int.tdiv_eq_ediv (by omega) (by omega)] <;> omega
  have h1 := hh ⟨8, 8, 0, 0⟩ (by decide)
  have h2 := hh ⟨8, 8, 4, 0⟩ (by decide)
  have h3 := hh ⟨4, 8, 0, 4⟩ (by decide)
  have h4 := hh ⟨4, 4, 2, 0⟩ (by decide)
  have h5 := hh ⟨2, 4, 0, 2⟩ (by decide)
  have h6 := hh ⟨2, 2, 1, 0⟩ (by decide)
  have h7 := hh ⟨1, 2, 0, 1⟩ (by decide)
  simp only [interlacing, List.map_cons, List.map_nil, List.sum_cons, List.sum_nil] at hs
  simp only [passesTotal, pSize, interlacing, List.map_cons, List.map_nil, List.sum_cons,
    List.sum_nil]
  linarith

/-- On a 64-bit `int`, for `w + 7` and `h + 7` at most `math.MaxInt64`, the width and
the height computed for a pass are the numbers of the columns and of the rows of the
pass, and the products `wp * hp` of the seven passes add up to `w * h`. -/
theorem adam7_count64 (w h : Nat) (hw : (w : Int) + 7 ≤ maxInt64)
    (hh : (h : Int) + 7 ≤ maxInt64) :
    (∀ p ∈ interlacing,
      passWidth64 p w = (((List.range w).filter
        (fun (x : Nat) => decide ((x : Int) % p.xFactor = p.xOffset))).length : Nat) ∧
      passHeight64 p h = (((List.range h).filter
        (fun (y : Nat) => decide ((y : Int) % p.yFactor = p.yOffset))).length : Nat)) ∧
    (interlacing.map (fun p => passWidth64 p w * passHeight64 p h)).sum = (w : Int) * h := by
  refine ⟨fun p hp => ?_, ?_⟩
  · rw [passWidth64_eq p hp w hw, passHeight64_eq p hp h hh]
    exact ⟨passWidth_count p hp w, passHeight_count p hp h⟩
  · have e : interlacing.map (fun p => passWidth64 p w * passHeight64 p h)
        = interlacing.map (fun p => passWidth p w * passHeight p h) :=
      List.map_congr_left (fun p hp => by
        rw [passWidth64_eq p hp w hw, passHeight64_eq p hp h hh])
    rw [e]
    exact adam7_sum w h

/-! ## Claims about the Adam7 loop on a 64-bit `int` -/

set_option maxRecDepth 100000 in
/-- C20 (fails on the code). For a 3×1 image the code computes the pass widths
`1, 0, 1, 1, 2, 1, 3`, the pass heights `1, 1, 0, 1, 0, 1, 0` and the pass lengths
`5, 1, 0, 5, 0, 5, 0`: the three passes that have a pixel are placed at the offsets
0, 6 and 11, while the raw Adam7 data `exAdam7Row3` has them at 0, 5 and 10, because
the empty second pass is given one byte. The swaps are at the cursors 1, 7 and 12: on
the data followed by one more byte the call succeeds, and it has exchanged red and blue
in the pixel of column 0 but green and alpha in the pixels of columns 2 and 1; on the
15 bytes of the data it returns the data-size error after the first two swaps. Exact
arithmetic gives the same. So `decode` rejects the CgBI stream of this image, and when
the pixel data is followed by one more byte it returns a PNG stream whose `IDAT` holds
the pixels with green and alpha exchanged. -/
theorem adam7_swaps_green_alpha_3x1 :
    interlacing.map (fun p => (passWidth64 p 3, passHeight64 p 1, pSize64 p 3 1))
      = [(1, 1, 5), (0, 1, 1), (1, 0, 0), (1, 1, 5), (2, 0, 0), (1, 1, 5), (3, 0, 0)] ∧
    passesCursors64 3 1 interlacing 0 = [1, 7, 12] ∧
    rawImageFix64 3 1 itAdam7 (exAdam7Row3 ++ [99])
      = some ([0, 13, 12, 11, 14, 0, 31, 34, 33, 32, 0, 21, 24, 23, 22, 99], none) ∧
    rawImageFix64 3 1 itAdam7 exAdam7Row3
      = some ([0, 13, 12, 11, 14, 0, 31, 34, 33, 32, 0, 21, 22, 23, 24],
          some (GoError.UnexpectedError "amount of image data")) ∧
    rawImageFix 3 1 itAdam7 (exAdam7Row3 ++ [99])
      = rawImageFix64 3 1 itAdam7 (exAdam7Row3 ++ [99]) ∧
    rawImageFix 3 1 itAdam7 exAdam7Row3 = rawImageFix64 3 1 itAdam7 exAdam7Row3 ∧
    decode storedZlib (pngHeader ++ streamOf [exCgBI, exIHDR3, exIDAT3, exIEND])
      = some (DecodeResult.err (GoError.UnexpectedError "amount of image data")) ∧
    ∃ d, decode storedZlib (pngHeader ++ streamOf [exCgBI, exIHDR3, exIDAT3Long, exIEND])
        = some (DecodeResult.ok d) ∧
      d.buff = pngHeader ++ exIHDR3.bytes
        ++ (makeChunk [] tagIDAT (storedZlib.compress
            [0, 13, 12, 11, 14, 0, 31, 34, 33, 32, 0, 21, 24, 23, 22, 99])).1
        ++ exIEND.bytes :=
  ⟨by decide, by decide, by decide, by decide, by decide, by decide, by decide,
    _, rfl, by decide⟩

/-! ## The encoder: what is written and what is read -/

theorem encFrame_refl (e : encoder) : EncFrame e e :=
  ⟨List.prefix_refl _, Nat.le_refl _⟩

theorem encFrame_trans (a b c : encoder) (h1 : EncFrame a b) (h2 : EncFrame b c) :
    EncFrame a c :=
  ⟨h1.1.trans h2.1, Nat.le_trans h2.2 h1.2⟩

theorem encFrame_write (e : encoder) (p : List Nat) : EncFrame e { e with w := e.w ++ p } :=
  ⟨List.prefix_append _ _, Nat.le_refl _⟩

theorem encBind_frame (e : encoder) (x : encoder × Option GoError)
    (k : encoder → encoder × Option GoError) (hx : EncFrame e x.1)
    (hk : ∀ e1, EncFrame e e1 → EncFrame e (k e1).1) : EncFrame e (encBind x k).1 := by
  obtain ⟨e1, err⟩ := x
  cases err with
  | none => exact hk e1 hx
  | some err => exact hx

theorem enc_readTmp_frame (e : encoder) (n : Nat) :
    EncFrame e (e.readTmp n).1 ∧ (e.readTmp n).1.w = e.w ∧
    ((e.readTmp n).2 = none → (e.readTmp n).1.buff.length + n = e.buff.length) := by
  unfold encoder.readTmp
  obtain ⟨h1, h2⟩ := readFull_rest_length e.buff n
  exact ⟨⟨List.prefix_refl _, h1⟩, rfl, h2⟩

theorem writeChecksum_frame (e : encoder) : EncFrame e e.writeChecksum.1 := by
  show EncFrame e (encBind (e.readTmp 4) _).1
  apply encBind_frame _ _ _ (enc_readTmp_frame e 4).1
  intro e1 h1
  exact encFrame_trans _ _ _ h1 (encFrame_write e1 _)

theorem makeHeader_frame (e : encoder) :
    EncFrame { e with w := e.w ++ pngHeader } e.makeHeader.1 := by
  show EncFrame _ (encBind (encoder.readTmp _ pngHeader.length) (fun e2 => (e2, none))).1
  apply encBind_frame _ _ _ (enc_readTmp_frame _ _).1
  intro e1 h1
  exact h1

theorem makeCgBI_eq (e : encoder) :
    e.makeCgBI = ({ e with w := e.w ++ (putUint32 4 ++ tagCgBI ++ chunkDataCgBI ++
      putUint32 (crc32 (tagCgBI ++ chunkDataCgBI))) }, none) := by
  unfold encoder.makeCgBI
  rw [makeChunk_eq]
  rfl

theorem makeIHDR_frame (e : encoder) (len : Nat) : EncFrame e (e.makeIHDR len).1 := by
  unfold encoder.makeIHDR
  split_ifs
  · exact encFrame_refl e
  · have h0 : EncFrame e { e with w := e.w ++ e.tmp.take 8 } := encFrame_write e _
    show EncFrame e (encBind (encoder.readTmp _ 13) _).1
    apply encBind_frame _ _ _ (encFrame_trans _ _ _ h0 (enc_readTmp_frame _ 13).1)
    intro e1 h1
    simp only
    split_ifs
    · exact h1
    · apply encFrame_trans _ _ _ h1
      refine encFrame_trans _ _ _ ?_ (writeChecksum_frame _)
      exact ⟨List.prefix_append _ _, Nat.le_refl _⟩
    · apply encFrame_trans _ _ _ h1
      refine encFrame_trans _ _ _ ?_ (writeChecksum_frame _)
      exact ⟨List.prefix_append _ _, Nat.le_refl _⟩

theorem enc_idatLoop_frame : ∀ (fuel : Nat) (e : encoder) (len : Nat),
    EncFrame e (encoder.idatLoop fuel e len).1 := by
  intro fuel
  induction fuel with
  | zero => intro e len; exact encFrame_refl e
  | succ fuel ih =>
    intro e len
    simp only [encoder.idatLoop]
    have hr := (readFull_rest_length e.buff (min 4096 len)).1
    revert hr
    generalize readFull e.buff (min 4096 len) = x
    obtain ⟨b, rest, err⟩ := x
    intro hr
    split_ifs
    · cases err with
      | some err => exact ⟨List.prefix_refl _, hr⟩
      | none =>
        have hr2 : rest.length ≤ e.buff.length := hr
        refine encFrame_trans _ _ _ ?_ (ih _ _)
        exact ⟨List.prefix_refl _, hr2⟩
    · exact encFrame_refl e

theorem enc_copyLoop_frame : ∀ (fuel : Nat) (e : encoder) (len : Nat),
    EncFrame e (encoder.copyLoop fuel e len).1 := by
  intro fuel
  induction fuel with
  | zero => intro e len; exact encFrame_refl e
  | succ fuel ih =>
    intro e len
    simp only [encoder.copyLoop]
    have hr := (readFull_rest_length e.buff (min 4096 len)).1
    revert hr
    generalize readFull e.buff (min 4096 len) = x
    obtain ⟨b, rest, err⟩ := x
    intro hr
    split_ifs
    · cases err with
      | some err => exact ⟨List.prefix_refl _, hr⟩
      | none =>
        have hr2 : rest.length ≤ e.buff.length := hr
        refine encFrame_trans _ _ _ ?_ (ih _ _)
        exact ⟨List.prefix_append _ _, hr2⟩
    · exact encFrame_refl e

theorem makeIDAT_frame (e : encoder) (len : Nat) : EncFrame e (e.makeIDAT len).1 := by
  unfold encoder.makeIDAT
  split_ifs
  · exact encFrame_refl e
  · show EncFrame e (encBind (encoder.idatLoop len e len)
      (fun e1 => encBind (e1.readTmp 4) (fun e2 => (e2, none)))).1
    apply encBind_frame _ _ _ (enc_idatLoop_frame len e len)
    intro e1 h1
    apply encBind_frame _ _ _ (encFrame_trans _ _ _ h1 (enc_readTmp_frame e1 4).1)
    intro e2 h2
    exact h2

theorem makeIEND_frame (z : Zlib) (e e1 : encoder) (len : Nat) (err : Option GoError)
    (h : e.makeIEND z len = some (e1, err)) : EncFrame e e1 := by
  unfold encoder.makeIEND at h
  split_ifs at h
  · simp only [Option.some.injEq, Prod.mk.injEq] at h
    rw [← h.1]
    exact encFrame_refl e
  · cases hn : z.newReader e.zbuff with
    | some er =>
      simp only [hn, Option.some.injEq, Prod.mk.injEq] at h
      rw [← h.1]
      exact encFrame_refl e
    | none =>
      simp only [hn] at h
      split_ifs at h
      · simp only [Option.some.injEq, Prod.mk.injEq] at h
        rw [← h.1]
        exact encFrame_refl e
      · cases hf : rawImageFix e.width e.height e.interlace (z.readAll e.zbuff).1 with
        | none => simp [hf] at h
        | some res =>
          obtain ⟨data1, e1x⟩ := res
          cases e1x with
          | some er =>
            simp only [hf, Option.some.injEq, Prod.mk.injEq] at h
            rw [← h.1]
            exact encFrame_refl e
          | none =>
            simp only [hf, makeChunk_eq] at h
            split_ifs at h
            simp only [Option.some.injEq] at h
            have key : ∀ x : encoder, x.writeChecksum = (e1, err) → EncFrame x e1 := by
              intro x hx
              have := writeChecksum_frame x
              rw [hx] at this
              exact this
            have hw := key _ h
            refine encFrame_trans _ _ _ ?_ hw
            refine ⟨?_, Nat.le_refl _⟩
            simp only [List.append_assoc]
            exact List.prefix_append _ _

theorem enc_parseChunk_frame (z : Zlib) (e e1 : encoder) (err : Option GoError)
    (h : e.parseChunk z = some (e1, err)) :
    EncFrame e e1 ∧ (err = none → e1.buff.length + 8 ≤ e.buff.length) := by
  unfold encoder.parseChunk at h
  have hrd := enc_readTmp_frame e 8
  revert hrd h
  generalize e.readTmp 8 = x
  obtain ⟨x1, xe⟩ := x
  intro h hrd
  obtain ⟨hf, -, hlen⟩ := hrd
  simp only at hf hlen
  cases xe with
  | some er =>
    simp only [Option.some.injEq, Prod.mk.injEq] at h
    rw [← h.1, ← h.2]
    exact ⟨hf, fun hc => by simp at hc⟩
  | none =>
    have h8 : x1.buff.length + 8 = e.buff.length := hlen rfl
    have fin : ∀ y : encoder, EncFrame x1 y →
        EncFrame e y ∧ (err = none → y.buff.length + 8 ≤ e.buff.length) := by
      intro y hy
      refine ⟨encFrame_trans _ _ _ hf hy, fun _ => ?_⟩
      have := hy.2
      omega
    simp only at h
    split_ifs at h
    · simp only [Option.some.injEq, Prod.mk.injEq] at h
      rw [← h.1]
      exact fin _ (encFrame_refl _)
    · have hI := makeIHDR_frame { x1 with stage := dsSeenIHDR } (beUint32 (x1.tmp.take 4))
      revert hI h
      generalize encoder.makeIHDR { x1 with stage := dsSeenIHDR } (beUint32 (x1.tmp.take 4)) = y
      obtain ⟨y1, ye⟩ := y
      intro h hI
      have hI2 : EncFrame x1 y1 := hI
      cases ye with
      | some er =>
        simp only [Option.some.injEq, Prod.mk.injEq] at h
        rw [← h.1]
        exact fin _ hI2
      | none =>
        simp only at h
        split_ifs at h
        · simp only [Option.some.injEq, Prod.mk.injEq] at h
          rw [← h.1]
          exact fin _ hI2
        · simp only [Option.some.injEq, Prod.mk.injEq] at h
          rw [← h.1]
          exact fin _ hI2
    · simp only [Option.some.injEq, Prod.mk.injEq] at h
      rw [← h.1]
      exact fin _ (encFrame_refl _)
    · simp only [Option.some.injEq] at h
      have hI := makeIDAT_frame { x1 with stage := dsSeenIDAT } (beUint32 (x1.tmp.take 4))
      rw [h] at hI
      exact fin _ hI
    · simp only [Option.some.injEq, Prod.mk.injEq] at h
      rw [← h.1]
      exact fin _ (encFrame_refl _)
    · exact fin _ (makeIEND_frame z { x1 with stage := dsSeenIEND } e1 _ err h)
    · simp only [Option.some.injEq, Prod.mk.injEq] at h
      rw [← h.1]
      exact fin _ (encFrame_refl _)
    · have hI := enc_copyLoop_frame (beUint32 (x1.tmp.take 4))
        { x1 with w := x1.w ++ x1.tmp.take 8 } (beUint32 (x1.tmp.take 4))
      revert hI h
      generalize encoder.copyLoop (beUint32 (x1.tmp.take 4))
        { x1 with w := x1.w ++ x1.tmp.take 8 } (beUint32 (x1.tmp.take 4)) = y
      obtain ⟨y1, ye⟩ := y
      intro h hI
      have hI2 : EncFrame x1 y1 :=
        encFrame_trans _ _ _ (encFrame_write x1 _) hI
      cases ye with
      | some er =>
        simp only [Option.some.injEq, Prod.mk.injEq] at h
        rw [← h.1]
        exact fin _ hI2
      | none =>
        simp only [Option.some.injEq] at h
        have hw := writeChecksum_frame y1
        rw [h] at hw
        exact fin _ (encFrame_trans _ _ _ hI2 hw)

/-- The loop of `Encode` only appends to what has been written. -/
theorem encodeLoop_prefix (z : Zlib) : ∀ (fuel : Nat) (e : encoder) (res : EncodeResult),
    encodeLoop z fuel e = some res → e.w <+: res.written := by
  intro fuel
  induction fuel with
  | zero => intro e res h; simp [encodeLoop] at h
  | succ fuel ih =>
    intro e res h
    simp only [encodeLoop] at h
    split_ifs at h
    · cases hp : e.parseChunk z with
      | none =>
        simp only [hp, Option.some.injEq] at h
        rw [← h]
        exact List.prefix_refl _
      | some r =>
        obtain ⟨e1, err⟩ := r
        have hf := (enc_parseChunk_frame z e e1 err hp).1
        cases err with
        | some er =>
          simp only [hp, Option.some.injEq] at h
          rw [← h]
          exact hf.1
        | none =>
          simp only [hp] at h
          exact hf.1.trans (ih e1 res h)
    · simp only [Option.some.injEq] at h
      rw [← h]
      exact List.prefix_refl _

/-- The fuel of `encodeLoop` is enough as soon as it exceeds the number of unread bytes
of the staging buffer. -/
theorem encodeLoop_total (z : Zlib) : ∀ (fuel : Nat) (e : encoder),
    e.buff.length < fuel → encodeLoop z fuel e ≠ none := by
  intro fuel
  induction fuel with
  | zero => intro e h; omega
  | succ fuel ih =>
    intro e h
    simp only [encodeLoop]
    split_ifs
    · cases hp : e.parseChunk z with
      | none => simp
      | some r =>
        obtain ⟨e1, err⟩ := r
        cases err with
        | some er => simp
        | none =>
          simp only
          have := (enc_parseChunk_frame z e e1 none hp).2 rfl
          exact ih e1 (by omega)
    · simp

theorem enc_readTmp_ok (e : encoder) (a b : List Nat) (n : Nat) (hr : e.buff = a ++ b)
    (h : a.length = n) :
    e.readTmp n = ({ e with buff := b, tmp := a ++ e.tmp.drop n }, none) := by
  unfold encoder.readTmp
  rw [hr, readFull_ok a b n h]
  simp only [h]

theorem enc_writeChecksum_ok (e : encoder) (crc : Nat) (rest : List Nat)
    (hr : e.buff = putUint32 crc ++ rest) :
    e.writeChecksum = ({ e with buff := rest, tmp := putUint32 crc ++ e.tmp.drop 4,
                                w := e.w ++ putUint32 crc }, none) := by
  unfold encoder.writeChecksum
  rw [enc_readTmp_ok e (putUint32 crc) rest 4 hr (putUint32_length crc)]
  simp only [take_append_len _ _ 4 (putUint32_length crc)]

theorem cgbiChunkBytes_eq :
    putUint32 4 ++ tagCgBI ++ chunkDataCgBI ++ putUint32 (crc32 (tagCgBI ++ chunkDataCgBI))
      = cgbiChunkBytes := by
  have h1 : putUint32 4 = [0, 0, 0, 4] := by decide
  have h2 : chunkDataCgBI = [0x50, 0x00, 0x20, 0x06] := by decide
  rw [h1, h2]
  rfl

theorem makeHeader_ok (e : encoder) (a rest : List Nat) (ha : a.length = 8)
    (hr : e.buff = a ++ rest) :
    ∃ e1, e.makeHeader = (e1, none) ∧ e1.w = e.w ++ pngHeader ∧ e1.buff = rest ∧
      e1.stage = e.stage := by
  unfold encoder.makeHeader
  simp only
  have h8 : pngHeader.length = 8 := rfl
  rw [h8, enc_readTmp_ok { e with w := e.w ++ pngHeader } a rest 8 hr ha]
  exact ⟨_, rfl, rfl, rfl, rfl⟩

/-- The start of `Encode` on a staging buffer of at least eight bytes: the signature
and the `CgBI` chunk are written, the first eight staged bytes are dropped. -/
theorem encode_start (a rest : List Nat) (ha : a.length = 8) :
    ∃ e1 e2, (newEncoder (a ++ rest)).makeHeader = (e1, none) ∧ e1.makeCgBI = (e2, none) ∧
      e2.w = pngHeader ++ cgbiChunkBytes ∧ e2.buff = rest ∧ e2.stage = dsStart := by
  obtain ⟨e1, h1, hw, hb, hs⟩ := makeHeader_ok (newEncoder (a ++ rest)) a rest ha rfl
  refine ⟨e1, _, h1, makeCgBI_eq e1, ?_, hb, hs⟩
  simp only [cgbiChunkBytes_eq, hw]
  rfl

theorem makeIHDR_ok (e : encoder) (data rest : List Nat) (crc : Nat)
    (hl : data.length = 13) (hi : data.getD 12 0 = 0 ∨ data.getD 12 0 = 1)
    (hr : e.buff = data ++ (putUint32 crc ++ rest)) :
    ∃ e1, e.makeIHDR 13 = (e1, none) ∧
      e1.w = e.w ++ e.tmp.take 8 ++ data ++ putUint32 crc ∧ e1.buff = rest := by
  unfold encoder.makeIHDR
  simp only [ne_eq, not_true_eq_false, if_false]
  have hrd2 := enc_readTmp_ok { e with w := e.w ++ e.tmp.take 8 } data
    (putUint32 crc ++ rest) 13 hr hl
  rw [hrd2]
  have e4 : (data ++ List.drop 13 e.tmp).getD 12 0 = data.getD 12 0 :=
    List.getD_append _ _ _ _ (by omega)
  have e5 : List.take 13 (data ++ List.drop 13 e.tmp) = data := take_append_len _ _ 13 hl
  have hint : ¬ (((data.getD 12 0 : Nat) : Int) ≠ itNone ∧
      ((data.getD 12 0 : Nat) : Int) ≠ itAdam7) := by
    simp only [itNone, itAdam7]
    rcases hi with h | h <;> rw [h] <;> simp
  simp only [e4, hint, if_false]
  split_ifs
  · rw [enc_writeChecksum_ok _ crc rest rfl]
    refine ⟨_, rfl, ?_, rfl⟩
    simp only [e5]
  · rw [enc_writeChecksum_ok _ crc rest rfl]
    refine ⟨_, rfl, ?_, rfl⟩
    simp only [e5]

/-- The encoder's `parseChunk` on a staged `IHDR` chunk of length 13 with a valid
interlace byte, in state `dsStart`: the chunk is copied with its own bytes, whether or
not the colour type is accepted afterwards. -/
theorem enc_parseChunk_ihdr (z : Zlib) (e : encoder) (c : Chunk) (rest : List Nat)
    (hwf : c.WF) (ht : c.typ = tagIHDR) (hl : c.data.length = 13)
    (hi : c.data.getD 12 0 = 0 ∨ c.data.getD 12 0 = 1) (hs : e.stage = dsStart)
    (hr : e.buff = c.bytes ++ rest) :
    ∃ e1 err, e.parseChunk z = some (e1, err) ∧ e1.w = e.w ++ c.bytes ∧ e1.buff = rest := by
  have h8 : (putUint32 c.data.length ++ c.typ).length = 8 := by
    simp [putUint32_length, hwf.1]
  have hrd := enc_readTmp_ok e _ _ 8 (hr.trans (chunk_bytes_split c rest)) h8
  have e1 : beUint32 (List.take 4 (putUint32 c.data.length ++ c.typ ++ List.drop 8 e.tmp))
      = 13 := by
    rw [List.append_assoc, take_append_len _ _ 4 (putUint32_length _),
      beUint32_putUint32 _ hwf.2.1, hl]
  have e2 : List.take 4 (List.drop 4 (putUint32 c.data.length ++ c.typ ++ List.drop 8 e.tmp))
      = tagIHDR := by
    rw [List.append_assoc, drop_append_len _ _ 4 (putUint32_length _),
      take_append_len _ _ 4 hwf.1, ht]
  have e3 : List.take 8 (putUint32 c.data.length ++ c.typ ++ List.drop 8 e.tmp)
      = putUint32 c.data.length ++ c.typ := take_append_len _ _ 8 h8
  unfold encoder.parseChunk
  rw [hrd]
  simp only [e1, e2, if_true, hs, ne_eq, not_true_eq_false, if_false]
  obtain ⟨e4, h4, hw4, hb4⟩ := makeIHDR_ok
    { e with buff := c.data ++ (putUint32 c.crc ++ rest),
             tmp := putUint32 c.data.length ++ c.typ ++ List.drop 8 e.tmp,
             stage := dsSeenIHDR }
    c.data rest c.crc hl hi rfl
  rw [h4]
  simp only [e3] at hw4
  simp only
  split_ifs
  · refine ⟨_, _, rfl, ?_, hb4⟩
    rw [hw4]
    simp only [Chunk.bytes, List.append_assoc]
  · refine ⟨_, _, rfl, ?_, hb4⟩
    rw [hw4]
    simp only [Chunk.bytes, List.append_assoc]

theorem encodeStaged_prefix (z : Zlib) (a rest : List Nat) (ha : a.length = 8) :
    ∃ e2 res, e2.w = pngHeader ++ cgbiChunkBytes ∧ e2.buff = rest ∧ e2.stage = dsStart ∧
      encodeStaged z (a ++ rest) = some res ∧
      encodeLoop z ((a ++ rest).length + 1) e2 = some res ∧
      pngHeader ++ cgbiChunkBytes <+: res.written := by
  obtain ⟨e1, e2, h1, h2, hw, hb, hs⟩ := encode_start a rest ha
  have htot := encodeLoop_total z ((a ++ rest).length + 1) e2 (by
    rw [hb, List.length_append]
    omega)
  obtain ⟨res, hres⟩ := Option.ne_none_iff_exists'.mp htot
  refine ⟨e2, res, hw, hb, hs, ?_, hres, ?_⟩
  · unfold encodeStaged
    rw [h1]
    simp only [h2]
    exact hres
  · rw [← hw]
    exact encodeLoop_prefix z _ e2 res hres

/-- C13. `Encode` injects the `CgBI` marker right after the signature: whenever the
staging PNG encoding succeeds with a staged stream of at least eight bytes, `Encode`
ends, and the bytes it has written begin with the signature `89 50 4E 47 0D 0A 1A 0A`
followed by the sixteen bytes `00 00 00 04`, `CgBI`, `50 00 20 06`, CRC-32 of
`CgBI 50 00 20 06`; when the staged stream is the signature followed by an `IHDR`
chunk of length 13 with interlace byte 0 or 1, as `png.Encode` writes it, the bytes of
that chunk follow, from offset 24 on. -/
theorem encode_injects_cgbi (z : Zlib) (pngEncode : NRGBA → List Nat × Option GoError)
    (m : Image) (staged : List Nat) (henc : pngEncode (fixAlphaChannel m) = (staged, none))
    (h8 : 8 ≤ staged.length) :
    ∃ res, Encode z pngEncode m = some res ∧
      (pngHeader ++ cgbiChunkBytes).length = 24 ∧
      pngHeader ++ cgbiChunkBytes <+: res.written ∧
      (∀ (ihdr : Chunk) (rest : List Nat), staged = pngHeader ++ (ihdr.bytes ++ rest) → ihdr.WF →
        ihdr.typ = tagIHDR → ihdr.data.length = 13 →
        (ihdr.data.getD 12 0 = 0 ∨ ihdr.data.getD 12 0 = 1) →
        pngHeader ++ cgbiChunkBytes ++ ihdr.bytes <+: res.written) := by
  have hsplit : staged = staged.take 8 ++ staged.drop 8 := (List.take_append_drop 8 staged).symm
  have ha : (staged.take 8).length = 8 := by
    rw [List.length_take]
    omega
  obtain ⟨e2, res, hw, hb, hs, hres, hloop, hpre⟩ :=
    encodeStaged_prefix z (staged.take 8) (staged.drop 8) ha
  rw [← hsplit] at hres hloop
  refine ⟨res, ?_, by decide, hpre, ?_⟩
  · unfold Encode
    rw [henc]
    exact hres
  · intro ihdr rest hst hwf ht hl hi
    have hdrop : staged.drop 8 = ihdr.bytes ++ rest := by
      rw [hst]
      exact drop_append_len _ _ 8 rfl
    rw [hdrop] at hb
    obtain ⟨e3, err, hp, hw3, -⟩ := enc_parseChunk_ihdr z e2 ihdr rest hwf ht hl hi hs hb
    have hne : e2.stage ≠ dsSeenIEND := by rw [hs]; decide
    simp only [encodeLoop, hne, ne_eq, not_false_eq_true, if_true, hp] at hloop
    rw [← hw, ← hw3]
    cases err with
    | some er =>
      simp only [Option.some.injEq] at hloop
      rw [← hloop]
      exact List.prefix_refl _
    | none =>
      simp only at hloop
      exact encodeLoop_prefix z _ e3 res hloop

set_option maxRecDepth 100000 in
/-- Witness for C13: a staged PNG of a 1×1 image; the bytes written are the signature,
the `CgBI` chunk, the staged `IHDR` chunk, the rebuilt `IDAT` chunk and `IEND`. -/
theorem encode_injects_cgbi_witness :
    (∃ res, Encode storedZlib (fun _ => (exStaged, none)) (Image.nrgba exOrigin) = some res ∧
      pngHeader ++ cgbiChunkBytes ++ exIHDR.bytes <+: res.written) ∧
    (Encode storedZlib (fun _ => (exStaged, none)) (Image.nrgba exOrigin)).map
      EncodeResult.written = some (pngHeader ++ cgbiChunkBytes ++ exIHDR.bytes ++
        (Chunk.mk0 tagIDAT [1, 5, 0, 250, 255, 0, 30, 20, 10, 0]).bytes ++ exIEND.bytes) :=
  ⟨(encode_injects_cgbi storedZlib (fun _ => (exStaged, none)) (Image.nrgba exOrigin) exStaged
      rfl (by decide)).imp fun _ h =>
        ⟨h.1, h.2.2.2 exIHDR (streamOf [exPngIDAT, exIEND]) (by decide) (by decide) rfl rfl
          (Or.inl rfl)⟩,
    by decide⟩

theorem makeIEND_ok (z : Zlib) (e : encoder) (data data1 rest : List Nat) (crc : Nat)
    (hnr : z.newReader e.zbuff = none) (hra : z.readAll e.zbuff = (data, none))
    (hfix : rawImageFix e.width e.height e.interlace data = some (data1, none))
    (h6 : 6 ≤ (z.compress data1).length) (hr : e.buff = putUint32 crc ++ rest) :
    ∃ e1, e.makeIEND z 0 = some (e1, none) ∧
      e1.w = e.w ++ (makeChunk [] tagIDAT
        (((z.compress data1).drop 2).take ((z.compress data1).length - 6))).1
        ++ e.tmp.take 8 ++ putUint32 crc ∧
      e1.buff = rest ∧ e1.zbuff = z.compress data1 := by
  unfold encoder.makeIEND
  have h2 : ¬ (z.compress data1).length < 2 := by omega
  have h4 : ¬ ((z.compress data1).drop 2).length < 4 := by
    rw [List.length_drop]
    omega
  have hlen : ((z.compress data1).drop 2).length - 4 = (z.compress data1).length - 6 := by
    rw [List.length_drop]
    omega
  simp only [ne_eq, not_true_eq_false, if_false, hnr, hra, hfix, h2, h4, makeChunk_eq, hlen]
  have key : ∀ x : encoder, x.buff = putUint32 crc ++ rest → x.writeChecksum = _ :=
    fun x hx => enc_writeChecksum_ok x crc rest hx
  rw [key _ (by exact hr)]
  refine ⟨_, rfl, ?_, rfl, rfl⟩
  simp only [List.nil_append, List.append_assoc]

theorem makeIEND_short (z : Zlib) (e : encoder) (data data1 : List Nat)
    (hnr : z.newReader e.zbuff = none) (hra : z.readAll e.zbuff = (data, none))
    (hfix : rawImageFix e.width e.height e.interlace data = some (data1, none))
    (h6 : (z.compress data1).length < 6) : e.makeIEND z 0 = none := by
  unfold encoder.makeIEND
  simp only [ne_eq, not_true_eq_false, if_false, hnr, hra, hfix]
  by_cases h2 : (z.compress data1).length < 2
  · rw [if_pos h2]
  · rw [if_neg h2, if_pos (by rw [List.length_drop]; omega)]

theorem parseIEND_input (z : Zlib) (d : decoder) :
    (∀ e, z.newReader (inflaterInput d) = some e →
      parseIEND z d 0 = some ({ d with zbuff := inflaterInput d }, some (GoError.lib e))) ∧
    (z.newReader (inflaterInput d) = none →
      (z.readAll (inflaterInput d)).2 ≠ some LibError.ErrChecksum →
      parseIEND z d 0 = some ({ d with zbuff := inflaterInput d },
        (z.readAll (inflaterInput d)).2.map GoError.lib)) := by
  unfold parseIEND inflaterInput
  constructor
  · intro e he
    simp only [ne_eq, not_true_eq_false, if_false, he]
  · intro hn hr
    simp only [ne_eq, not_true_eq_false, if_false, hn]
    rw [if_pos hr]

theorem idatPayload_split (pre : List Chunk) (ps : List (List Nat))
    (hpre : ∀ c ∈ pre, c.typ ≠ tagIDAT) :
    idatPayload (pre ++ ps.map (Chunk.mk0 tagIDAT)) = ps.flatten := by
  induction pre with
  | nil =>
    induction ps with
    | nil => rfl
    | cons p ps ih =>
      simp only [List.nil_append, List.map_cons, idatPayload_cons, List.flatten_cons] at ih ⊢
      rw [ih]
      simp [Chunk.mk0]
  | cons c pre ih =>
    rw [List.cons_append, idatPayload_cons, if_neg (hpre c (List.mem_cons_self _ _)),
      List.nil_append]
    exact ih (fun x hx => hpre x (List.mem_cons_of_mem _ hx))

theorem reframe_agree (zc : List Nat) (h6 : 6 ≤ zc.length) :
    ([0x78, 0x1] ++ (zc.drop 2).take (zc.length - 6) ++ [0, 0, 0, 0]).length = zc.length ∧
    ∀ i, 2 ≤ i → i < zc.length - 4 →
      ([0x78, 0x1] ++ (zc.drop 2).take (zc.length - 6) ++ [0, 0, 0, 0])[i]? = zc[i]? := by
  constructor
  · simp only [List.length_append, List.length_take, List.length_drop, List.length_cons,
      List.length_nil]
    omega
  · intro i h2 hi
    obtain ⟨j, rfl⟩ : ∃ j, i = j + 2 := ⟨i - 2, by omega⟩
    have hj : j < ((zc.drop 2).take (zc.length - 6)).length := by
      rw [List.length_take, List.length_drop]
      omega
    rw [List.append_assoc, List.getElem?_append_right (by simp)]
    simp only [List.length_cons, List.length_nil, Nat.add_sub_cancel]
    rw [List.getElem?_append_left hj, List.getElem?_take_of_lt (by omega), List.getElem?_drop,
      Nat.add_comm]

/-- C14. Deflate re-framing is mirrored between the two directions. (1) Encoder: when
the recompressed zlib stream `zc` has at least six bytes, `makeIEND` emits an `IDAT`
chunk whose payload is `zc[2 : len(zc)-4]`. (2) Decoder: `IDAT` chunks with payloads
`ps` after chunks without `IDAT` gather the concatenation of `ps`; when the chunks
read carry that payload in any split, the bytes given to the inflater at `IEND` are
`78 01`, the payload and `00 00 00 00`; they are as many as `zc` and agree with `zc`
at every index in `[2, len(zc)-4)`. The results of `zlib.NewReader` and `ReadAll` on
these bytes decide what `parseIEND` returns. -/
theorem deflate_reframing (z zd : Zlib) :
    (∀ (e : encoder) (data data1 rest : List Nat) (crc : Nat),
      z.newReader e.zbuff = none → z.readAll e.zbuff = (data, none) →
      rawImageFix e.width e.height e.interlace data = some (data1, none) →
      6 ≤ (z.compress data1).length → e.buff = putUint32 crc ++ rest →
      ∃ e1, e.makeIEND z 0 = some (e1, none) ∧
        e1.w = e.w ++ (makeChunk [] tagIDAT
          (((z.compress data1).drop 2).take ((z.compress data1).length - 6))).1
          ++ e.tmp.take 8 ++ putUint32 crc) ∧
    (∀ (pre : List Chunk) (ps : List (List Nat)), (∀ c ∈ pre, c.typ ≠ tagIDAT) →
      idatPayload (pre ++ ps.map (Chunk.mk0 tagIDAT)) = ps.flatten) ∧
    (∀ (zc : List Nat) (cs : List Chunk) (rest0 : List Nat) (d : decoder),
      6 ≤ zc.length → idatPayload cs = (zc.drop 2).take (zc.length - 6) →
      (∀ c ∈ cs, c.WF) → (∀ c ∈ cs, c.typ ≠ tagIEND) →
      parseChunks zd cs.length (startDecoder (streamOf cs ++ rest0)) = some (d, none) →
      inflaterInput d = [0x78, 0x1] ++ (zc.drop 2).take (zc.length - 6) ++ [0, 0, 0, 0] ∧
      (inflaterInput d).length = zc.length ∧
      (∀ i, 2 ≤ i → i < zc.length - 4 → (inflaterInput d)[i]? = zc[i]?) ∧
      (∀ e, zd.newReader (inflaterInput d) = some e →
        parseIEND zd d 0 = some ({ d with zbuff := inflaterInput d }, some (GoError.lib e))) ∧
      (zd.newReader (inflaterInput d) = none →
        (zd.readAll (inflaterInput d)).2 ≠ some LibError.ErrChecksum →
        parseIEND zd d 0 = some ({ d with zbuff := inflaterInput d },
          (zd.readAll (inflaterInput d)).2.map GoError.lib))) := by
  refine ⟨?_, idatPayload_split, ?_⟩
  · intro e data data1 rest crc hnr hra hfix h6 hr
    obtain ⟨e1, h1, h2, -⟩ := makeIEND_ok z e data data1 rest crc hnr hra hfix h6 hr
    exact ⟨e1, h1, h2⟩
  · intro zc cs rest0 d h6 hpay hwf hne hrun
    obtain ⟨-, -, q3, -⟩ := run_summary zd cs _ d rest0 hwf hne rfl hrun
    have hin : inflaterInput d
        = [0x78, 0x1] ++ (zc.drop 2).take (zc.length - 6) ++ [0, 0, 0, 0] := by
      unfold inflaterInput
      rw [q3, hpay]
      rfl
    obtain ⟨a1, a2⟩ := reframe_agree zc h6
    obtain ⟨b1, b2⟩ := parseIEND_input zd d
    refine ⟨hin, by rw [hin]; exact a1, fun i h2 hi => by rw [hin]; exact a2 i h2 hi, b1, b2⟩

set_option maxRecDepth 100000 in
/-- Witness for C14: the encoder at `IEND` of the staged 1×1 image emits the `IDAT`
payload `zc[2 : len(zc)-4]`; the decoder, given that payload split in two `IDAT`
chunks, hands `78 01`, the payload and four zero bytes to the inflater. -/
theorem deflate_reframing_witness :
    (∃ e1, exEncAtIEND.makeIEND storedZlib 0 = some (e1, none) ∧
      e1.w = exEncAtIEND.w ++ (makeChunk [] tagIDAT
        (((storedZlib.compress [0, 30, 20, 10, 0]).drop 2).take
          ((storedZlib.compress [0, 30, 20, 10, 0]).length - 6))).1
        ++ exEncAtIEND.tmp.take 8 ++ putUint32 exIEND.crc) ∧
    inflaterInput (exAfter exSplit 4)
      = [0x78, 0x1] ++ ((storedZlib.compress [0, 30, 20, 10, 0]).drop 2).take
          ((storedZlib.compress [0, 30, 20, 10, 0]).length - 6) ++ [0, 0, 0, 0] ∧
    inflaterInput (exAfter exSplit 4)
      = [0x78, 0x1, 1, 5, 0, 250, 255, 0, 30, 20, 10, 0, 0, 0, 0, 0] :=
  ⟨(deflate_reframing storedZlib storedZlib).1 exEncAtIEND [0, 10, 20, 30, 0]
      [0, 30, 20, 10, 0] [] exIEND.crc (by decide) (by decide) (by decide) (by decide)
      (by decide),
    ((deflate_reframing storedZlib storedZlib).2.2 (storedZlib.compress [0, 30, 20, 10, 0])
      exSplit [] (exAfter exSplit 4) (by decide) (by decide) (by decide) (by decide)
      (by decide)).1,
    by decide⟩

/-- C16 (fails on the code). `fixAlphaChannel` runs its loops over `0 ≤ i < Dx`,
`0 ≤ j < Dy` and uses `i`, `j` as coordinates, so with bounds `(1,0)-(2,1)` it visits
the point `(0, 0)`, which is outside the bounds, and never the pixel `(1, 0)`. For the
`*image.NRGBA` with the opaque pixel `(10, 20, 30, 255)` there, the image handed to the
encoder still has alpha 255 at `(1, 0)`; for an image of another type with the same
pixel the new image has `(0, 0, 0, 0)` there, not `(10, 20, 30, 0)`. With the bounds
`(0,0)-(1,1)` the same pixel becomes `(10, 20, 30, 0)`. -/
theorem alpha_not_normalised_off_origin :
    (Image.nrgba exShifted).Bounds.contains 1 0 ∧
    exShifted.At 1 0 = ⟨10, 20, 30, 255⟩ ∧
    (fixAlphaChannel (Image.nrgba exShifted)).rect = (Image.nrgba exShifted).Bounds ∧
    (fixAlphaChannel (Image.nrgba exShifted)).At 1 0 = ⟨10, 20, 30, 255⟩ ∧
    exShiftedOther.Bounds.contains 1 0 ∧
    (fixAlphaChannel exShiftedOther).rect = exShiftedOther.Bounds ∧
    (fixAlphaChannel exShiftedOther).At 1 0 = ⟨0, 0, 0, 0⟩ ∧
    (fixAlphaChannel (Image.nrgba exOrigin)).At 0 0 = ⟨10, 20, 30, 0⟩ := by
  refine ⟨by decide, by decide, by decide, by decide, by decide, by decide, by decide,
    by decide⟩

/-! ## The alpha normalisation when the bounds start at the origin -/

theorem alphaState_step (r : Rectangle) (s : Int → Int → Nat × Nat × Nat × Nat)
    (pix0 : Int → Int → NRGBAColor) (cur : NRGBA) (P : Int → Int → Prop) (i j : Int)
    (c : NRGBAColor) (hc : c = alphaFixed (s i j)) (h : AlphaState r s pix0 cur P) :
    AlphaState r s pix0 (cur.SetNRGBA i j c) (fun x y => P x y ∨ (x = i ∧ y = j)) := by
  obtain ⟨hr, hv, hn⟩ := h
  unfold NRGBA.SetNRGBA
  by_cases hin : cur.rect.contains i j
  · rw [if_pos hin]
    refine ⟨hr, ?_, ?_⟩
    · intro x y hp hxy
      simp only
      by_cases hx : x = i ∧ y = j
      · rw [if_pos hx, hc, hx.1, hx.2]
      · rw [if_neg hx]
        rcases hp with hp | hp
        · exact hv x y hp hxy
        · exact absurd hp hx
    · intro x y hp hxy
      simp only
      have hx : ¬ (x = i ∧ y = j) := fun h => hp (Or.inr h)
      rw [if_neg hx]
      exact hn x y (fun h => hp (Or.inl h)) hxy
  · rw [if_neg hin]
    refine ⟨hr, ?_, ?_⟩
    · intro x y hp hxy
      rcases hp with hp | ⟨rfl, rfl⟩
      · exact hv x y hp hxy
      · rw [hr] at hin
        exact absurd hxy hin
    · intro x y hp hxy
      exact hn x y (fun h => hp (Or.inl h)) hxy

theorem alphaState_congr (r : Rectangle) (s : Int → Int → Nat × Nat × Nat × Nat)
    (pix0 : Int → Int → NRGBAColor) (cur : NRGBA) (P Q : Int → Int → Prop)
    (hpq : ∀ x y, P x y ↔ Q x y) (h : AlphaState r s pix0 cur P) :
    AlphaState r s pix0 cur Q :=
  ⟨h.1, fun x y hq => h.2.1 x y ((hpq x y).mpr hq),
    fun x y hq => h.2.2 x y (fun hp => hq ((hpq x y).mp hp))⟩

/-- The inner loop visits the points `(i, j), …, (i, j + n - 1)`. -/
theorem fixAlphaCol_state (r : Rectangle) (s : Int → Int → Nat × Nat × Nat × Nat)
    (pix0 : Int → Int → NRGBAColor) (src : NRGBA → Int → Int → Nat × Nat × Nat × Nat)
    (hsrc : ∀ cur P x y, AlphaState r s pix0 cur P → ¬ P x y → src cur x y = s x y)
    (i : Int) : ∀ (n : Nat) (j : Int) (cur : NRGBA) (P : Int → Int → Prop),
    AlphaState r s pix0 cur P → (∀ y, j ≤ y → y < j + n → ¬ P i y) →
    AlphaState r s pix0 (fixAlphaCol src n i j cur)
      (fun x y => P x y ∨ (x = i ∧ j ≤ y ∧ y < j + n)) := by
  intro n
  induction n with
  | zero =>
    intro j cur P h _
    apply alphaState_congr r s pix0 cur P _ _ h
    intro x y
    simp only [Nat.cast_zero, add_zero]
    constructor
    · exact fun hp => Or.inl hp
    · rintro (hp | ⟨-, h1, h2⟩)
      · exact hp
      · omega
  | succ n ih =>
    intro j cur P h hfresh
    have hs : src cur i j = s i j := hsrc cur P i j h (hfresh j (le_refl _) (by push_cast; omega))
    simp only [fixAlphaCol, hs]
    have hstep := alphaState_step r s pix0 cur P i j
      ⟨uint8 (s i j).1, uint8 (s i j).2.1, uint8 (s i j).2.2.1, 0⟩ rfl h
    have hnext := ih (j + 1) _ _ hstep (by
      intro y h1 h2
      rintro (hp | ⟨-, hy⟩)
      · exact hfresh y (by omega) (by push_cast; omega) hp
      · omega)
    apply alphaState_congr r s pix0 _ _ _ _ hnext
    intro x y
    push_cast
    constructor
    · rintro ((hp | ⟨hx, hy⟩) | ⟨hx, h1, h2⟩)
      · exact Or.inl hp
      · exact Or.inr ⟨hx, by omega, by omega⟩
      · exact Or.inr ⟨hx, by omega, by omega⟩
    · rintro (hp | ⟨hx, h1, h2⟩)
      · exact Or.inl (Or.inl hp)
      · by_cases hy : y = j
        · exact Or.inl (Or.inr ⟨hx, hy⟩)
        · exact Or.inr ⟨hx, by omega, by omega⟩

/-- The outer loop visits the points `(x, y)` with `i ≤ x < i + n` and `0 ≤ y < dy`. -/
theorem fixAlphaRows_state (r : Rectangle) (s : Int → Int → Nat × Nat × Nat × Nat)
    (pix0 : Int → Int → NRGBAColor) (src : NRGBA → Int → Int → Nat × Nat × Nat × Nat)
    (hsrc : ∀ cur P x y, AlphaState r s pix0 cur P → ¬ P x y → src cur x y = s x y)
    (dy : Nat) : ∀ (n : Nat) (i : Int) (cur : NRGBA) (P : Int → Int → Prop),
    AlphaState r s pix0 cur P →
    (∀ (x y : Int), i ≤ x → x < i + n → 0 ≤ y → y < dy → ¬ P x y) →
    AlphaState r s pix0 (fixAlphaRows src dy n i cur)
      (fun x y => P x y ∨ (i ≤ x ∧ x < i + n ∧ 0 ≤ y ∧ y < dy)) := by
  intro n
  induction n with
  | zero =>
    intro i cur P h _
    apply alphaState_congr r s pix0 cur P _ _ h
    intro x y
    simp only [Nat.cast_zero, add_zero]
    constructor
    · exact fun hp => Or.inl hp
    · rintro (hp | ⟨h1, h2, -⟩)
      · exact hp
      · omega
  | succ n ih =>
    intro i cur P h hfresh
    simp only [fixAlphaRows]
    have hcol := fixAlphaCol_state r s pix0 src hsrc i dy 0 cur P h (by
      intro y h1 h2
      exact hfresh i y (le_refl _) (by push_cast; omega) h1 (by omega))
    have hnext := ih (i + 1) _ _ hcol (by
      intro x y h1 h2 h3 h4
      rintro (hp | ⟨hx, -⟩)
      · exact hfresh x y (by omega) (by push_cast; omega) h3 h4 hp
      · omega)
    apply alphaState_congr r s pix0 _ _ _ _ hnext
    intro x y
    push_cast
    constructor
    · rintro ((hp | ⟨hx, h1, h2⟩) | ⟨h1, h2, h3, h4⟩)
      · exact Or.inl hp
      · exact Or.inr ⟨by omega, by omega, h1, by omega⟩
      · exact Or.inr ⟨by omega, by omega, h3, h4⟩
    · rintro (hp | ⟨h1, h2, h3, h4⟩)
      · exact Or.inl (Or.inl hp)
      · by_cases hx : x = i
        · exact Or.inl (Or.inr ⟨hx, h3, by omega⟩)
        · exact Or.inr ⟨by omega, by omega, h3, h4⟩

/-- The loops of `fixAlphaChannel` in general: the image handed to the encoder has the
bounds of `m`; a pixel of the bounds with `0 ≤ x < Dx` and `0 ≤ y < Dy` holds the fixed
value, alpha 0; any other pixel of the bounds holds what the image held before the
loops. -/
theorem fixAlphaChannel_state (m : Image) :
    AlphaState m.Bounds m.rgbaAt
      (match m with
        | Image.nrgba inst => inst.pix
        | Image.other _ _ => fun _ _ => ⟨0, 0, 0, 0⟩)
      (fixAlphaChannel m)
      (fun x y => 0 ≤ x ∧ x < m.Bounds.Dx.toNat ∧ 0 ≤ y ∧ y < m.Bounds.Dy.toNat) := by
  cases m with
  | nrgba inst =>
    have h0 : AlphaState inst.rect (fun x y => (inst.At x y).RGBA) inst.pix inst
        (fun _ _ => False) := ⟨rfl, fun _ _ h => absurd h id, fun _ _ _ _ => rfl⟩
    have hsrc : ∀ (cur : NRGBA) (P : Int → Int → Prop) (x y : Int),
        AlphaState inst.rect (fun x y => (inst.At x y).RGBA) inst.pix cur P → ¬ P x y →
        (fun (c : NRGBA) i j => (c.At i j).RGBA) cur x y = (inst.At x y).RGBA := by
      intro cur P x y hst hp
      simp only [NRGBA.At, hst.1]
      by_cases hin : inst.rect.contains x y
      · rw [if_pos hin, if_pos hin, hst.2.2 x y hp hin]
      · rw [if_neg hin, if_neg hin]
    have h := fixAlphaRows_state inst.rect (fun x y => (inst.At x y).RGBA) inst.pix _ hsrc
      inst.rect.Dy.toNat inst.rect.Dx.toNat 0 inst _ h0 (fun _ _ _ _ _ _ h => h)
    apply alphaState_congr _ _ _ _ _ _ _ h
    intro x y
    simp only [false_or, zero_add, Image.Bounds]
  | other bounds f =>
    have h0 : AlphaState bounds f (fun _ _ => ⟨0, 0, 0, 0⟩) (NewNRGBA bounds)
        (fun _ _ => False) := ⟨rfl, fun _ _ h => absurd h id, fun _ _ _ _ => rfl⟩
    have h := fixAlphaRows_state bounds f (fun _ _ => ⟨0, 0, 0, 0⟩) (fun _ i j => f i j)
      (fun _ _ _ _ _ _ => rfl) bounds.Dy.toNat bounds.Dx.toNat 0 (NewNRGBA bounds) _ h0
      (fun _ _ _ _ _ _ h => h)
    apply alphaState_congr _ _ _ _ _ _ _ h
    intro x y
    simp only [false_or, zero_add, Image.Bounds]

/-- When the bounds of `m` start at `(0, 0)`, every pixel inside the bounds of the image
that `fixAlphaChannel` hands to the encoder has alpha 0 and the low bytes of the source
channels; a source pixel `(r, g, b, 255)` of 8-bit channels becomes `(r, g, b, 0)`. -/
theorem fixAlphaChannel_origin (m : Image) (hx : m.Bounds.minX = 0) (hy : m.Bounds.minY = 0) :
    (fixAlphaChannel m).rect = m.Bounds ∧
    (∀ x y, m.Bounds.contains x y →
      (fixAlphaChannel m).At x y = alphaFixed (m.rgbaAt x y) ∧
      ((fixAlphaChannel m).At x y).A = 0) ∧
    (∀ (inst : NRGBA) x y r g b, m = Image.nrgba inst → m.Bounds.contains x y →
      inst.At x y = ⟨r, g, b, 255⟩ → r < 256 → g < 256 → b < 256 →
      (fixAlphaChannel m).At x y = ⟨r, g, b, 0⟩) := by
  obtain ⟨hr, hv, -⟩ := fixAlphaChannel_state m
  have hat : ∀ x y, m.Bounds.contains x y →
      (fixAlphaChannel m).At x y = alphaFixed (m.rgbaAt x y) := by
    intro x y hin
    unfold NRGBA.At
    rw [hr, if_pos hin]
    apply hv x y _ hin
    obtain ⟨h1, h2, h3, h4⟩ := hin
    simp only [Rectangle.Dx, Rectangle.Dy, hx, hy, sub_zero] at h1 h2 h3 h4 ⊢
    refine ⟨h1, ?_, h3, ?_⟩
    · rw [Int.toNat_of_nonneg (by omega)]
      exact h2
    · rw [Int.toNat_of_nonneg (by omega)]
      exact h4
  refine ⟨hr, fun x y hin => ⟨hat x y hin, by rw [hat x y hin]; rfl⟩, ?_⟩
  intro inst x y r g b hm hin hpix hr1 hg1 hb1
  rw [hat x y hin, hm]
  simp only [Image.rgbaAt, hpix, NRGBAColor.RGBA, alphaFixed, uint8]
  have e1 : r * 0x101 * 255 / 0xff % 256 = r := by omega
  have e2 : g * 0x101 * 255 / 0xff % 256 = g := by omega
  have e3 : b * 0x101 * 255 / 0xff % 256 = b := by omega
  rw [e1, e2, e3]

end Cgbi
